import Mathlib

/-!
Endianness support template (`rpcs3/util/endian.hpp`)

A shallow embedding of `stx::se_storage` (the storage selector with its byte
reversal routines) and of `stx::se_t` (the endian-aware value wrapper),
followed by the properties proved about them.

Conventions of the embedding

* A value of a physical representation is a `Storage`; its memory image is the
  list of its bytes in increasing address order (`Storage.bytes`), which
  depends on the byte order of the host (`Endian`).
* `std::bit_cast` copies the memory image; it is only defined between types of
  the same size, so it returns an `Option`.
* A logical value handed to or returned by the wrapper is represented by its
  object representation (its bytes); integer logical types are layered on top
  with `IntType.toBytes` and `IntType.ofBytes`.
* Array accesses are checked: an access outside the array, a `std::size_t`
  subtraction that would wrap, and an arithmetic operation whose behaviour is
  undefined all give `none`.
* Signed overflow of the promoted operands is given under two rules
  (`Overflow`): undefined, as ISO C++ words it, and wrapping, as the two's
  complement arithmetic of the targets computes it; the second agrees with the
  first wherever the first defines a result.
-/

namespace stx

/-! ## Integers and their memory image -/

/-- Byte order of the host machine. -/
inductive Endian where
  | little
  | big
  deriving DecidableEq, Repr

/-- The `n` low-order bytes of `v`, least significant byte first. -/
def leBytes : Nat → Nat → List Nat
  | 0, _ => []
  | n + 1, v => v % 256 :: leBytes n (v / 256)

/-- The number whose bytes, least significant first, are `bs`. -/
def ofLeBytes : List Nat → Nat
  | [] => 0
  | b :: bs => b + 256 * ofLeBytes bs

/-- Memory image of an `n`-byte unsigned integer `v` on the host `h`. -/
def intBytes (h : Endian) (n v : Nat) : List Nat :=
  match h with
  | .little => leBytes n v
  | .big => (leBytes n v).reverse

/-- The unsigned integer whose memory image on the host `h` is `bs`. -/
def intOfBytes (h : Endian) (bs : List Nat) : Nat :=
  match h with
  | .little => ofLeBytes bs
  | .big => ofLeBytes bs.reverse

/-- Modelled from the spec: the toolchain primitive `__builtin_bswap16` /
`_byteswap_ushort` (not part of the repository), the 16-bit byte reversal,
given by its value on the integer `x`, independently of the host. -/
def bswap16 (x : Nat) : Nat :=
  (x % 256) * 2 ^ 8 + x / 2 ^ 8 % 256

/-- Modelled from the spec: the toolchain primitive `__builtin_bswap32` /
`_byteswap_ulong` (not part of the repository), the 32-bit byte reversal. -/
def bswap32 (x : Nat) : Nat :=
  (x % 256) * 2 ^ 24 + (x / 2 ^ 8 % 256) * 2 ^ 16 + (x / 2 ^ 16 % 256) * 2 ^ 8
    + x / 2 ^ 24 % 256

/-- Modelled from the spec: the toolchain primitive `__builtin_bswap64` /
`_byteswap_uint64` (not part of the repository), the 64-bit byte reversal. -/
def bswap64 (x : Nat) : Nat :=
  (x % 256) * 2 ^ 56 + (x / 2 ^ 8 % 256) * 2 ^ 48 + (x / 2 ^ 16 % 256) * 2 ^ 40
    + (x / 2 ^ 24 % 256) * 2 ^ 32 + (x / 2 ^ 32 % 256) * 2 ^ 24
    + (x / 2 ^ 40 % 256) * 2 ^ 16 + (x / 2 ^ 48 % 256) * 2 ^ 8 + x / 2 ^ 56 % 256

/-! ## Physical representations -/

/-- Size and alignment of a logical type `T`: `sizeof(T)` and `alignof(T)`. -/
structure CType where
  size : Nat
  align : Nat
  deriving DecidableEq, Repr

/-- The representation types `se_storage<...>::type` can be:
`std::uint16_t`, `std::uint32_t`, `std::uint64_t`, the struct `type64` holding
`n` 64-bit words, and the struct `type8` holding `size` bytes with the
alignment `align`. -/
inductive Shape where
  | u16
  | u32
  | u64
  | type64 (n : Nat)
  | type8 (align size : Nat)
  deriving DecidableEq, Repr

/-- Size in bytes of a representation type. -/
def Shape.size : Shape → Nat
  | .u16 => 2
  | .u32 => 4
  | .u64 => 8
  | .type64 n => 8 * n
  | .type8 _ size => size

/-- A value of a representation type. -/
inductive Storage where
  | u16 (v : Nat)
  | u32 (v : Nat)
  | u64 (v : Nat)
  | type64 (data : List Nat)
  | type8 (data : List Nat)
  deriving DecidableEq, Repr

/-- Memory image of a stored value: its bytes in increasing address order. -/
def Storage.bytes (h : Endian) : Storage → List Nat
  | .u16 v => intBytes h 2 v
  | .u32 v => intBytes h 4 v
  | .u64 v => intBytes h 8 v
  | .type64 data => data.flatMap (intBytes h 8)
  | .type8 data => data

/-- The `n` 64-bit words whose memory image is `bs`. -/
def wordsOfBytes (h : Endian) : Nat → List Nat → List Nat
  | 0, _ => []
  | n + 1, bs => intOfBytes h (bs.take 8) :: wordsOfBytes h n (bs.drop 8)

/-- The value of representation type `sh` whose memory image is `bs`. -/
def Storage.ofBytes (h : Endian) (sh : Shape) (bs : List Nat) : Storage :=
  match sh with
  | .u16 => .u16 (intOfBytes h bs)
  | .u32 => .u32 (intOfBytes h bs)
  | .u64 => .u64 (intOfBytes h bs)
  | .type64 n => .type64 (wordsOfBytes h n bs)
  | .type8 _ _ => .type8 bs

/-- Whether `s` is a value of the representation type `sh`: the right
alternative, every integer within its width, every array of its length. -/
def Storage.hasShape : Storage → Shape → Bool
  | .u16 v, .u16 => decide (v < 2 ^ 16)
  | .u32 v, .u32 => decide (v < 2 ^ 32)
  | .u64 v, .u64 => decide (v < 2 ^ 64)
  | .type64 data, .type64 n => decide (data.length = n) && data.all (fun w => decide (w < 2 ^ 64))
  | .type8 data, .type8 _ size => decide (data.length = size) && data.all (fun b => decide (b < 256))
  | _, _ => false

/-- Whether `bs` is a sequence of `n` bytes. -/
def isBytes (n : Nat) (bs : List Nat) : Bool :=
  decide (bs.length = n) && bs.all (fun b => decide (b < 256))

/-- `std::bit_cast<To>(src)`: the value of type `To` with the memory image of
`src`; only defined when both types have the same size. -/
def bit_cast (h : Endian) (To : Shape) (src : Storage) : Option Storage :=
  if (src.bytes h).length = To.size then some (Storage.ofBytes h To (src.bytes h)) else none

/-! ## `se_storage` -/

/-- The primary template's `type`:
`std::conditional_t<(Align >= 8 && sizeof(T) % 8 == 0), type64, type8>`, where
`type64` is `alignas(8) std::uint64_t data[sizeof(T) / 8]` and `type8` is
`alignas(Align > alignof(T) ? alignof(T) : Align) unsigned char data[sizeof(T)]`. -/
def se_storage.primary_type (T : CType) (Align : Nat) : Shape :=
  if Align ≥ 8 ∧ T.size % 8 = 0 then .type64 (T.size / 8)
  else .type8 (if Align > T.align then T.align else Align) T.size

/-- `se_storage<T, Align, Size>::type`: the three specialisations
`<T, alignof(std::uint16_t), 2>`, `<T, alignof(std::uint32_t), 4>`,
`<T, alignof(std::uint64_t), 8>` first, then the primary template. -/
def se_storage.type (T : CType) (Align Size : Nat) : Shape :=
  if Align = 2 ∧ Size = 2 then .u16
  else if Align = 4 ∧ Size = 4 then .u32
  else if Align = 8 ∧ Size = 8 then .u64
  else se_storage.primary_type T Align

/-- `se_storage<T, alignof(std::uint16_t), 2>::swap`. -/
def se_storage.swap16 : Storage → Option Storage
  | .u16 src => some (.u16 (bswap16 src))
  | _ => none

/-- `se_storage<T, alignof(std::uint32_t), 4>::swap`. -/
def se_storage.swap32 : Storage → Option Storage
  | .u32 src => some (.u32 (bswap32 src))
  | _ => none

/-- `se_storage<T, alignof(std::uint64_t), 8>::swap`. -/
def se_storage.swap64 : Storage → Option Storage
  | .u64 src => some (.u64 (bswap64 src))
  | _ => none

/-- The `std::size_t` subtraction `a - b` used as an array index: a wrapped
result lies outside every array, so it is reported as `none`. -/
def indexSub (a b : Nat) : Option Nat :=
  if b ≤ a then some (a - b) else none

/-- Checked array write `dst[i] = v`. -/
def writeAt (dst : List Nat) (i v : Nat) : Option (List Nat) :=
  if i < dst.length then some (dst.set i v) else none

/-- The loop `for (std::size_t i = i0; i < i0 + k; i++) body`: `k` iterations
are left and the next index is `i`. -/
def forLoop (body : Nat → List Nat → Option (List Nat)) : Nat → Nat → List Nat → Option (List Nat)
  | 0, _, dst => some dst
  | k + 1, i, dst => (body i dst).bind (forLoop body k (i + 1))

/-- Body of the loop over the 64-bit blocks:
`dst.data[i] = se_storage<std::uint64_t>::swap(tmp.data[sizeof(T) / 8 - 1 - i])`. -/
def se_storage.blockBody (n : Nat) (tmp : List Nat) (i : Nat) (dst : List Nat) :
    Option (List Nat) :=
  ((indexSub n 1).bind (fun m => indexSub m i)).bind (fun j =>
    (tmp[j]?).bind (fun w =>
      match se_storage.swap64 (.u64 w) with
      | some (.u64 r) => writeAt dst i r
      | _ => none))

/-- Body of the loop over the bytes: `dst.data[i] = src.data[sizeof(T) - 1 - i]`. -/
def se_storage.byteBody (n : Nat) (src : List Nat) (i : Nat) (dst : List Nat) :
    Option (List Nat) :=
  ((indexSub n 1).bind (fun m => indexSub m i)).bind (fun j =>
    (src[j]?).bind (fun b => writeAt dst i b))

/-- The primary template's `se_storage<T, Align, Size>::swap`, the generic
byte swap, on the primary template's `type`. -/
def se_storage.swapGeneric (h : Endian) (T : CType) (Align : Nat) (src : Storage) :
    Option Storage :=
  let type : Shape := se_storage.primary_type T Align
  if T.size = 1 then some src
  else if T.size = 2 then
    ((bit_cast h .u16 src).bind se_storage.swap16).bind (bit_cast h type)
  else if T.size = 4 then
    ((bit_cast h .u32 src).bind se_storage.swap32).bind (bit_cast h type)
  else if T.size = 8 then
    ((bit_cast h .u64 src).bind se_storage.swap64).bind (bit_cast h type)
  else if T.size % 8 = 0 then
    (bit_cast h (.type64 (T.size / 8)) src).bind (fun tmp =>
      match tmp with
      | .type64 tmpData =>
        (forLoop (se_storage.blockBody (T.size / 8) tmpData) (T.size / 8) 0
            (List.replicate (T.size / 8) 0)).bind
          (fun dstData => bit_cast h type (.type64 dstData))
      | _ => none)
  else
    match src with
    | .type8 srcData =>
      (forLoop (se_storage.byteBody T.size srcData) T.size 0 (List.replicate T.size 0)).map
        Storage.type8
    | _ => none

/-- `se_storage<T, Align, Size>::swap`: the swap of the specialisation that
matches `(Align, Size)`, else the generic one of the primary template. -/
def se_storage.swap (h : Endian) (T : CType) (Align Size : Nat) (src : Storage) :
    Option Storage :=
  if Align = 2 ∧ Size = 2 then se_storage.swap16 src
  else if Align = 4 ∧ Size = 4 then se_storage.swap32 src
  else if Align = 8 ∧ Size = 8 then se_storage.swap64 src
  else se_storage.swapGeneric h T Align src

/-! ## `se_t` -/

/-- Template parameters of `se_t<T, Swap, Align>`, with the byte order of the
host the program runs on. -/
structure se_t.Params where
  host : Endian
  T : CType
  Swap : Bool
  Align : Nat
  deriving DecidableEq, Repr

/-- An object of class `se_t<T, Swap, Align>`: its only member `m_data`. -/
structure se_t where
  m_data : Storage
  deriving DecidableEq, Repr

/-- `using stype = typename se_storage<type, Align>::type` (the parameter
`Size` takes its default `sizeof(T)`). -/
def se_t.stype (p : se_t.Params) : Shape :=
  se_storage.type p.T p.Align p.T.size

/-- `storage::swap`, the swap of `se_storage<type, Align>`. -/
def se_t.storage_swap (p : se_t.Params) (src : Storage) : Option Storage :=
  se_storage.swap p.host p.T p.Align p.T.size src

/-- `std::bit_cast<stype>(value)` for a logical value given by its object
representation. -/
def bit_cast_stype (h : Endian) (stype : Shape) (value : List Nat) : Option Storage :=
  if value.length = stype.size then some (Storage.ofBytes h stype value) else none

/-- `std::bit_cast<type>(data)`: the object representation of the logical
value with the memory image of `data`. -/
def bit_cast_type (h : Endian) (T : CType) (data : Storage) : Option (List Nat) :=
  if (data.bytes h).length = T.size then some (data.bytes h) else none

/-- `se_t::to_data`. -/
def se_t.to_data (p : se_t.Params) (value : List Nat) : Option Storage :=
  if p.Swap then
    (bit_cast_stype p.host (se_t.stype p) value).bind (se_t.storage_swap p)
  else
    bit_cast_stype p.host (se_t.stype p) value

/-- The constructor `se_t(type value)`. -/
def se_t.construct (p : se_t.Params) (value : List Nat) : Option se_t :=
  (se_t.to_data p value).map se_t.mk

/-- `se_t::value`. -/
def se_t.value (p : se_t.Params) (self : se_t) : Option (List Nat) :=
  if p.Swap then
    (se_t.storage_swap p self.m_data).bind (bit_cast_type p.host p.T)
  else
    bit_cast_type p.host p.T self.m_data

/-- `se_t::get`. -/
def se_t.get (p : se_t.Params) (self : se_t) : Option (List Nat) :=
  se_t.value p self

/-- `se_t::operator=(type value)`; the previous content `self` is replaced. -/
def se_t.assign (p : se_t.Params) (_self : se_t) (value : List Nat) : Option se_t :=
  (se_t.to_data p value).map se_t.mk

/-- `se_t::operator type()`. -/
def se_t.operator_type (p : se_t.Params) (self : se_t) : Option (List Nat) :=
  se_t.value p self

/-! ## Integer logical types -/

/-- An integer logical type: its size in bytes and its signedness. -/
structure IntType where
  size : Nat
  signed : Bool
  deriving DecidableEq, Repr

/-- Width in bits. -/
def IntType.bits (I : IntType) : Nat := 8 * I.size

/-- The number of bit patterns, `2 ^ bits`. -/
def IntType.modulus (I : IntType) : Nat := 2 ^ I.bits

/-- The weight of the sign bit, `2 ^ (bits - 1)`. -/
def IntType.half (I : IntType) : Nat := 2 ^ (I.bits - 1)

/-- Size and alignment of an integer type: `se_t` requires
`sizeof(type) == alignof(type)`. -/
def IntType.ctype (I : IntType) : CType := ⟨I.size, I.size⟩

/-- Whether `v` is a value of the type. -/
def IntType.inRange (I : IntType) (v : Int) : Bool :=
  if I.signed then decide (-(I.half : Int) ≤ v ∧ v < (I.half : Int))
  else decide (0 ≤ v ∧ v < (I.modulus : Int))

/-- Conversion of an integer to the type: the value of the type congruent to
`x` modulo `2 ^ bits`. -/
def IntType.wrap (I : IntType) (x : Int) : Int :=
  if I.signed then (x + (I.half : Int)) % (I.modulus : Int) - (I.half : Int)
  else x % (I.modulus : Int)

/-- Object representation of the value `v`: the bytes of its two's complement
bit pattern in host order. -/
def IntType.toBytes (h : Endian) (I : IntType) (v : Int) : List Nat :=
  intBytes h I.size (v % (I.modulus : Int)).toNat

/-- The value whose object representation is `bs`. -/
def IntType.ofBytes (h : Endian) (I : IntType) (bs : List Nat) : Int :=
  if I.signed ∧ I.half ≤ intOfBytes h bs then (intOfBytes h bs : Int) - (I.modulus : Int)
  else (intOfBytes h bs : Int)

/-- Integral promotion: a type narrower than `int` (32 bits) is promoted to
`int`, which represents all of its values. -/
def IntType.promoted (I : IntType) : IntType :=
  if I.size < 4 then ⟨4, true⟩ else I

/-- Result of an arithmetic operation carried out in the type `P` whose
mathematical result is `x`: unsigned arithmetic is modulo `2 ^ bits`, signed
overflow is undefined. -/
def IntType.arith (P : IntType) (x : Int) : Option Int :=
  if P.signed then (if P.inRange x then some x else none) else some (x % (P.modulus : Int))

/-- The binary operators of the compound assignments. -/
inductive BinOp where
  | add | sub | mul | div | mod | and | or | xor | shl | shr
  deriving DecidableEq, Repr

/-- The native expression `a op b` for two operands of type `I`: both are
promoted, the operation is carried out in the promoted type, and the result
has the promoted type. `none` when the behaviour is undefined. -/
def IntType.binop (I : IntType) : BinOp → Int → Int → Option Int
  | .add, a, b => I.promoted.arith (a + b)
  | .sub, a, b => I.promoted.arith (a - b)
  | .mul, a, b => I.promoted.arith (a * b)
  | .div, a, b => if b = 0 then none else I.promoted.arith (Int.tdiv a b)
  | .mod, a, b =>
    if b = 0 then none else (I.promoted.arith (Int.tdiv a b)).map (fun _ => Int.tmod a b)
  | .and, a, b => some (Int.land a b)
  | .or, a, b => some (Int.lor a b)
  | .xor, a, b => some (Int.xor a b)
  | .shl, a, b =>
    if b < 0 ∨ (I.promoted.bits : Int) ≤ b then none
    else some (I.promoted.wrap (a * ((2 ^ b.toNat : Nat) : Int)))
  | .shr, a, b =>
    if b < 0 ∨ (I.promoted.bits : Int) ≤ b then none
    else some (a >>> b.toNat)

/-- The native compound assignment `a op= b` on a variable of type `I`: the
value `a` holds afterwards. -/
def IntType.compound (I : IntType) (op : BinOp) (a b : Int) : Option Int :=
  (I.binop op a b).map I.wrap

/-- The native `++value` and `value++`: the value the variable holds afterwards. -/
def IntType.inc (I : IntType) (a : Int) : Option Int :=
  (I.binop .add a 1).map I.wrap

/-- The native `--value` and `value--`: the value the variable holds afterwards. -/
def IntType.dec (I : IntType) (a : Int) : Option Int :=
  (I.binop .sub a 1).map I.wrap

/-- Template parameters of `se_t<T, Swap, Align>` for an integer type `T`. -/
def IntType.params (I : IntType) (h : Endian) (Swap : Bool) (Align : Nat) : se_t.Params :=
  ⟨h, I.ctype, Swap, Align⟩

/-! ## `se_t` over an integer logical type -/

/-- The constructor `se_t(type value)` for an integer value. -/
def se_t.constructInt (p : se_t.Params) (I : IntType) (value : Int) : Option se_t :=
  se_t.construct p (I.toBytes p.host value)

/-- `se_t::operator=(type value)` for an integer value. -/
def se_t.assignInt (p : se_t.Params) (I : IntType) (self : se_t) (value : Int) : Option se_t :=
  se_t.assign p self (I.toBytes p.host value)

/-- `se_t::value` read as an integer. -/
def se_t.valueInt (p : se_t.Params) (I : IntType) (self : se_t) : Option Int :=
  (se_t.value p self).map (I.ofBytes p.host)

/-- `se_t::get` read as an integer. -/
def se_t.getInt (p : se_t.Params) (I : IntType) (self : se_t) : Option Int :=
  (se_t.get p self).map (I.ofBytes p.host)

/-- `se_t::operator type()` read as an integer. -/
def se_t.operator_typeInt (p : se_t.Params) (I : IntType) (self : se_t) : Option Int :=
  (se_t.operator_type p self).map (I.ofBytes p.host)

/-- `se_t::operator bool()`: `!!std::bit_cast<type>(m_data)`. -/
def se_t.operator_bool (p : se_t.Params) (I : IntType) (self : se_t) : Option Bool :=
  (bit_cast_type p.host p.T self.m_data).map (fun bs => I.ofBytes p.host bs != 0)

/-- The compound assignments `operator+=`, `operator-=`, `operator*=`,
`operator/=`, `operator%=`, `operator&=`, `operator|=`, `operator^=`,
`operator<<=` and `operator>>=` with a right operand of type `T`:
`*this = value() op rhs`, the result of the expression being converted to
`type` by `operator=(type)`. -/
def se_t.operator_op_assign (p : se_t.Params) (I : IntType) (op : BinOp) (self : se_t)
    (rhs : Int) : Option se_t :=
  (se_t.valueInt p I self).bind (fun v =>
    (I.binop op v rhs).bind (fun r =>
      se_t.assignInt p I self (I.wrap r)))

/-- `se_t::operator++()`: `T value = *this; *this = ++value;`. -/
def se_t.operator_pre_inc (p : se_t.Params) (I : IntType) (self : se_t) : Option se_t :=
  (se_t.operator_typeInt p I self).bind (fun value =>
    (I.inc value).bind (fun value1 =>
      se_t.assignInt p I self value1))

/-- `se_t::operator--()`: `T value = *this; *this = --value;`. -/
def se_t.operator_pre_dec (p : se_t.Params) (I : IntType) (self : se_t) : Option se_t :=
  (se_t.operator_typeInt p I self).bind (fun value =>
    (I.dec value).bind (fun value1 =>
      se_t.assignInt p I self value1))

/-- `se_t::operator++(int)`: `T value = *this; T result = value++;
*this = value; return result;`. Gives the returned value and the object. -/
def se_t.operator_post_inc (p : se_t.Params) (I : IntType) (self : se_t) :
    Option (Int × se_t) :=
  (se_t.operator_typeInt p I self).bind (fun value =>
    (I.inc value).bind (fun value1 =>
      (se_t.assignInt p I self value1).map (fun self1 => (value, self1))))

/-- `se_t::operator--(int)`: `T value = *this; T result = value--;
*this = value; return result;`. Gives the returned value and the object. -/
def se_t.operator_post_dec (p : se_t.Params) (I : IntType) (self : se_t) :
    Option (Int × se_t) :=
  (se_t.operator_typeInt p I self).bind (fun value =>
    (I.dec value).bind (fun value1 =>
      (se_t.assignInt p I self value1).map (fun self1 => (value, self1))))


/-- The invariant of the data model: the stored representation is the
encoding of the logical value the object reports,
`m_data == to_data(value())`. -/
def se_t.invariant (p : se_t.Params) (self : se_t) : Prop :=
  (se_t.value p self).bind (se_t.to_data p) = some self.m_data

/-! ## Size and alignment of the types -/

/-- The smallest multiple of `a` that is at least `n`: the size of an object
whose members take `n` bytes and whose alignment is `a`. -/
def roundUp (n a : Nat) : Nat :=
  (n + a - 1) / a * a

/-- Alignment of a representation type: `alignof` of the unsigned integers,
`alignas(8)` of `type64`, and the `alignas` of `type8` (an `alignas(0)` has no
effect). -/
def Shape.alignof : Shape → Nat
  | .u16 => 2
  | .u32 => 4
  | .u64 => 8
  | .type64 _ => 8
  | .type8 align _ => max 1 align

/-- `sizeof` of a representation type: its content rounded up to its
alignment. -/
def Shape.sizeof (sh : Shape) : Nat :=
  roundUp sh.size sh.alignof

/-- `alignof(se_t<T, Swap, Align>)`, of `class alignas(Align) se_t` with the
single member `stype m_data`. -/
def se_t.alignof (p : se_t.Params) : Nat :=
  max p.Align (se_t.stype p).alignof

/-- `sizeof(se_t<T, Swap, Align>)`: the size of the member `m_data` rounded up
to the alignment of the class. -/
def se_t.sizeof (p : se_t.Params) : Nat :=
  roundUp (se_t.stype p).sizeof (se_t.alignof p)

/-- The five representations named by the selection policy of the
specification. -/
inductive Representation where
  | uint16
  | uint32
  | uint64
  | words (n : Nat)
  | bytes (n : Nat)
  deriving DecidableEq, Repr

/-- The selection policy as the specification words it, in priority order,
first match wins. -/
def selection_policy (A S : Nat) : Representation :=
  if A = 2 ∧ S = 2 then .uint16
  else if A = 4 ∧ S = 4 then .uint32
  else if A = 8 ∧ S = 8 then .uint64
  else if A ≥ 8 ∧ S % 8 = 0 then .words (S / 8)
  else .bytes S

/-- The representation a type of `se_storage` stands for. -/
def Shape.representation : Shape → Representation
  | .u16 => .uint16
  | .u32 => .uint32
  | .u64 => .uint64
  | .type64 n => .words n
  | .type8 _ size => .bytes size

/-! ## The loops with their guard, and the naive byte reversal -/

/-- The loop `for (std::size_t i = i0; i < n; i++) body` run with its guard
`i < n` on a budget of guard evaluations: gives the final array and the number
of iterations executed, `none` when an iteration fails or the budget runs
out. -/
def forLoopGuarded (n : Nat) (body : Nat → List Nat → Option (List Nat)) :
    Nat → Nat → List Nat → Option (List Nat × Nat)
  | 0, _, _ => none
  | fuel + 1, i, dst =>
    if i < n then
      (body i dst).bind (fun d =>
        (forLoopGuarded n body fuel (i + 1) d).map (fun r => (r.1, r.2 + 1)))
    else some (dst, 0)

/-- The byte-by-byte reversal as the specification words it:
`dst[i] = src[S - 1 - i]` for all byte indices `i`. -/
def naive_byte_reversal (S : Nat) (src : List Nat) : List Nat :=
  (List.range S).map (fun i => src.getD (S - 1 - i) 0)

/-! ## Sequences of operations -/

/-- The operations that change the content of a wrapper: assignment from a
value, the compound assignments, and the increments and decrements. -/
inductive se_t.Op where
  | assign (value : Int)
  | op_assign (op : BinOp) (rhs : Int)
  | pre_inc
  | pre_dec
  | post_inc
  | post_dec
  deriving DecidableEq, Repr

/-- Whether the operands of an operation are values of the type `I`. -/
def se_t.Op.wellTyped (I : IntType) : se_t.Op → Bool
  | .assign value => I.inRange value
  | .op_assign _ rhs => I.inRange rhs
  | _ => true

/-- One operation on a wrapper: the object afterwards and the value the
operation returns (the old value for the postfix forms, none otherwise). -/
def se_t.step (p : se_t.Params) (I : IntType) (self : se_t) :
    se_t.Op → Option (se_t × Option Int)
  | .assign value => (se_t.assignInt p I self value).map (fun s => (s, none))
  | .op_assign op rhs => (se_t.operator_op_assign p I op self rhs).map (fun s => (s, none))
  | .pre_inc => (se_t.operator_pre_inc p I self).map (fun s => (s, none))
  | .pre_dec => (se_t.operator_pre_dec p I self).map (fun s => (s, none))
  | .post_inc => (se_t.operator_post_inc p I self).map (fun r => (r.2, some r.1))
  | .post_dec => (se_t.operator_post_dec p I self).map (fun r => (r.2, some r.1))

/-- A sequence of operations on a wrapper: for each operation in turn, the
value it returns and the logical value `value()` reports afterwards. -/
def se_t.run (p : se_t.Params) (I : IntType) :
    List se_t.Op → se_t → Option (List (Option Int × Int))
  | [], _ => some []
  | o :: os, self =>
    (se_t.step p I self o).bind (fun r =>
      (se_t.valueInt p I r.1).bind (fun v =>
        (se_t.run p I os r.1).map (fun t => (r.2, v) :: t)))

/-- One operation on a native variable of type `I` holding `a`: the value of
the variable afterwards and the value the operation returns. -/
def IntType.step (I : IntType) (a : Int) : se_t.Op → Option (Int × Option Int)
  | .assign value => some (value, none)
  | .op_assign op rhs => (I.compound op a rhs).map (fun r => (r, none))
  | .pre_inc => (I.inc a).map (fun r => (r, none))
  | .pre_dec => (I.dec a).map (fun r => (r, none))
  | .post_inc => (I.inc a).map (fun r => (r, some a))
  | .post_dec => (I.dec a).map (fun r => (r, some a))

/-- A sequence of operations on a native variable: for each operation in turn,
the value it returns and the value of the variable afterwards. -/
def IntType.run (I : IntType) : List se_t.Op → Int → Option (List (Option Int × Int))
  | [], _ => some []
  | o :: os, a =>
    (I.step a o).bind (fun r => (I.run os r.1).map (fun t => (r.2, r.1) :: t))

/-! ## Arithmetic of the target -/

/-- How an operation on signed operands is evaluated when the promoted type
cannot hold its mathematical result: `undefined`, as ISO C++ words it, or
`wraps`, the result modulo `2 ^ bits` that the two's complement arithmetic of
the targets computes. -/
inductive Overflow where
  | undefined
  | wraps
  deriving DecidableEq, Repr

/-- Result of an arithmetic operation carried out in the type `P` whose
mathematical result is `x`, under the overflow rule `m`. -/
def IntType.arithOn (m : Overflow) (P : IntType) (x : Int) : Option Int :=
  match m with
  | .undefined => P.arith x
  | .wraps => some (P.wrap x)

/-- The native expression `a op b` for two operands of type `I` under the
overflow rule `m`: addition, subtraction and multiplication of the promoted
operands follow `m`; the other operators are as in `IntType.binop`. -/
def IntType.binopOn (m : Overflow) (I : IntType) : BinOp → Int → Int → Option Int
  | .add, a, b => I.promoted.arithOn m (a + b)
  | .sub, a, b => I.promoted.arithOn m (a - b)
  | .mul, a, b => I.promoted.arithOn m (a * b)
  | .div, a, b => I.binop .div a b
  | .mod, a, b => I.binop .mod a b
  | .and, a, b => I.binop .and a b
  | .or, a, b => I.binop .or a b
  | .xor, a, b => I.binop .xor a b
  | .shl, a, b => I.binop .shl a b
  | .shr, a, b => I.binop .shr a b

/-- The native compound assignment `a op= b` under the overflow rule `m`. -/
def IntType.compoundOn (m : Overflow) (I : IntType) (op : BinOp) (a b : Int) : Option Int :=
  (I.binopOn m op a b).map I.wrap

/-- The native `++value` and `value++` under the overflow rule `m`. -/
def IntType.incOn (m : Overflow) (I : IntType) (a : Int) : Option Int :=
  (I.binopOn m .add a 1).map I.wrap

/-- The native `--value` and `value--` under the overflow rule `m`. -/
def IntType.decOn (m : Overflow) (I : IntType) (a : Int) : Option Int :=
  (I.binopOn m .sub a 1).map I.wrap

/-- The compound assignments of `se_t`, `*this = value() op rhs`, with the
native expression evaluated under the overflow rule `m`. -/
def se_t.operator_op_assign_on (m : Overflow) (p : se_t.Params) (I : IntType) (op : BinOp)
    (self : se_t) (rhs : Int) : Option se_t :=
  (se_t.valueInt p I self).bind (fun v =>
    (I.binopOn m op v rhs).bind (fun r =>
      se_t.assignInt p I self (I.wrap r)))

/-- `se_t::operator++()`, `T value = *this; *this = ++value;`, under the
overflow rule `m`. -/
def se_t.operator_pre_inc_on (m : Overflow) (p : se_t.Params) (I : IntType) (self : se_t) :
    Option se_t :=
  (se_t.operator_typeInt p I self).bind (fun value =>
    (I.incOn m value).bind (fun value1 =>
      se_t.assignInt p I self value1))

/-- `se_t::operator--()`, `T value = *this; *this = --value;`, under the
overflow rule `m`. -/
def se_t.operator_pre_dec_on (m : Overflow) (p : se_t.Params) (I : IntType) (self : se_t) :
    Option se_t :=
  (se_t.operator_typeInt p I self).bind (fun value =>
    (I.decOn m value).bind (fun value1 =>
      se_t.assignInt p I self value1))

/-- `se_t::operator++(int)`, `T value = *this; T result = value++;
*this = value; return result;`, under the overflow rule `m`. Gives the
returned value and the object. -/
def se_t.operator_post_inc_on (m : Overflow) (p : se_t.Params) (I : IntType) (self : se_t) :
    Option (Int × se_t) :=
  (se_t.operator_typeInt p I self).bind (fun value =>
    (I.incOn m value).bind (fun value1 =>
      (se_t.assignInt p I self value1).map (fun self1 => (value, self1))))

/-- `se_t::operator--(int)`, `T value = *this; T result = value--;
*this = value; return result;`, under the overflow rule `m`. Gives the
returned value and the object. -/
def se_t.operator_post_dec_on (m : Overflow) (p : se_t.Params) (I : IntType) (self : se_t) :
    Option (Int × se_t) :=
  (se_t.operator_typeInt p I self).bind (fun value =>
    (I.decOn m value).bind (fun value1 =>
      (se_t.assignInt p I self value1).map (fun self1 => (value, self1))))

/-! ## Integers and bytes -/

theorem leBytes_length (n v : Nat) : (leBytes n v).length = n := by
  induction n generalizing v with
  | zero => rfl
  | succ n ih => simp [leBytes, ih]

theorem leBytes_lt (n v : Nat) : ∀ b ∈ leBytes n v, b < 256 := by
  induction n generalizing v with
  | zero => simp [leBytes]
  | succ n ih =>
    intro b hb
    simp only [leBytes, List.mem_cons] at hb
    rcases hb with hb | hb
    · omega
    · exact ih _ b hb

theorem ofLeBytes_leBytes (n v : Nat) : ofLeBytes (leBytes n v) = v % 256 ^ n := by
  induction n generalizing v with
  | zero => simp [leBytes, ofLeBytes, Nat.mod_one]
  | succ n ih =>
    simp only [leBytes, ofLeBytes, ih]
    rw [pow_succ, Nat.mul_comm (256 ^ n) 256, Nat.mod_mul]

theorem leBytes_ofLeBytes (bs : List Nat) (hb : ∀ b ∈ bs, b < 256) :
    leBytes bs.length (ofLeBytes bs) = bs := by
  induction bs with
  | nil => rfl
  | cons b bs ih =>
    have h1 : b < 256 := hb b (List.mem_cons_self _ _)
    have h2 := ih (fun x hx => hb x (List.mem_cons_of_mem _ hx))
    simp only [List.length_cons, leBytes, ofLeBytes]
    have e1 : (b + 256 * ofLeBytes bs) % 256 = b := by omega
    have e2 : (b + 256 * ofLeBytes bs) / 256 = ofLeBytes bs := by omega
    rw [e1, e2, h2]

theorem ofLeBytes_lt (bs : List Nat) (hb : ∀ b ∈ bs, b < 256) :
    ofLeBytes bs < 256 ^ bs.length := by
  induction bs with
  | nil => simp [ofLeBytes]
  | cons b bs ih =>
    have h1 : b < 256 := hb b (List.mem_cons_self _ _)
    have h2 := ih (fun x hx => hb x (List.mem_cons_of_mem _ hx))
    simp only [List.length_cons, ofLeBytes, pow_succ]
    omega

theorem bswap16_eq (x : Nat) : bswap16 x = ofLeBytes (leBytes 2 x).reverse := by
  simp only [leBytes, bswap16, List.reverse_cons, List.reverse_nil, List.nil_append,
    List.cons_append, ofLeBytes, Nat.reducePow, Nat.div_div_eq_div_mul, Nat.reduceMul]
  omega

theorem bswap32_eq (x : Nat) : bswap32 x = ofLeBytes (leBytes 4 x).reverse := by
  simp only [leBytes, bswap32, List.reverse_cons, List.reverse_nil, List.nil_append,
    List.cons_append, ofLeBytes, Nat.reducePow, Nat.div_div_eq_div_mul, Nat.reduceMul]
  omega

theorem bswap64_eq (x : Nat) : bswap64 x = ofLeBytes (leBytes 8 x).reverse := by
  simp only [leBytes, bswap64, List.reverse_cons, List.reverse_nil, List.nil_append,
    List.cons_append, ofLeBytes, Nat.reducePow, Nat.div_div_eq_div_mul, Nat.reduceMul]
  omega

theorem leBytes_ofLeBytes_reverse (n x : Nat) :
    leBytes n (ofLeBytes (leBytes n x).reverse) = (leBytes n x).reverse := by
  have h := leBytes_ofLeBytes (leBytes n x).reverse
    (fun b hb => leBytes_lt n x b (List.mem_reverse.mp hb))
  simpa [leBytes_length] using h

theorem leBytes_bswap16 (x : Nat) : leBytes 2 (bswap16 x) = (leBytes 2 x).reverse := by
  rw [bswap16_eq, leBytes_ofLeBytes_reverse]

theorem leBytes_bswap32 (x : Nat) : leBytes 4 (bswap32 x) = (leBytes 4 x).reverse := by
  rw [bswap32_eq, leBytes_ofLeBytes_reverse]

theorem leBytes_bswap64 (x : Nat) : leBytes 8 (bswap64 x) = (leBytes 8 x).reverse := by
  rw [bswap64_eq, leBytes_ofLeBytes_reverse]

theorem bswap16_lt (x : Nat) : bswap16 x < 2 ^ 16 := by
  unfold bswap16; omega

theorem bswap32_lt (x : Nat) : bswap32 x < 2 ^ 32 := by
  unfold bswap32; omega

theorem bswap64_lt (x : Nat) : bswap64 x < 2 ^ 64 := by
  unfold bswap64; omega

theorem isBytes_iff (n : Nat) (bs : List Nat) :
    isBytes n bs = true ↔ bs.length = n ∧ ∀ b ∈ bs, b < 256 := by
  simp [isBytes, List.all_eq_true]

theorem isBytes_reverse {n : Nat} {bs : List Nat} (hb : isBytes n bs = true) :
    isBytes n bs.reverse = true := by
  rw [isBytes_iff] at hb ⊢
  exact ⟨by simpa using hb.1, fun b hm => hb.2 b (List.mem_reverse.mp hm)⟩

theorem intBytes_length (h : Endian) (n v : Nat) : (intBytes h n v).length = n := by
  cases h <;> simp [intBytes, leBytes_length]

theorem intBytes_lt (h : Endian) (n v : Nat) : ∀ b ∈ intBytes h n v, b < 256 := by
  intro b hb
  cases h
  · exact leBytes_lt n v b hb
  · exact leBytes_lt n v b (List.mem_reverse.mp hb)

theorem intBytes_isBytes (h : Endian) (n v : Nat) : isBytes n (intBytes h n v) = true :=
  (isBytes_iff _ _).mpr ⟨intBytes_length h n v, intBytes_lt h n v⟩

theorem intOfBytes_intBytes (h : Endian) (n v : Nat) :
    intOfBytes h (intBytes h n v) = v % 256 ^ n := by
  cases h <;> simp [intOfBytes, intBytes, ofLeBytes_leBytes]

theorem intOfBytes_intBytes_of_lt (h : Endian) (n v : Nat) (hv : v < 256 ^ n) :
    intOfBytes h (intBytes h n v) = v := by
  rw [intOfBytes_intBytes, Nat.mod_eq_of_lt hv]

theorem intBytes_intOfBytes (h : Endian) (n : Nat) (bs : List Nat)
    (hb : isBytes n bs = true) : intBytes h n (intOfBytes h bs) = bs := by
  rw [isBytes_iff] at hb
  obtain ⟨hl, hlt⟩ := hb
  subst hl
  cases h
  · exact leBytes_ofLeBytes bs hlt
  · have h1 := leBytes_ofLeBytes bs.reverse (fun b hm => hlt b (List.mem_reverse.mp hm))
    simp only [List.length_reverse] at h1
    simp [intBytes, intOfBytes, h1]

theorem intOfBytes_lt (h : Endian) (n : Nat) (bs : List Nat) (hb : isBytes n bs = true) :
    intOfBytes h bs < 256 ^ n := by
  rw [isBytes_iff] at hb
  obtain ⟨hl, hlt⟩ := hb
  subst hl
  cases h
  · exact ofLeBytes_lt bs hlt
  · have h1 := ofLeBytes_lt bs.reverse (fun b hm => hlt b (List.mem_reverse.mp hm))
    simpa [intOfBytes] using h1

theorem intBytes_bswap16 (h : Endian) (x : Nat) :
    intBytes h 2 (bswap16 x) = (intBytes h 2 x).reverse := by
  cases h <;> simp [intBytes, leBytes_bswap16]

theorem intBytes_bswap32 (h : Endian) (x : Nat) :
    intBytes h 4 (bswap32 x) = (intBytes h 4 x).reverse := by
  cases h <;> simp [intBytes, leBytes_bswap32]

theorem intBytes_bswap64 (h : Endian) (x : Nat) :
    intBytes h 8 (bswap64 x) = (intBytes h 8 x).reverse := by
  cases h <;> simp [intBytes, leBytes_bswap64]

theorem intOfBytes_reverse_intBytes16 (h : Endian) (x : Nat) :
    intOfBytes h (intBytes h 2 x).reverse = bswap16 x := by
  rw [← intBytes_bswap16, intOfBytes_intBytes_of_lt h 2 _ (bswap16_lt x)]

theorem intOfBytes_reverse_intBytes32 (h : Endian) (x : Nat) :
    intOfBytes h (intBytes h 4 x).reverse = bswap32 x := by
  rw [← intBytes_bswap32, intOfBytes_intBytes_of_lt h 4 _ (bswap32_lt x)]

theorem intOfBytes_reverse_intBytes64 (h : Endian) (x : Nat) :
    intOfBytes h (intBytes h 8 x).reverse = bswap64 x := by
  rw [← intBytes_bswap64, intOfBytes_intBytes_of_lt h 8 _ (bswap64_lt x)]

/-! ## Arrays of 64-bit words -/

theorem flatMap_intBytes_length (h : Endian) (ws : List Nat) :
    (ws.flatMap (intBytes h 8)).length = 8 * ws.length := by
  induction ws with
  | nil => rfl
  | cons w ws ih => simp [List.flatMap_cons, intBytes_length, ih]; omega

theorem flatMap_intBytes_lt (h : Endian) (ws : List Nat) :
    ∀ b ∈ ws.flatMap (intBytes h 8), b < 256 := by
  intro b hb
  obtain ⟨w, _, hw⟩ := List.mem_flatMap.mp hb
  exact intBytes_lt h 8 w b hw

theorem wordsOfBytes_length (h : Endian) (n : Nat) (bs : List Nat) :
    (wordsOfBytes h n bs).length = n := by
  induction n generalizing bs with
  | zero => rfl
  | succ n ih => simp [wordsOfBytes, ih]

theorem wordsOfBytes_lt (h : Endian) (n : Nat) (bs : List Nat) (hl : bs.length = 8 * n)
    (hb : ∀ b ∈ bs, b < 256) : ∀ w ∈ wordsOfBytes h n bs, w < 2 ^ 64 := by
  induction n generalizing bs with
  | zero => simp [wordsOfBytes]
  | succ n ih =>
    intro w hw
    simp only [wordsOfBytes, List.mem_cons] at hw
    rcases hw with hw | hw
    · subst hw
      have h8 : isBytes 8 (bs.take 8) = true :=
        (isBytes_iff _ _).mpr ⟨by simp [List.length_take]; omega,
          fun b hm => hb b (List.mem_of_mem_take hm)⟩
      have := intOfBytes_lt h 8 _ h8
      norm_num at this ⊢
      exact this
    · exact ih (bs.drop 8) (by simp [List.length_drop]; omega)
        (fun b hm => hb b (List.mem_of_mem_drop hm)) w hw

theorem wordsOfBytes_flatMap (h : Endian) (ws : List Nat) (hw : ∀ w ∈ ws, w < 2 ^ 64) :
    wordsOfBytes h ws.length (ws.flatMap (intBytes h 8)) = ws := by
  induction ws with
  | nil => rfl
  | cons w ws ih =>
    have h1 : w < 256 ^ 8 := by
      have := hw w (List.mem_cons_self _ _)
      norm_num at this ⊢
      exact this
    have h2 := ih (fun x hx => hw x (List.mem_cons_of_mem _ hx))
    have hl := intBytes_length h 8 w
    simp only [List.length_cons, wordsOfBytes, List.flatMap_cons]
    rw [List.take_left' hl, List.drop_left' hl, intOfBytes_intBytes_of_lt h 8 w h1, h2]

theorem flatMap_wordsOfBytes (h : Endian) (n : Nat) (bs : List Nat) (hl : bs.length = 8 * n)
    (hb : ∀ b ∈ bs, b < 256) : (wordsOfBytes h n bs).flatMap (intBytes h 8) = bs := by
  induction n generalizing bs with
  | zero =>
    have : bs = [] := List.length_eq_zero.mp (by omega)
    simp [wordsOfBytes, this]
  | succ n ih =>
    have h8 : isBytes 8 (bs.take 8) = true :=
      (isBytes_iff _ _).mpr ⟨by simp [List.length_take]; omega,
        fun b hm => hb b (List.mem_of_mem_take hm)⟩
    have h2 := ih (bs.drop 8) (by simp [List.length_drop]; omega)
      (fun b hm => hb b (List.mem_of_mem_drop hm))
    simp only [wordsOfBytes, List.flatMap_cons]
    rw [intBytes_intOfBytes h 8 _ h8, h2, List.take_append_drop]

theorem flatMap_intBytes_bswap64_reverse (h : Endian) (ws : List Nat) :
    (ws.reverse.map bswap64).flatMap (intBytes h 8) = (ws.flatMap (intBytes h 8)).reverse := by
  induction ws with
  | nil => rfl
  | cons w ws ih =>
    simp only [List.reverse_cons, List.map_append, List.flatMap_append, List.flatMap_cons,
      List.map_cons, List.map_nil, List.flatMap_nil, List.append_nil, List.reverse_append, ih,
      intBytes_bswap64]

/-! ## Representations and their memory image -/

theorem Storage.bytes_isBytes (h : Endian) {s : Storage} {sh : Shape}
    (hs : s.hasShape sh = true) : isBytes sh.size (s.bytes h) = true := by
  cases s <;> cases sh <;> simp [Storage.hasShape] at hs
  · exact intBytes_isBytes h 2 _
  · exact intBytes_isBytes h 4 _
  · exact intBytes_isBytes h 8 _
  · rw [isBytes_iff]
    exact ⟨by rw [Storage.bytes, Shape.size, flatMap_intBytes_length, hs.1],
      flatMap_intBytes_lt h _⟩
  · rw [isBytes_iff]
    exact ⟨by simp [Storage.bytes, Shape.size, hs.1], hs.2⟩

theorem Storage.ofBytes_bytes (h : Endian) {s : Storage} {sh : Shape}
    (hs : s.hasShape sh = true) : Storage.ofBytes h sh (s.bytes h) = s := by
  cases s <;> cases sh <;> simp [Storage.hasShape] at hs
  · simp only [Storage.ofBytes, Storage.bytes]
    rw [intOfBytes_intBytes_of_lt h 2 _ (by norm_num; exact hs)]
  · simp only [Storage.ofBytes, Storage.bytes]
    rw [intOfBytes_intBytes_of_lt h 4 _ (by norm_num; exact hs)]
  · simp only [Storage.ofBytes, Storage.bytes]
    rw [intOfBytes_intBytes_of_lt h 8 _ (by norm_num; exact hs)]
  · obtain ⟨hl, hw⟩ := hs
    subst hl
    simp only [Storage.ofBytes, Storage.bytes]
    rw [wordsOfBytes_flatMap h _ hw]
  · simp [Storage.ofBytes, Storage.bytes]

theorem Storage.bytes_ofBytes (h : Endian) {sh : Shape} {bs : List Nat}
    (hb : isBytes sh.size bs = true) : (Storage.ofBytes h sh bs).bytes h = bs := by
  cases sh with
  | u16 => exact intBytes_intOfBytes h 2 bs hb
  | u32 => exact intBytes_intOfBytes h 4 bs hb
  | u64 => exact intBytes_intOfBytes h 8 bs hb
  | type64 n =>
    rw [isBytes_iff] at hb
    exact flatMap_wordsOfBytes h n bs hb.1 hb.2
  | type8 a n => rfl

theorem Storage.hasShape_ofBytes (h : Endian) {sh : Shape} {bs : List Nat}
    (hb : isBytes sh.size bs = true) : (Storage.ofBytes h sh bs).hasShape sh = true := by
  cases sh with
  | u16 =>
    have := intOfBytes_lt h 2 bs hb
    simp only [Storage.ofBytes, Storage.hasShape, decide_eq_true_eq]
    norm_num at this ⊢
    exact this
  | u32 =>
    have := intOfBytes_lt h 4 bs hb
    simp only [Storage.ofBytes, Storage.hasShape, decide_eq_true_eq]
    norm_num at this ⊢
    exact this
  | u64 =>
    have := intOfBytes_lt h 8 bs hb
    simp only [Storage.ofBytes, Storage.hasShape, decide_eq_true_eq]
    norm_num at this ⊢
    exact this
  | type64 n =>
    rw [isBytes_iff] at hb
    simp only [Storage.ofBytes, Storage.hasShape, Bool.and_eq_true, decide_eq_true_eq,
      List.all_eq_true]
    exact ⟨wordsOfBytes_length h n bs, wordsOfBytes_lt h n bs hb.1 hb.2⟩
  | type8 a n =>
    rw [isBytes_iff] at hb
    simp only [Storage.ofBytes, Storage.hasShape, Bool.and_eq_true, decide_eq_true_eq,
      List.all_eq_true]
    exact hb

/-- Two values of one representation type with the same memory image are equal. -/
theorem Storage.eq_of_bytes_eq (h : Endian) {s t : Storage} {sh : Shape}
    (hs : s.hasShape sh = true) (ht : t.hasShape sh = true) (e : s.bytes h = t.bytes h) :
    s = t := by
  rw [← Storage.ofBytes_bytes h hs, ← Storage.ofBytes_bytes h ht, e]

/-! ## The loops of the generic swap -/

theorem forLoop_spec (body : Nat → List Nat → Option (List Nat)) (val : Nat → Nat) (n : Nat)
    (hbody : ∀ i dst, i < n → dst.length = n → body i dst = some (dst.set i (val i))) :
    ∀ k i dst, i + k = n → dst.length = n →
      ∃ r, forLoop body k i dst = some r ∧ r.length = n ∧
        ∀ j, r[j]? = if i ≤ j ∧ j < n then some (val j) else dst[j]? := by
  intro k
  induction k with
  | zero =>
    intro i dst hik hl
    refine ⟨dst, rfl, hl, fun j => ?_⟩
    have : ¬ (i ≤ j ∧ j < n) := by omega
    simp [this]
  | succ k ih =>
    intro i dst hik hl
    have hi : i < n := by omega
    obtain ⟨r, hr, hrl, hrj⟩ := ih (i + 1) (dst.set i (val i)) (by omega) (by simp [hl])
    refine ⟨r, ?_, hrl, fun j => ?_⟩
    · simp [forLoop, hbody i dst hi hl, hr]
    · rw [hrj j, List.getElem?_set]
      by_cases h1 : i = j
      · subst h1
        simp [hi, hl]
      · by_cases h2 : i + 1 ≤ j ∧ j < n
        · have h3 : i ≤ j ∧ j < n := by omega
          simp [h2, h3]
        · have h3 : ¬ (i ≤ j ∧ j < n) := by omega
          simp [h1, h2, h3]

theorem forLoop_full (body : Nat → List Nat → Option (List Nat)) (val : Nat → Nat) (n : Nat)
    (hbody : ∀ i dst, i < n → dst.length = n → body i dst = some (dst.set i (val i))) :
    forLoop body n 0 (List.replicate n 0) = some ((List.range n).map val) := by
  obtain ⟨r, hr, _, hrj⟩ :=
    forLoop_spec body val n hbody n 0 (List.replicate n 0) (by simp) (by simp)
  rw [hr]
  congr 1
  apply List.ext_getElem?
  intro j
  rw [hrj j]
  by_cases hj : j < n
  · simp [hj, List.getElem?_range]
  · have h1 : n ≤ j := by omega
    simp [hj, List.getElem?_replicate, List.getElem?_eq_none, h1]

theorem map_range_reverse (f : Nat → Nat) (l : List Nat) :
    (List.range l.length).map (fun i => f ((l[l.length - 1 - i]?).getD 0)) = l.reverse.map f := by
  apply List.ext_getElem?
  intro j
  by_cases hj : j < l.length
  · have h1 : l.length - 1 - j < l.length := by omega
    simp [hj, List.getElem?_range, List.getElem?_reverse, List.getElem?_eq_getElem h1]
  · have h1 : l.length ≤ j := by omega
    simp [List.getElem?_eq_none, h1]

theorem se_storage.blockBody_eq (tmp : List Nat) (i : Nat) (dst : List Nat)
    (hi : i < tmp.length) (hl : dst.length = tmp.length) :
    se_storage.blockBody tmp.length tmp i dst
      = some (dst.set i (bswap64 ((tmp[tmp.length - 1 - i]?).getD 0))) := by
  have h1 : tmp.length - 1 - i < tmp.length := by omega
  have h2 : 1 ≤ tmp.length := by omega
  have h3 : i ≤ tmp.length - 1 := by omega
  simp [se_storage.blockBody, indexSub, writeAt, se_storage.swap64, h2, h3, hl, hi,
    List.getElem?_eq_getElem h1]

theorem se_storage.byteBody_eq (src : List Nat) (i : Nat) (dst : List Nat)
    (hi : i < src.length) (hl : dst.length = src.length) :
    se_storage.byteBody src.length src i dst
      = some (dst.set i ((src[src.length - 1 - i]?).getD 0)) := by
  have h1 : src.length - 1 - i < src.length := by omega
  have h2 : 1 ≤ src.length := by omega
  have h3 : i ≤ src.length - 1 := by omega
  simp [se_storage.byteBody, indexSub, writeAt, h2, h3, hl, hi, List.getElem?_eq_getElem h1]

theorem se_storage.blockLoop_eq (tmp : List Nat) :
    forLoop (se_storage.blockBody tmp.length tmp) tmp.length 0 (List.replicate tmp.length 0)
      = some (tmp.reverse.map bswap64) := by
  rw [forLoop_full _ (fun i => bswap64 ((tmp[tmp.length - 1 - i]?).getD 0)) tmp.length
    (fun i dst hi hl => se_storage.blockBody_eq tmp i dst hi hl)]
  rw [map_range_reverse bswap64 tmp]

theorem se_storage.byteLoop_eq (src : List Nat) :
    forLoop (se_storage.byteBody src.length src) src.length 0 (List.replicate src.length 0)
      = some src.reverse := by
  rw [forLoop_full _ (fun i => (src[src.length - 1 - i]?).getD 0) src.length
    (fun i dst hi hl => se_storage.byteBody_eq src i dst hi hl)]
  have := map_range_reverse id src
  simpa using this

/-! ## The swap of every selection branch reverses the memory image -/

theorem Storage.bytes_u16 (h : Endian) (v : Nat) : (Storage.u16 v).bytes h = intBytes h 2 v := rfl

theorem Storage.bytes_u32 (h : Endian) (v : Nat) : (Storage.u32 v).bytes h = intBytes h 4 v := rfl

theorem Storage.bytes_u64 (h : Endian) (v : Nat) : (Storage.u64 v).bytes h = intBytes h 8 v := rfl

theorem Storage.bytes_type64 (h : Endian) (ws : List Nat) :
    (Storage.type64 ws).bytes h = ws.flatMap (intBytes h 8) := rfl

theorem Storage.bytes_type8 (h : Endian) (bs : List Nat) : (Storage.type8 bs).bytes h = bs := rfl

theorem Storage.ofBytes_u16 (h : Endian) (bs : List Nat) :
    Storage.ofBytes h .u16 bs = .u16 (intOfBytes h bs) := rfl

theorem Storage.ofBytes_u32 (h : Endian) (bs : List Nat) :
    Storage.ofBytes h .u32 bs = .u32 (intOfBytes h bs) := rfl

theorem Storage.ofBytes_u64 (h : Endian) (bs : List Nat) :
    Storage.ofBytes h .u64 bs = .u64 (intOfBytes h bs) := rfl

theorem Storage.ofBytes_type64 (h : Endian) (n : Nat) (bs : List Nat) :
    Storage.ofBytes h (.type64 n) bs = .type64 (wordsOfBytes h n bs) := rfl

theorem Storage.ofBytes_type8 (h : Endian) (a n : Nat) (bs : List Nat) :
    Storage.ofBytes h (.type8 a n) bs = .type8 bs := rfl

theorem bit_cast_eq (h : Endian) (To : Shape) (src : Storage)
    (hl : (src.bytes h).length = To.size) :
    bit_cast h To src = some (Storage.ofBytes h To (src.bytes h)) := by
  simp [bit_cast, hl]

theorem se_storage.primary_type_size (T : CType) (Align : Nat) :
    (se_storage.primary_type T Align).size = T.size := by
  unfold se_storage.primary_type
  split
  · rename_i hc
    simp only [Shape.size]
    omega
  · rfl

theorem se_storage.swap_via16 (h : Endian) (ty : Shape) (src : Storage)
    (hb : isBytes 2 (src.bytes h) = true) (hty : ty.size = 2) :
    ((bit_cast h .u16 src).bind se_storage.swap16).bind (bit_cast h ty)
      = some (Storage.ofBytes h ty (src.bytes h).reverse) := by
  have hl : (src.bytes h).length = 2 := ((isBytes_iff _ _).mp hb).1
  rw [bit_cast_eq h .u16 src (by simp [Shape.size, hl])]
  simp only [Storage.ofBytes_u16, Option.some_bind, se_storage.swap16]
  have e : (Storage.u16 (bswap16 (intOfBytes h (src.bytes h)))).bytes h
      = (src.bytes h).reverse := by
    rw [Storage.bytes_u16, intBytes_bswap16, intBytes_intOfBytes h 2 _ hb]
  rw [bit_cast_eq h ty _ (by rw [e, List.length_reverse, hl, hty]), e]

theorem se_storage.swap_via32 (h : Endian) (ty : Shape) (src : Storage)
    (hb : isBytes 4 (src.bytes h) = true) (hty : ty.size = 4) :
    ((bit_cast h .u32 src).bind se_storage.swap32).bind (bit_cast h ty)
      = some (Storage.ofBytes h ty (src.bytes h).reverse) := by
  have hl : (src.bytes h).length = 4 := ((isBytes_iff _ _).mp hb).1
  rw [bit_cast_eq h .u32 src (by simp [Shape.size, hl])]
  simp only [Storage.ofBytes_u32, Option.some_bind, se_storage.swap32]
  have e : (Storage.u32 (bswap32 (intOfBytes h (src.bytes h)))).bytes h
      = (src.bytes h).reverse := by
    rw [Storage.bytes_u32, intBytes_bswap32, intBytes_intOfBytes h 4 _ hb]
  rw [bit_cast_eq h ty _ (by rw [e, List.length_reverse, hl, hty]), e]

theorem se_storage.swap_via64 (h : Endian) (ty : Shape) (src : Storage)
    (hb : isBytes 8 (src.bytes h) = true) (hty : ty.size = 8) :
    ((bit_cast h .u64 src).bind se_storage.swap64).bind (bit_cast h ty)
      = some (Storage.ofBytes h ty (src.bytes h).reverse) := by
  have hl : (src.bytes h).length = 8 := ((isBytes_iff _ _).mp hb).1
  rw [bit_cast_eq h .u64 src (by simp [Shape.size, hl])]
  simp only [Storage.ofBytes_u64, Option.some_bind, se_storage.swap64]
  have e : (Storage.u64 (bswap64 (intOfBytes h (src.bytes h)))).bytes h
      = (src.bytes h).reverse := by
    rw [Storage.bytes_u64, intBytes_bswap64, intBytes_intOfBytes h 8 _ hb]
  rw [bit_cast_eq h ty _ (by rw [e, List.length_reverse, hl, hty]), e]

theorem se_storage.swap_viaBlocks (h : Endian) (ty : Shape) (n : Nat) (src : Storage)
    (hb : isBytes (8 * n) (src.bytes h) = true) (hty : ty.size = 8 * n) :
    (bit_cast h (.type64 n) src).bind (fun tmp =>
      match tmp with
      | .type64 tmpData =>
        (forLoop (se_storage.blockBody n tmpData) n 0 (List.replicate n 0)).bind
          (fun dstData => bit_cast h ty (.type64 dstData))
      | _ => none)
      = some (Storage.ofBytes h ty (src.bytes h).reverse) := by
  obtain ⟨hl, hlt⟩ := (isBytes_iff _ _).mp hb
  rw [bit_cast_eq h (.type64 n) src (by simp [Shape.size, hl])]
  simp only [Storage.ofBytes_type64, Option.some_bind]
  have hn : (wordsOfBytes h n (src.bytes h)).length = n := wordsOfBytes_length h n _
  have hloop := se_storage.blockLoop_eq (wordsOfBytes h n (src.bytes h))
  rw [hn] at hloop
  rw [hloop]
  simp only [Option.some_bind]
  have e : (Storage.type64 ((wordsOfBytes h n (src.bytes h)).reverse.map bswap64)).bytes h
      = (src.bytes h).reverse := by
    rw [Storage.bytes_type64, flatMap_intBytes_bswap64_reverse, flatMap_wordsOfBytes h n _ hl hlt]
  rw [bit_cast_eq h ty _ (by rw [e, List.length_reverse, hl, hty]), e]

theorem se_storage.swapGeneric_eq (h : Endian) (T : CType) (Align : Nat)
    (src : Storage) (hs : src.hasShape (se_storage.primary_type T Align) = true) :
    se_storage.swapGeneric h T Align src
      = some (Storage.ofBytes h (se_storage.primary_type T Align) (src.bytes h).reverse) := by
  have hsz := se_storage.primary_type_size T Align
  have hb := Storage.bytes_isBytes h hs
  rw [hsz] at hb
  have hbl : (src.bytes h).length = T.size := ((isBytes_iff _ _).mp hb).1
  unfold se_storage.swapGeneric
  simp only
  by_cases h1 : T.size = 1
  · rw [if_pos h1]
    have hrev : (src.bytes h).reverse = src.bytes h := by
      rw [h1] at hbl
      match hm : src.bytes h, hbl with
      | [b], _ => rfl
    rw [hrev, Storage.ofBytes_bytes h hs]
  rw [if_neg h1]
  by_cases h2 : T.size = 2
  · rw [if_pos h2]
    exact se_storage.swap_via16 h _ src (h2 ▸ hb) (hsz.trans h2)
  rw [if_neg h2]
  by_cases h4 : T.size = 4
  · rw [if_pos h4]
    exact se_storage.swap_via32 h _ src (h4 ▸ hb) (hsz.trans h4)
  rw [if_neg h4]
  by_cases h8 : T.size = 8
  · rw [if_pos h8]
    exact se_storage.swap_via64 h _ src (h8 ▸ hb) (hsz.trans h8)
  rw [if_neg h8]
  by_cases hm : T.size % 8 = 0
  · rw [if_pos hm]
    have e8 : 8 * (T.size / 8) = T.size := by omega
    exact se_storage.swap_viaBlocks h _ (T.size / 8) src (e8.symm ▸ hb) (hsz.trans e8.symm)
  rw [if_neg hm]
  have hty : se_storage.primary_type T Align
      = .type8 (if Align > T.align then T.align else Align) T.size := by
    unfold se_storage.primary_type
    rw [if_neg (fun hc => hm hc.2)]
  rw [hty] at hs ⊢
  cases src with
  | type8 data =>
    simp only [Storage.hasShape, Bool.and_eq_true, decide_eq_true_eq] at hs
    have hloop := se_storage.byteLoop_eq data
    rw [hs.1] at hloop
    simp [hloop, Storage.ofBytes, Storage.bytes]
  | _ => simp [Storage.hasShape] at hs

theorem se_storage.type_size (T : CType) (Align : Nat) :
    (se_storage.type T Align T.size).size = T.size := by
  unfold se_storage.type
  split
  · rename_i hc; simp [Shape.size, hc.2]
  split
  · rename_i hc; simp [Shape.size, hc.2]
  split
  · rename_i hc; simp [Shape.size, hc.2]
  exact se_storage.primary_type_size T Align

/-- On every selection branch the swap is defined, and its result is the value
of the representation type whose memory image is the reversed memory image of
the argument. -/
theorem se_storage.swap_eq (h : Endian) (T : CType) (Align : Nat)
    (src : Storage) (hs : src.hasShape (se_storage.type T Align T.size) = true) :
    se_storage.swap h T Align T.size src
      = some (Storage.ofBytes h (se_storage.type T Align T.size) (src.bytes h).reverse) := by
  unfold se_storage.swap
  by_cases c2 : Align = 2 ∧ T.size = 2
  · have hty : se_storage.type T Align T.size = .u16 := by simp [se_storage.type, c2]
    rw [hty] at hs ⊢
    rw [if_pos c2]
    cases src with
    | u16 v =>
      rw [Storage.bytes_u16, Storage.ofBytes_u16, intOfBytes_reverse_intBytes16]
      rfl
    | _ => simp [Storage.hasShape] at hs
  rw [if_neg c2]
  by_cases c4 : Align = 4 ∧ T.size = 4
  · have hty : se_storage.type T Align T.size = .u32 := by simp [se_storage.type, c2, c4]
    rw [hty] at hs ⊢
    rw [if_pos c4]
    cases src with
    | u32 v =>
      rw [Storage.bytes_u32, Storage.ofBytes_u32, intOfBytes_reverse_intBytes32]
      rfl
    | _ => simp [Storage.hasShape] at hs
  rw [if_neg c4]
  by_cases c8 : Align = 8 ∧ T.size = 8
  · have hty : se_storage.type T Align T.size = .u64 := by simp [se_storage.type, c2, c4, c8]
    rw [hty] at hs ⊢
    rw [if_pos c8]
    cases src with
    | u64 v =>
      rw [Storage.bytes_u64, Storage.ofBytes_u64, intOfBytes_reverse_intBytes64]
      rfl
    | _ => simp [Storage.hasShape] at hs
  rw [if_neg c8]
  have hty : se_storage.type T Align T.size = se_storage.primary_type T Align := by
    simp [se_storage.type, c2, c4, c8]
  rw [hty] at hs ⊢
  exact se_storage.swapGeneric_eq h T Align src hs

/-- The result of the swap: defined, of the same representation type, with the
reversed memory image. -/
theorem se_storage.swap_spec (h : Endian) (T : CType) (Align : Nat)
    (src : Storage) (hs : src.hasShape (se_storage.type T Align T.size) = true) :
    ∃ dst, se_storage.swap h T Align T.size src = some dst
      ∧ dst.hasShape (se_storage.type T Align T.size) = true
      ∧ dst.bytes h = (src.bytes h).reverse := by
  have hb : isBytes (se_storage.type T Align T.size).size (src.bytes h).reverse = true :=
    isBytes_reverse (Storage.bytes_isBytes h hs)
  exact ⟨_, se_storage.swap_eq h T Align src hs, Storage.hasShape_ofBytes h hb,
    Storage.bytes_ofBytes h hb⟩

/-! ## The conversion pair of `se_t` -/

theorem se_t.stype_size (p : se_t.Params) : (se_t.stype p).size = p.T.size :=
  se_storage.type_size p.T p.Align

theorem se_t.storage_swap_eq (p : se_t.Params) (src : Storage)
    (hs : src.hasShape (se_t.stype p) = true) :
    se_t.storage_swap p src
      = some (Storage.ofBytes p.host (se_t.stype p) (src.bytes p.host).reverse) :=
  se_storage.swap_eq p.host p.T p.Align src hs

/-- `to_data` is defined on every logical value and stores its object
representation, reversed when `Swap` is set. -/
theorem se_t.to_data_eq (p : se_t.Params) (value : List Nat)
    (hb : isBytes p.T.size value = true) :
    se_t.to_data p value
      = some (Storage.ofBytes p.host (se_t.stype p) (if p.Swap then value.reverse else value)) := by
  have hb1 : isBytes (se_t.stype p).size value = true := by rw [se_t.stype_size]; exact hb
  have hl : value.length = (se_t.stype p).size := ((isBytes_iff _ _).mp hb1).1
  unfold se_t.to_data bit_cast_stype
  rw [if_pos hl]
  cases hsw : p.Swap with
  | false => simp
  | true =>
    simp only [if_true, Option.some_bind]
    have := se_t.storage_swap_eq p _ (Storage.hasShape_ofBytes p.host hb1)
    rw [Storage.bytes_ofBytes p.host hb1] at this
    exact this

theorem se_t.to_data_hasShape (p : se_t.Params) (value : List Nat)
    (hb : isBytes p.T.size value = true) :
    ∃ d, se_t.to_data p value = some d ∧ d.hasShape (se_t.stype p) = true
      ∧ d.bytes p.host = (if p.Swap then value.reverse else value) := by
  have hb1 : isBytes (se_t.stype p).size (if p.Swap then value.reverse else value) = true := by
    rw [se_t.stype_size]
    split
    · exact isBytes_reverse hb
    · exact hb
  exact ⟨_, se_t.to_data_eq p value hb, Storage.hasShape_ofBytes p.host hb1,
    Storage.bytes_ofBytes p.host hb1⟩

/-- `value` is defined on every stored representation and returns its memory
image, reversed when `Swap` is set. -/
theorem se_t.value_eq (p : se_t.Params) (self : se_t)
    (hs : self.m_data.hasShape (se_t.stype p) = true) :
    se_t.value p self
      = some (if p.Swap then (self.m_data.bytes p.host).reverse else self.m_data.bytes p.host) := by
  have hb := Storage.bytes_isBytes p.host hs
  have hl : (self.m_data.bytes p.host).length = p.T.size := by
    rw [← se_t.stype_size]; exact ((isBytes_iff _ _).mp hb).1
  unfold se_t.value bit_cast_type
  cases hsw : p.Swap with
  | false => simp [hl]
  | true =>
    simp only [if_true]
    rw [se_t.storage_swap_eq p _ hs, Option.some_bind,
      Storage.bytes_ofBytes p.host (isBytes_reverse hb)]
    simp [hl]

theorem se_t.value_isBytes (p : se_t.Params) (self : se_t)
    (hs : self.m_data.hasShape (se_t.stype p) = true) :
    ∃ v, se_t.value p self = some v ∧ isBytes p.T.size v = true
      ∧ Storage.ofBytes p.host (se_t.stype p) (if p.Swap then v.reverse else v) = self.m_data := by
  have hb := Storage.bytes_isBytes p.host hs
  refine ⟨_, se_t.value_eq p self hs, ?_, ?_⟩
  · rw [← se_t.stype_size]
    split
    · exact isBytes_reverse hb
    · exact hb
  · cases hsw : p.Swap with
    | false => simpa using Storage.ofBytes_bytes p.host hs
    | true => simpa using Storage.ofBytes_bytes p.host hs

/-- Reading back what `to_data` stored gives the logical value. -/
theorem se_t.value_to_data (p : se_t.Params) (value : List Nat)
    (hb : isBytes p.T.size value = true) :
    (se_t.to_data p value).bind (fun d => se_t.value p ⟨d⟩) = some value := by
  obtain ⟨d, hd, hsh, hbytes⟩ := se_t.to_data_hasShape p value hb
  rw [hd, Option.some_bind, se_t.value_eq p ⟨d⟩ hsh]
  simp only [hbytes]
  cases p.Swap <;> simp

/-- The stored representation of a well-formed object is the encoding of the
value it reports. -/
theorem se_t.invariant_of_hasShape (p : se_t.Params) (self : se_t)
    (hs : self.m_data.hasShape (se_t.stype p) = true) : se_t.invariant p self := by
  obtain ⟨v, hv, hvb, hof⟩ := se_t.value_isBytes p self hs
  unfold se_t.invariant
  rw [hv, Option.some_bind, se_t.to_data_eq p v hvb, hof]

/-! ## Integer logical types -/

theorem IntType.modulus_eq (I : IntType) : I.modulus = 256 ^ I.size := by
  unfold IntType.modulus IntType.bits
  rw [pow_mul]
  norm_num

theorem IntType.modulus_pos (I : IntType) : 0 < I.modulus := by
  unfold IntType.modulus
  exact Nat.pow_pos (by decide)

theorem IntType.two_half (I : IntType) (hsz : 0 < I.size) : 2 * I.half = I.modulus := by
  unfold IntType.modulus IntType.half IntType.bits
  have : 8 * I.size = (8 * I.size - 1) + 1 := by omega
  conv_rhs => rw [this, pow_succ]
  omega

theorem IntType.toBytes_isBytes (h : Endian) (I : IntType) (v : Int) :
    isBytes I.size (I.toBytes h v) = true :=
  intBytes_isBytes h I.size _

theorem IntType.emod_modulus_bounds (I : IntType) (v : Int) :
    0 ≤ v % (I.modulus : Int) ∧ v % (I.modulus : Int) < (I.modulus : Int) := by
  have hpos : (0 : Int) < (I.modulus : Int) := by exact_mod_cast I.modulus_pos
  exact ⟨Int.emod_nonneg _ (ne_of_gt hpos), Int.emod_lt_of_pos _ hpos⟩

theorem IntType.intOfBytes_toBytes (h : Endian) (I : IntType) (v : Int) :
    (intOfBytes h (I.toBytes h v) : Int) = v % (I.modulus : Int) := by
  obtain ⟨h0, h1⟩ := I.emod_modulus_bounds v
  unfold IntType.toBytes
  rw [intOfBytes_intBytes_of_lt]
  · exact Int.toNat_of_nonneg h0
  · rw [← I.modulus_eq]
    omega

theorem IntType.inRange_iff (I : IntType) (v : Int) :
    I.inRange v = true ↔
      (if I.signed then -(I.half : Int) ≤ v ∧ v < (I.half : Int)
        else 0 ≤ v ∧ v < (I.modulus : Int)) := by
  unfold IntType.inRange
  split <;> simp

/-- The object representation determines the value: decoding the encoding of a
value of the type gives the value back. -/
theorem IntType.ofBytes_toBytes (h : Endian) (I : IntType) (hsz : 0 < I.size) (v : Int)
    (hv : I.inRange v = true) : I.ofBytes h (I.toBytes h v) = v := by
  have hm := I.two_half hsz
  have hpos := I.modulus_pos
  rw [IntType.inRange_iff] at hv
  have key := I.intOfBytes_toBytes h v
  unfold IntType.ofBytes
  by_cases hneg : v < 0
  · have hs : I.signed = true := by
      by_contra hc
      simp only [hc] at hv
      simp at hv
      omega
    simp only [hs, if_true] at hv
    have e : v % (I.modulus : Int) = v + (I.modulus : Int) := by
      rw [← Int.add_mul_emod_self_left v (I.modulus : Int) 1, Int.mul_one]
      exact Int.emod_eq_of_lt (by omega) (by omega)
    rw [e] at key
    have hge : I.half ≤ intOfBytes h (I.toBytes h v) := by omega
    rw [if_pos ⟨hs, hge⟩, key]
    omega
  · have e : v % (I.modulus : Int) = v := by
      apply Int.emod_eq_of_lt (by omega)
      split at hv <;> omega
    rw [e] at key
    have hlt : ¬ (I.signed = true ∧ I.half ≤ intOfBytes h (I.toBytes h v)) := by
      rintro ⟨hs, hge⟩
      simp only [hs, if_true] at hv
      omega
    rw [if_neg hlt, key]

theorem IntType.wrap_inRange (I : IntType) (hsz : 0 < I.size) (x : Int) :
    I.inRange (I.wrap x) = true := by
  have hm := I.two_half hsz
  rw [IntType.inRange_iff]
  unfold IntType.wrap
  cases hs : I.signed with
  | true =>
    simp only [if_true]
    obtain ⟨h0, h1⟩ := I.emod_modulus_bounds (x + (I.half : Int))
    constructor <;> omega
  | false =>
    simp only [Bool.false_eq_true, if_false]
    exact I.emod_modulus_bounds x

theorem IntType.wrap_of_inRange (I : IntType) (hsz : 0 < I.size) (v : Int)
    (hv : I.inRange v = true) : I.wrap v = v := by
  have hm := I.two_half hsz
  rw [IntType.inRange_iff] at hv
  unfold IntType.wrap
  cases hs : I.signed with
  | true =>
    simp only [hs, if_true] at hv ⊢
    rw [Int.emod_eq_of_lt (by omega) (by omega)]
    omega
  | false =>
    simp only [hs, Bool.false_eq_true, if_false] at hv ⊢
    exact Int.emod_eq_of_lt hv.1 hv.2

/-! ## `se_t` over an integer logical type -/

/-- Storing an integer value is always defined; the stored object is well
formed and reads back as the value. -/
theorem se_t.assignInt_spec (h : Endian) (I : IntType) (Swap : Bool) (Align : Nat)
    (hsz : 0 < I.size) (self : se_t) (v : Int) :
    ∃ w, se_t.assignInt (I.params h Swap Align) I self v = some w
      ∧ w.m_data.hasShape (se_t.stype (I.params h Swap Align)) = true
      ∧ w.m_data.bytes h = (if Swap then (I.toBytes h v).reverse else I.toBytes h v)
      ∧ (I.inRange v = true → se_t.valueInt (I.params h Swap Align) I w = some v) := by
  have hb : isBytes (I.params h Swap Align).T.size (I.toBytes h v) = true :=
    I.toBytes_isBytes h v
  obtain ⟨d, hd, hsh, hbytes⟩ := se_t.to_data_hasShape (I.params h Swap Align) _ hb
  refine ⟨⟨d⟩, ?_, hsh, hbytes, fun hv => ?_⟩
  · simp only [se_t.assignInt, se_t.assign]
    rw [show (I.params h Swap Align).host = h from rfl, hd]
    rfl
  · have := se_t.value_to_data (I.params h Swap Align) _ hb
    rw [hd, Option.some_bind] at this
    unfold se_t.valueInt
    rw [this]
    simp only [Option.map_some']
    exact congrArg some (I.ofBytes_toBytes h hsz v hv)

theorem se_t.constructInt_eq_assignInt (p : se_t.Params) (I : IntType) (self : se_t) (v : Int) :
    se_t.constructInt p I v = se_t.assignInt p I self v := rfl

/-- Storing an optional in-range result and reading it back gives the result. -/
theorem se_t.assign_then_value (h : Endian) (I : IntType) (Swap : Bool) (Align : Nat)
    (hsz : 0 < I.size) (self : se_t) (x : Option Int)
    (hx : ∀ r, x = some r → I.inRange r = true) :
    (x.bind (se_t.assignInt (I.params h Swap Align) I self)).bind
      (se_t.valueInt (I.params h Swap Align) I) = x := by
  cases x with
  | none => rfl
  | some r =>
    obtain ⟨w, hw, _, _, hval⟩ := se_t.assignInt_spec h I Swap Align hsz self r
    rw [Option.some_bind, hw, Option.some_bind, hval (hx r rfl)]

theorem IntType.compound_inRange (I : IntType) (hsz : 0 < I.size) (op : BinOp) (a b r : Int)
    (hr : I.compound op a b = some r) : I.inRange r = true := by
  unfold IntType.compound at hr
  cases hbin : I.binop op a b with
  | none => simp [hbin] at hr
  | some x =>
    simp only [hbin, Option.map_some', Option.some.injEq] at hr
    rw [← hr]
    exact I.wrap_inRange hsz x

theorem se_t.operator_op_assign_eq (p : se_t.Params) (I : IntType) (op : BinOp) (self : se_t)
    (rhs v : Int) (hv : se_t.valueInt p I self = some v) :
    se_t.operator_op_assign p I op self rhs
      = (I.compound op v rhs).bind (se_t.assignInt p I self) := by
  unfold se_t.operator_op_assign IntType.compound
  rw [hv, Option.some_bind]
  cases I.binop op v rhs <;> rfl

theorem se_t.operator_pre_inc_eq (p : se_t.Params) (I : IntType) (self : se_t)
    (v : Int) (hv : se_t.valueInt p I self = some v) :
    se_t.operator_pre_inc p I self = (I.inc v).bind (se_t.assignInt p I self) := by
  unfold se_t.operator_pre_inc
  rw [show se_t.operator_typeInt p I self = se_t.valueInt p I self from rfl, hv,
    Option.some_bind]

theorem se_t.operator_pre_dec_eq (p : se_t.Params) (I : IntType) (self : se_t)
    (v : Int) (hv : se_t.valueInt p I self = some v) :
    se_t.operator_pre_dec p I self = (I.dec v).bind (se_t.assignInt p I self) := by
  unfold se_t.operator_pre_dec
  rw [show se_t.operator_typeInt p I self = se_t.valueInt p I self from rfl, hv,
    Option.some_bind]

theorem se_t.operator_post_inc_eq (p : se_t.Params) (I : IntType) (self : se_t)
    (v : Int) (hv : se_t.valueInt p I self = some v) :
    se_t.operator_post_inc p I self
      = ((I.inc v).bind (se_t.assignInt p I self)).map (fun self1 => (v, self1)) := by
  unfold se_t.operator_post_inc
  rw [show se_t.operator_typeInt p I self = se_t.valueInt p I self from rfl, hv,
    Option.some_bind]
  cases I.inc v <;> rfl

theorem se_t.operator_post_dec_eq (p : se_t.Params) (I : IntType) (self : se_t)
    (v : Int) (hv : se_t.valueInt p I self = some v) :
    se_t.operator_post_dec p I self
      = ((I.dec v).bind (se_t.assignInt p I self)).map (fun self1 => (v, self1)) := by
  unfold se_t.operator_post_dec
  rw [show se_t.operator_typeInt p I self = se_t.valueInt p I self from rfl, hv,
    Option.some_bind]
  cases I.dec v <;> rfl

theorem IntType.inc_eq_compound (I : IntType) (a : Int) : I.inc a = I.compound .add a 1 := rfl

theorem IntType.dec_eq_compound (I : IntType) (a : Int) : I.dec a = I.compound .sub a 1 := rfl

/-- The native increment and decrement: the mathematical result `x` computed in
the promoted type and converted back to the type. -/
theorem IntType.arith_map_wrap (I : IntType) (x : Int) :
    (I.promoted.arith x).map I.wrap
      = if I.promoted.signed = true ∧ I.promoted.inRange x = false then none
        else some (I.wrap x) := by
  unfold IntType.arith
  cases hps : I.promoted.signed with
  | true =>
    cases hr : I.promoted.inRange x <;> simp
  | false =>
    have hI : I.promoted = I := by
      unfold IntType.promoted at hps ⊢
      split
      · rename_i hlt; simp [hlt] at hps
      · rfl
    have hs : I.signed = false := by rw [hI] at hps; exact hps
    simp only [Bool.false_eq_true, if_false, Option.map_some', false_and]
    rw [hI]
    unfold IntType.wrap
    simp only [hs, Bool.false_eq_true, if_false]
    rw [Int.emod_emod_of_dvd _ (dvd_refl _)]

/-- For an unsigned type, an arithmetic result that the promoted type can hold
is reduced modulo `2 ^ bits` by the conversion back to the type. -/
theorem IntType.arith_unsigned (I : IntType) (hu : I.signed = false) (x : Int)
    (hx : I.size < 4 → -(2 ^ 31 : Int) ≤ x ∧ x < 2 ^ 31) :
    (I.promoted.arith x).map I.wrap = some (x % (I.modulus : Int)) := by
  have hwrap : I.wrap x = x % (I.modulus : Int) := by
    unfold IntType.wrap
    simp [hu]
  rw [I.arith_map_wrap x, hwrap]
  apply if_neg
  rintro ⟨hps, hr⟩
  unfold IntType.promoted at hps hr
  by_cases hlt : I.size < 4
  · rw [if_pos hlt] at hr
    have h31 := hx hlt
    have : (⟨4, true⟩ : IntType).inRange x = true := by
      rw [IntType.inRange_iff]
      simp only [if_true]
      have e : (((⟨4, true⟩ : IntType).half : Nat) : Int) = 2 ^ 31 := by
        norm_num [IntType.half, IntType.bits]
      rw [e]
      exact h31
    rw [this] at hr
    exact Bool.noConfusion hr
  · rw [if_neg hlt] at hps
    rw [hu] at hps
    exact Bool.noConfusion hps

theorem IntType.unsigned_bounds (I : IntType) (hu : I.signed = false) (a : Int)
    (ha : I.inRange a = true) : 0 ≤ a ∧ a < (I.modulus : Int) := by
  rw [IntType.inRange_iff] at ha
  simpa [hu] using ha

theorem IntType.modulus_le_of_narrow (I : IntType) (hlt : I.size < 4) :
    (I.modulus : Int) ≤ 2 ^ 24 := by
  have h1 : I.modulus ≤ 2 ^ 24 := by
    unfold IntType.modulus IntType.bits
    exact Nat.pow_le_pow_right (by decide) (by omega)
  exact_mod_cast h1

theorem IntType.arith_isSome_unsigned (I : IntType) (hu : I.signed = false) (x : Int)
    (hx : I.size < 4 → -(2 ^ 31 : Int) ≤ x ∧ x < 2 ^ 31) :
    (I.promoted.arith x).isSome = true := by
  have := I.arith_unsigned hu x hx
  cases hc : I.promoted.arith x with
  | none => rw [hc] at this; cases this
  | some r => rfl

theorem IntType.bits_le_promoted (I : IntType) : I.bits ≤ I.promoted.bits := by
  unfold IntType.promoted
  split
  · unfold IntType.bits
    simp only
    omega
  · exact Nat.le_refl _

/-- For an unsigned type the native compound assignment is defined under the
side conditions of the operators: a non-zero divisor for `/=` and `%=`, a shift
amount below the bit width for `<<=` and `>>=`, and a product of the promoted
operands that fits `int` for `*=` on a type narrower than `int`. -/
theorem IntType.compound_isSome_unsigned (I : IntType) (hu : I.signed = false)
    (op : BinOp) (a b : Int) (ha : I.inRange a = true) (hb : I.inRange b = true)
    (hdiv : op = .div ∨ op = .mod → b ≠ 0)
    (hshift : op = .shl ∨ op = .shr → b < (I.bits : Int))
    (hmul : op = .mul → I.size < 4 → a * b < 2 ^ 31) :
    (I.compound op a b).isSome = true := by
  obtain ⟨ha0, ha1⟩ := I.unsigned_bounds hu a ha
  obtain ⟨hb0, hb1⟩ := I.unsigned_bounds hu b hb
  unfold IntType.compound
  rw [Option.isSome_map']
  have hq0 : 0 ≤ a.tdiv b := Int.tdiv_nonneg ha0 hb0
  have hq1 : a.tdiv b ≤ a := by
    rw [Int.tdiv_eq_ediv ha0 hb0]
    exact Int.ediv_le_self b ha0
  have hbits : (I.bits : Int) ≤ (I.promoted.bits : Int) := by
    exact_mod_cast I.bits_le_promoted
  cases op with
  | add =>
    refine I.arith_isSome_unsigned hu (a + b) (fun hlt => ?_)
    have := I.modulus_le_of_narrow hlt
    constructor <;> omega
  | sub =>
    refine I.arith_isSome_unsigned hu (a - b) (fun hlt => ?_)
    have := I.modulus_le_of_narrow hlt
    constructor <;> omega
  | mul =>
    refine I.arith_isSome_unsigned hu (a * b) (fun hlt => ?_)
    have hnn : 0 ≤ a * b := Int.mul_nonneg ha0 hb0
    exact ⟨by omega, hmul rfl hlt⟩
  | div =>
    have hb2 : b ≠ 0 := hdiv (Or.inl rfl)
    simp only [IntType.binop, if_neg hb2]
    refine I.arith_isSome_unsigned hu _ (fun hlt => ?_)
    have := I.modulus_le_of_narrow hlt
    constructor <;> omega
  | mod =>
    have hb2 : b ≠ 0 := hdiv (Or.inr rfl)
    simp only [IntType.binop, if_neg hb2, Option.isSome_map']
    refine I.arith_isSome_unsigned hu _ (fun hlt => ?_)
    have := I.modulus_le_of_narrow hlt
    constructor <;> omega
  | and => rfl
  | or => rfl
  | xor => rfl
  | shl =>
    have hs := hshift (Or.inl rfl)
    have hc : ¬ (b < 0 ∨ (I.promoted.bits : Int) ≤ b) := by omega
    simp only [IntType.binop, if_neg hc]
    rfl
  | shr =>
    have hs := hshift (Or.inr rfl)
    have hc : ¬ (b < 0 ∨ (I.promoted.bits : Int) ≤ b) := by omega
    simp only [IntType.binop, if_neg hc]
    rfl

/-! ## Properties of the storage selector and of the wrapper -/

/-- C1: on every selection branch of `se_storage` (the 16-, 32- and 64-bit
specialisations, the array of 64-bit words and the byte array) and for every
size `S`, `swap` is defined and, with the argument and the result viewed as
raw byte sequences of length `S`, `post[i] == pre[S - 1 - i]` for every `i` in
`[0, S)`. -/
theorem se_storage.swap_is_byte_reversal (h : Endian) (T : CType) (Align : Nat) (src : Storage)
    (hs : src.hasShape (se_storage.type T Align T.size) = true) :
    ∃ dst, se_storage.swap h T Align T.size src = some dst
      ∧ (src.bytes h).length = T.size ∧ (dst.bytes h).length = T.size
      ∧ ∀ i, i < T.size →
          ∃ b, (dst.bytes h)[i]? = some b ∧ (src.bytes h)[T.size - 1 - i]? = some b := by
  obtain ⟨dst, hd, hsh, hbytes⟩ := se_storage.swap_spec h T Align src hs
  have hl : (src.bytes h).length = T.size := by
    rw [← se_storage.type_size T Align]
    exact ((isBytes_iff _ _).mp (Storage.bytes_isBytes h hs)).1
  have hl2 : (dst.bytes h).length = T.size := by
    rw [← se_storage.type_size T Align]
    exact ((isBytes_iff _ _).mp (Storage.bytes_isBytes h hsh)).1
  refine ⟨dst, hd, hl, hl2, fun i hi => ?_⟩
  have hi1 : T.size - 1 - i < (src.bytes h).length := by omega
  refine ⟨(src.bytes h)[T.size - 1 - i], ?_, List.getElem?_eq_getElem hi1⟩
  rw [hbytes, List.getElem?_reverse (by omega), hl]
  exact List.getElem?_eq_getElem hi1

theorem se_storage.swap_is_byte_reversal_witness :
    (Storage.type64 [0x0706050403020100, 0x0f0e0d0c0b0a0908]).hasShape
        (se_storage.type ⟨16, 16⟩ 16 16) = true
      ∧ ∃ dst, se_storage.swap .little ⟨16, 16⟩ 16 16
            (Storage.type64 [0x0706050403020100, 0x0f0e0d0c0b0a0908]) = some dst
          ∧ ((Storage.type64 [0x0706050403020100, 0x0f0e0d0c0b0a0908]).bytes .little).length = 16
          ∧ (dst.bytes .little).length = 16
          ∧ ∀ i, i < 16 →
              ∃ b, (dst.bytes .little)[i]? = some b
                ∧ ((Storage.type64 [0x0706050403020100, 0x0f0e0d0c0b0a0908]).bytes .little)[16 - 1 - i]?
                    = some b :=
  ⟨by decide, se_storage.swap_is_byte_reversal .little ⟨16, 16⟩ 16 _ (by decide)⟩

/-- C2: for every value `v` of an integer type of any size, for both settings
of `Swap`, every alignment and either host byte order, a wrapper constructed
from `v`, or assigned `v` over any previous content, returns `v` from
`value()`, from `get()` and from the conversion to `T`. -/
theorem se_t.round_trip (h : Endian) (I : IntType) (Swap : Bool) (Align : Nat)
    (hsz : 0 < I.size) (v : Int) (hv : I.inRange v = true) :
    (∃ w, se_t.constructInt (I.params h Swap Align) I v = some w
        ∧ se_t.valueInt (I.params h Swap Align) I w = some v
        ∧ se_t.getInt (I.params h Swap Align) I w = some v
        ∧ se_t.operator_typeInt (I.params h Swap Align) I w = some v)
      ∧ ∀ prev : se_t, ∃ w, se_t.assignInt (I.params h Swap Align) I prev v = some w
        ∧ se_t.valueInt (I.params h Swap Align) I w = some v
        ∧ se_t.getInt (I.params h Swap Align) I w = some v
        ∧ se_t.operator_typeInt (I.params h Swap Align) I w = some v := by
  have key : ∀ prev : se_t, ∃ w, se_t.assignInt (I.params h Swap Align) I prev v = some w
        ∧ se_t.valueInt (I.params h Swap Align) I w = some v
        ∧ se_t.getInt (I.params h Swap Align) I w = some v
        ∧ se_t.operator_typeInt (I.params h Swap Align) I w = some v := by
    intro prev
    obtain ⟨w, hw, _, _, hval⟩ := se_t.assignInt_spec h I Swap Align hsz prev v
    exact ⟨w, hw, hval hv, hval hv, hval hv⟩
  exact ⟨key ⟨.type8 []⟩, key⟩

theorem se_t.round_trip_witness :
    (0 < (⟨8, true⟩ : IntType).size ∧ (⟨8, true⟩ : IntType).inRange (-2) = true)
      ∧ ((∃ w, se_t.constructInt ((⟨8, true⟩ : IntType).params .little true 8) ⟨8, true⟩ (-2)
              = some w
          ∧ se_t.valueInt ((⟨8, true⟩ : IntType).params .little true 8) ⟨8, true⟩ w = some (-2)
          ∧ se_t.getInt ((⟨8, true⟩ : IntType).params .little true 8) ⟨8, true⟩ w = some (-2)
          ∧ se_t.operator_typeInt ((⟨8, true⟩ : IntType).params .little true 8) ⟨8, true⟩ w
              = some (-2))
        ∧ ∀ prev : se_t,
          ∃ w, se_t.assignInt ((⟨8, true⟩ : IntType).params .little true 8) ⟨8, true⟩ prev (-2)
              = some w
          ∧ se_t.valueInt ((⟨8, true⟩ : IntType).params .little true 8) ⟨8, true⟩ w = some (-2)
          ∧ se_t.getInt ((⟨8, true⟩ : IntType).params .little true 8) ⟨8, true⟩ w = some (-2)
          ∧ se_t.operator_typeInt ((⟨8, true⟩ : IntType).params .little true 8) ⟨8, true⟩ w
              = some (-2)) :=
  ⟨⟨by decide, by decide⟩,
    se_t.round_trip .little ⟨8, true⟩ true 8 (by decide) (-2) (by decide)⟩

/-- C3: for every physical representation `p` of every selection branch (the
specialised 16-, 32- and 64-bit routines, the generic byte reversal and the
word-array routine), `swap(swap(p)) == p`. -/
theorem se_storage.swap_swap (h : Endian) (T : CType) (Align : Nat) (src : Storage)
    (hs : src.hasShape (se_storage.type T Align T.size) = true) :
    (se_storage.swap h T Align T.size src).bind (se_storage.swap h T Align T.size)
      = some src := by
  obtain ⟨dst, hd, hsh, hbytes⟩ := se_storage.swap_spec h T Align src hs
  obtain ⟨dst2, hd2, hsh2, hbytes2⟩ := se_storage.swap_spec h T Align dst hsh
  rw [hd, Option.some_bind, hd2]
  congr 1
  apply Storage.eq_of_bytes_eq h hsh2 hs
  rw [hbytes2, hbytes, List.reverse_reverse]

theorem se_storage.swap_swap_witness :
    (Storage.type8 [1, 2, 3, 4, 5]).hasShape (se_storage.type ⟨5, 1⟩ 1 5) = true
      ∧ (se_storage.swap .big ⟨5, 1⟩ 1 5 (Storage.type8 [1, 2, 3, 4, 5])).bind
          (se_storage.swap .big ⟨5, 1⟩ 1 5) = some (Storage.type8 [1, 2, 3, 4, 5]) :=
  ⟨by decide, se_storage.swap_swap .big ⟨5, 1⟩ 1 _ (by decide)⟩

/-- The logical value after a compound assignment on a wrapper holding `a` is
the result of the native compound assignment. -/
theorem se_t.op_assign_value (h : Endian) (I : IntType) (Swap : Bool) (Align : Nat)
    (hsz : 0 < I.size) (op : BinOp) (a b : Int) (ha : I.inRange a = true) :
    ((se_t.constructInt (I.params h Swap Align) I a).bind
        (fun w => se_t.operator_op_assign (I.params h Swap Align) I op w b)).bind
      (se_t.valueInt (I.params h Swap Align) I) = I.compound op a b := by
  obtain ⟨w, hw, _, _, hval⟩ := se_t.assignInt_spec h I Swap Align hsz ⟨.type8 []⟩ a
  rw [se_t.constructInt_eq_assignInt _ _ ⟨.type8 []⟩, hw, Option.some_bind,
    se_t.operator_op_assign_eq _ I op w b a (hval ha)]
  exact se_t.assign_then_value h I Swap Align hsz w _
    (fun r hr => I.compound_inRange hsz op a b r hr)

/-- C4: for every integer logical type, all `a` and `b` of the type, both
settings of `Swap` and each compound operator `op=` among `+=`, `-=`, `*=`,
`/=`, `%=`, `&=`, `|=`, `^=`, `<<=`, `>>=`, after `w = wrapper(a); w op= b` the
value `w.value()` is the result of the native `a op= b`: the wrapper's
operation is defined exactly when the native one is, which for an unsigned
type is the case under the side conditions of the operators (`b != 0` for `/=`
and `%=`, a shift amount below the bit width for `<<=` and `>>=`, and for `*=`
on a type narrower than `int` a product that fits `int`). -/
theorem se_t.compound_matches_native (h : Endian) (I : IntType) (Swap : Bool) (Align : Nat)
    (hsz : 0 < I.size) (op : BinOp) (a b : Int) (ha : I.inRange a = true)
    (hb : I.inRange b = true) :
    (((se_t.constructInt (I.params h Swap Align) I a).bind
        (fun w => se_t.operator_op_assign (I.params h Swap Align) I op w b)).bind
      (se_t.valueInt (I.params h Swap Align) I) = I.compound op a b)
      ∧ (I.signed = false → (op = .div ∨ op = .mod → b ≠ 0) →
          (op = .shl ∨ op = .shr → b < (I.bits : Int)) →
          (op = .mul → I.size < 4 → a * b < 2 ^ 31) →
          (I.compound op a b).isSome = true) :=
  ⟨se_t.op_assign_value h I Swap Align hsz op a b ha,
    fun hu hdiv hshift hmul => I.compound_isSome_unsigned hu op a b ha hb hdiv hshift hmul⟩

theorem se_t.compound_matches_native_witness :
    (0 < (⟨2, true⟩ : IntType).size ∧ (⟨2, true⟩ : IntType).inRange (-7) = true ∧ (⟨2, true⟩ : IntType).inRange 2 = true)
      ∧ ((((se_t.constructInt ((⟨2, true⟩ : IntType).params .little true 2) (⟨2, true⟩ : IntType) (-7 : Int)).bind
        (fun w => se_t.operator_op_assign ((⟨2, true⟩ : IntType).params .little true 2) (⟨2, true⟩ : IntType) BinOp.div w (2 : Int))).bind
      (se_t.valueInt ((⟨2, true⟩ : IntType).params .little true 2) (⟨2, true⟩ : IntType)) = (⟨2, true⟩ : IntType).compound BinOp.div (-7 : Int) (2 : Int))
      ∧ ((⟨2, true⟩ : IntType).signed = false → (BinOp.div = .div ∨ BinOp.div = .mod → (2 : Int) ≠ 0) →
          (BinOp.div = .shl ∨ BinOp.div = .shr → (2 : Int) < ((⟨2, true⟩ : IntType).bits : Int)) →
          (BinOp.div = .mul → (⟨2, true⟩ : IntType).size < 4 → (-7 : Int) * (2 : Int) < 2 ^ 31) →
          ((⟨2, true⟩ : IntType).compound BinOp.div (-7 : Int) (2 : Int)).isSome = true)) :=
  ⟨⟨by decide, by decide, by decide⟩,
    se_t.compound_matches_native .little ⟨2, true⟩ true 2 (by decide) .div (-7) 2 (by decide)
      (by decide)⟩

theorem IntType.inc_eq (I : IntType) (a : Int) :
    I.inc a = if I.promoted.signed = true ∧ I.promoted.inRange (a + 1) = false then none
      else some (I.wrap (a + 1)) :=
  I.arith_map_wrap (a + 1)

theorem IntType.dec_eq (I : IntType) (a : Int) :
    I.dec a = if I.promoted.signed = true ∧ I.promoted.inRange (a - 1) = false then none
      else some (I.wrap (a - 1)) :=
  I.arith_map_wrap (a - 1)

/-- The logical value held after storing an optional native result, and the
value returned next to it by the postfix forms. -/
theorem se_t.assign_map_fst (h : Endian) (I : IntType) (Swap : Bool) (Align : Nat)
    (hsz : 0 < I.size) (self : se_t) (x : Option Int) (a : Int) :
    (((x.bind (se_t.assignInt (I.params h Swap Align) I self)).map
        (fun self1 => (a, self1))).map Prod.fst) = x.map (fun _ => a) := by
  cases x with
  | none => rfl
  | some r =>
    obtain ⟨w, hw, _⟩ := se_t.assignInt_spec h I Swap Align hsz self r
    rw [Option.some_bind, hw]
    rfl

theorem se_t.assign_map_snd_value (h : Endian) (I : IntType) (Swap : Bool) (Align : Nat)
    (hsz : 0 < I.size) (self : se_t) (x : Option Int) (a : Int)
    (hx : ∀ r, x = some r → I.inRange r = true) :
    (((x.bind (se_t.assignInt (I.params h Swap Align) I self)).map
        (fun self1 => (a, self1))).bind
      (fun r => se_t.valueInt (I.params h Swap Align) I r.2)) = x := by
  have := se_t.assign_then_value h I Swap Align hsz self x hx
  cases hx2 : x.bind (se_t.assignInt (I.params h Swap Align) I self) with
  | none => rw [hx2] at this; exact this
  | some w => rw [hx2] at this; exact this

/-! ## The overflow rules: ISO C++ and the arithmetic of the target -/

theorem IntType.binopOn_undefined (I : IntType) (op : BinOp) (a b : Int) :
    I.binopOn .undefined op a b = I.binop op a b := by
  cases op <;> rfl

theorem se_t.operator_op_assign_on_undefined (p : se_t.Params) (I : IntType) (op : BinOp)
    (self : se_t) (rhs : Int) :
    se_t.operator_op_assign_on .undefined p I op self rhs
      = se_t.operator_op_assign p I op self rhs := by
  unfold se_t.operator_op_assign_on se_t.operator_op_assign
  simp only [IntType.binopOn_undefined]

theorem se_t.operator_pre_inc_on_undefined (p : se_t.Params) (I : IntType) (self : se_t) :
    se_t.operator_pre_inc_on .undefined p I self = se_t.operator_pre_inc p I self := rfl

theorem se_t.operator_pre_dec_on_undefined (p : se_t.Params) (I : IntType) (self : se_t) :
    se_t.operator_pre_dec_on .undefined p I self = se_t.operator_pre_dec p I self := rfl

theorem se_t.operator_post_inc_on_undefined (p : se_t.Params) (I : IntType) (self : se_t) :
    se_t.operator_post_inc_on .undefined p I self = se_t.operator_post_inc p I self := rfl

theorem se_t.operator_post_dec_on_undefined (p : se_t.Params) (I : IntType) (self : se_t) :
    se_t.operator_post_dec_on .undefined p I self = se_t.operator_post_dec p I self := rfl

theorem IntType.promoted_size_pos (I : IntType) (hsz : 0 < I.size) : 0 < I.promoted.size := by
  unfold IntType.promoted
  split
  · decide
  · exact hsz

/-- The arithmetic of the target agrees with ISO C++ wherever ISO C++ defines
the result. -/
theorem IntType.arithOn_wraps_of_arith (P : IntType) (hsz : 0 < P.size) (x r : Int)
    (hr : P.arith x = some r) : P.arithOn .wraps x = some r := by
  unfold IntType.arith at hr
  simp only [IntType.arithOn]
  cases hs : P.signed with
  | true =>
    simp only [hs, if_true] at hr
    cases hin : P.inRange x with
    | true =>
      simp only [hin, if_true, Option.some.injEq] at hr
      rw [← hr, P.wrap_of_inRange hsz x hin]
    | false => simp [hin] at hr
  | false =>
    simp only [hs, Bool.false_eq_true, if_false, Option.some.injEq] at hr
    rw [← hr]
    unfold IntType.wrap
    simp [hs]

theorem IntType.binopOn_wraps_of_binop (I : IntType) (hsz : 0 < I.size) (op : BinOp)
    (a b r : Int) (hr : I.binop op a b = some r) : I.binopOn .wraps op a b = some r := by
  have hp := I.promoted_size_pos hsz
  cases op with
  | add => exact I.promoted.arithOn_wraps_of_arith hp _ r hr
  | sub => exact I.promoted.arithOn_wraps_of_arith hp _ r hr
  | mul => exact I.promoted.arithOn_wraps_of_arith hp _ r hr
  | div => exact hr
  | mod => exact hr
  | and => exact hr
  | or => exact hr
  | xor => exact hr
  | shl => exact hr
  | shr => exact hr

theorem IntType.compoundOn_wraps_of_compound (I : IntType) (hsz : 0 < I.size) (op : BinOp)
    (a b r : Int) (hr : I.compound op a b = some r) : I.compoundOn .wraps op a b = some r := by
  unfold IntType.compound at hr
  unfold IntType.compoundOn
  cases hb : I.binop op a b with
  | none => simp [hb] at hr
  | some x =>
    rw [I.binopOn_wraps_of_binop hsz op a b x hb]
    rw [hb] at hr
    exact hr

theorem IntType.wrap_add_mul (I : IntType) (x k : Int) :
    I.wrap (x + k * (I.modulus : Int)) = I.wrap x := by
  unfold IntType.wrap
  split
  · rw [show x + k * (I.modulus : Int) + (I.half : Int)
        = x + (I.half : Int) + k * (I.modulus : Int) by ring, Int.add_mul_emod_self]
  · rw [Int.add_mul_emod_self]

theorem IntType.wrap_eq_add_mul (P : IntType) (x : Int) :
    ∃ q : Int, P.wrap x = x + q * (P.modulus : Int) := by
  unfold IntType.wrap
  split
  · refine ⟨-((x + (P.half : Int)) / (P.modulus : Int)), ?_⟩
    rw [Int.emod_def]
    ring
  · refine ⟨-(x / (P.modulus : Int)), ?_⟩
    rw [Int.emod_def]
    ring

theorem IntType.modulus_dvd_promoted (I : IntType) : I.modulus ∣ I.promoted.modulus := by
  unfold IntType.promoted
  split
  · unfold IntType.modulus IntType.bits
    exact Nat.pow_dvd_pow 2 (by simp only; omega)
  · exact dvd_refl _

/-- Converting to the type a result that was wrapped in the promoted type
gives the mathematical result converted to the type. -/
theorem IntType.wrap_promoted_wrap (I : IntType) (x : Int) :
    I.wrap (I.promoted.wrap x) = I.wrap x := by
  obtain ⟨q, hq⟩ := I.promoted.wrap_eq_add_mul x
  obtain ⟨c, hc⟩ := I.modulus_dvd_promoted
  rw [hq, hc]
  push_cast
  rw [show x + q * ((I.modulus : Int) * (c : Int)) = x + (q * c) * (I.modulus : Int) by ring,
    I.wrap_add_mul]

/-- With the arithmetic of the target, `+=`, `-=` and `*=` on a native variable
give the mathematical result converted to the type. -/
theorem IntType.compoundOn_wraps_add (I : IntType) (a b : Int) :
    I.compoundOn .wraps .add a b = some (I.wrap (a + b)) := by
  simp only [IntType.compoundOn, IntType.binopOn, IntType.arithOn, Option.map_some',
    I.wrap_promoted_wrap]

theorem IntType.compoundOn_wraps_sub (I : IntType) (a b : Int) :
    I.compoundOn .wraps .sub a b = some (I.wrap (a - b)) := by
  simp only [IntType.compoundOn, IntType.binopOn, IntType.arithOn, Option.map_some',
    I.wrap_promoted_wrap]

theorem IntType.compoundOn_wraps_mul (I : IntType) (a b : Int) :
    I.compoundOn .wraps .mul a b = some (I.wrap (a * b)) := by
  simp only [IntType.compoundOn, IntType.binopOn, IntType.arithOn, Option.map_some',
    I.wrap_promoted_wrap]

theorem IntType.incOn_wraps (I : IntType) (a : Int) :
    I.incOn .wraps a = some (I.wrap (a + 1)) :=
  I.compoundOn_wraps_add a 1

theorem IntType.decOn_wraps (I : IntType) (a : Int) :
    I.decOn .wraps a = some (I.wrap (a - 1)) :=
  I.compoundOn_wraps_sub a 1

theorem IntType.compoundOn_inRange (m : Overflow) (I : IntType) (hsz : 0 < I.size) (op : BinOp)
    (a b r : Int) (hr : I.compoundOn m op a b = some r) : I.inRange r = true := by
  unfold IntType.compoundOn at hr
  cases hbin : I.binopOn m op a b with
  | none => simp [hbin] at hr
  | some x =>
    simp only [hbin, Option.map_some', Option.some.injEq] at hr
    rw [← hr]
    exact I.wrap_inRange hsz x

theorem se_t.operator_op_assign_on_eq (m : Overflow) (p : se_t.Params) (I : IntType)
    (op : BinOp) (self : se_t) (rhs v : Int) (hv : se_t.valueInt p I self = some v) :
    se_t.operator_op_assign_on m p I op self rhs
      = (I.compoundOn m op v rhs).bind (se_t.assignInt p I self) := by
  unfold se_t.operator_op_assign_on IntType.compoundOn
  rw [hv, Option.some_bind]
  cases I.binopOn m op v rhs <;> rfl

theorem se_t.operator_pre_inc_on_eq (m : Overflow) (p : se_t.Params) (I : IntType)
    (self : se_t) (v : Int) (hv : se_t.valueInt p I self = some v) :
    se_t.operator_pre_inc_on m p I self = (I.incOn m v).bind (se_t.assignInt p I self) := by
  unfold se_t.operator_pre_inc_on
  rw [show se_t.operator_typeInt p I self = se_t.valueInt p I self from rfl, hv,
    Option.some_bind]

theorem se_t.operator_pre_dec_on_eq (m : Overflow) (p : se_t.Params) (I : IntType)
    (self : se_t) (v : Int) (hv : se_t.valueInt p I self = some v) :
    se_t.operator_pre_dec_on m p I self = (I.decOn m v).bind (se_t.assignInt p I self) := by
  unfold se_t.operator_pre_dec_on
  rw [show se_t.operator_typeInt p I self = se_t.valueInt p I self from rfl, hv,
    Option.some_bind]

theorem se_t.operator_post_inc_on_eq (m : Overflow) (p : se_t.Params) (I : IntType)
    (self : se_t) (v : Int) (hv : se_t.valueInt p I self = some v) :
    se_t.operator_post_inc_on m p I self
      = ((I.incOn m v).bind (se_t.assignInt p I self)).map (fun self1 => (v, self1)) := by
  unfold se_t.operator_post_inc_on
  rw [show se_t.operator_typeInt p I self = se_t.valueInt p I self from rfl, hv,
    Option.some_bind]
  cases I.incOn m v <;> rfl

theorem se_t.operator_post_dec_on_eq (m : Overflow) (p : se_t.Params) (I : IntType)
    (self : se_t) (v : Int) (hv : se_t.valueInt p I self = some v) :
    se_t.operator_post_dec_on m p I self
      = ((I.decOn m v).bind (se_t.assignInt p I self)).map (fun self1 => (v, self1)) := by
  unfold se_t.operator_post_dec_on
  rw [show se_t.operator_typeInt p I self = se_t.valueInt p I self from rfl, hv,
    Option.some_bind]
  cases I.decOn m v <;> rfl

/-- The logical value after a compound assignment on a wrapper holding `a`,
under either overflow rule, is the result of the native compound assignment
under that rule. -/
theorem se_t.op_assign_on_value (m : Overflow) (h : Endian) (I : IntType) (Swap : Bool)
    (Align : Nat) (hsz : 0 < I.size) (op : BinOp) (a b : Int) (ha : I.inRange a = true) :
    ((se_t.constructInt (I.params h Swap Align) I a).bind
        (fun w => se_t.operator_op_assign_on m (I.params h Swap Align) I op w b)).bind
      (se_t.valueInt (I.params h Swap Align) I) = I.compoundOn m op a b := by
  obtain ⟨w, hw, _, _, hval⟩ := se_t.assignInt_spec h I Swap Align hsz ⟨.type8 []⟩ a
  rw [se_t.constructInt_eq_assignInt _ _ ⟨.type8 []⟩, hw, Option.some_bind,
    se_t.operator_op_assign_on_eq m _ I op w b a (hval ha)]
  exact se_t.assign_then_value h I Swap Align hsz w _
    (fun r hr => I.compoundOn_inRange m hsz op a b r hr)

theorem IntType.wrap_unsigned (I : IntType) (hu : I.signed = false) (x : Int) :
    I.wrap x = x % ((2 ^ I.bits : Nat) : Int) := by
  unfold IntType.wrap
  simp [hu, IntType.modulus]

/-- The value `a + 1` converted to the type: `a + 1` itself when the type holds
it, and otherwise the value one modulus below, the smallest value of the
type. -/
theorem IntType.wrap_succ (I : IntType) (hsz : 0 < I.size) (a : Int)
    (ha : I.inRange a = true) :
    (I.inRange (a + 1) = true → I.wrap (a + 1) = a + 1)
      ∧ (I.inRange (a + 1) = false → I.wrap (a + 1) = a + 1 - (I.modulus : Int)) := by
  refine ⟨fun hin => I.wrap_of_inRange hsz _ hin, fun hout => ?_⟩
  have hm := I.two_half hsz
  have hin2 : I.inRange (a + 1 - (I.modulus : Int)) = true := by
    have hne : ¬ I.inRange (a + 1) = true := by rw [hout]; exact Bool.noConfusion
    rw [IntType.inRange_iff] at ha hne ⊢
    split at ha <;> simp_all <;> omega
  have := I.wrap_add_mul (a + 1) (-1)
  rw [show a + 1 + -1 * (I.modulus : Int) = a + 1 - (I.modulus : Int) by ring] at this
  rw [← this, I.wrap_of_inRange hsz _ hin2]

/-- The value `a - 1` converted to the type: `a - 1` itself when the type holds
it, and otherwise the value one modulus above, the largest value of the
type. -/
theorem IntType.wrap_pred (I : IntType) (hsz : 0 < I.size) (a : Int)
    (ha : I.inRange a = true) :
    (I.inRange (a - 1) = true → I.wrap (a - 1) = a - 1)
      ∧ (I.inRange (a - 1) = false → I.wrap (a - 1) = a - 1 + (I.modulus : Int)) := by
  refine ⟨fun hin => I.wrap_of_inRange hsz _ hin, fun hout => ?_⟩
  have hm := I.two_half hsz
  have hin2 : I.inRange (a - 1 + (I.modulus : Int)) = true := by
    have hne : ¬ I.inRange (a - 1) = true := by rw [hout]; exact Bool.noConfusion
    rw [IntType.inRange_iff] at ha hne ⊢
    split at ha <;> simp_all <;> omega
  have := I.wrap_add_mul (a - 1) 1
  rw [show a - 1 + 1 * (I.modulus : Int) = a - 1 + (I.modulus : Int) by ring] at this
  rw [← this, I.wrap_of_inRange hsz _ hin2]

/-- Under the overflow rule of ISO C++ the increments and decrements of the
wrapper are defined exactly when the native ones are, leave the native result
and, for the postfix forms, return the old value. -/
theorem se_t.increment_decrement_iso (h : Endian) (I : IntType) (Swap : Bool) (Align : Nat)
    (hsz : 0 < I.size) (a : Int) (ha : I.inRange a = true) :
    (((se_t.constructInt (I.params h Swap Align) I a).bind
          (se_t.operator_pre_inc (I.params h Swap Align) I)).bind
        (se_t.valueInt (I.params h Swap Align) I) = I.inc a)
      ∧ (((se_t.constructInt (I.params h Swap Align) I a).bind
          (se_t.operator_pre_dec (I.params h Swap Align) I)).bind
        (se_t.valueInt (I.params h Swap Align) I) = I.dec a)
      ∧ (((se_t.constructInt (I.params h Swap Align) I a).bind
          (se_t.operator_post_inc (I.params h Swap Align) I)).map Prod.fst
        = (I.inc a).map (fun _ => a))
      ∧ (((se_t.constructInt (I.params h Swap Align) I a).bind
          (se_t.operator_post_inc (I.params h Swap Align) I)).bind
        (fun r => se_t.valueInt (I.params h Swap Align) I r.2) = I.inc a)
      ∧ (((se_t.constructInt (I.params h Swap Align) I a).bind
          (se_t.operator_post_dec (I.params h Swap Align) I)).map Prod.fst
        = (I.dec a).map (fun _ => a))
      ∧ (((se_t.constructInt (I.params h Swap Align) I a).bind
          (se_t.operator_post_dec (I.params h Swap Align) I)).bind
        (fun r => se_t.valueInt (I.params h Swap Align) I r.2) = I.dec a)
      ∧ (I.inc a = if I.promoted.signed = true ∧ I.promoted.inRange (a + 1) = false then none
          else some (I.wrap (a + 1)))
      ∧ (I.dec a = if I.promoted.signed = true ∧ I.promoted.inRange (a - 1) = false then none
          else some (I.wrap (a - 1))) := by
  obtain ⟨w, hw, _, _, hval⟩ := se_t.assignInt_spec h I Swap Align hsz ⟨.type8 []⟩ a
  have hinc : ∀ r, I.inc a = some r → I.inRange r = true :=
    fun r hr => I.compound_inRange hsz .add a 1 r hr
  have hdec : ∀ r, I.dec a = some r → I.inRange r = true :=
    fun r hr => I.compound_inRange hsz .sub a 1 r hr
  rw [se_t.constructInt_eq_assignInt _ _ ⟨.type8 []⟩, hw]
  simp only [Option.some_bind]
  rw [se_t.operator_pre_inc_eq _ I w a (hval ha), se_t.operator_pre_dec_eq _ I w a (hval ha),
    se_t.operator_post_inc_eq _ I w a (hval ha), se_t.operator_post_dec_eq _ I w a (hval ha)]
  exact ⟨se_t.assign_then_value h I Swap Align hsz w _ hinc,
    se_t.assign_then_value h I Swap Align hsz w _ hdec,
    se_t.assign_map_fst h I Swap Align hsz w _ a,
    se_t.assign_map_snd_value h I Swap Align hsz w _ a hinc,
    se_t.assign_map_fst h I Swap Align hsz w _ a,
    se_t.assign_map_snd_value h I Swap Align hsz w _ a hdec,
    I.inc_eq a, I.dec_eq a⟩

/-- C5: for every integer logical value `a` and both settings of `Swap`,
with the two's complement arithmetic of the target, pre-increment and
pre-decrement of `wrapper(a)` leave the wrapper holding `a + 1` and `a - 1`
with the wrap-around of `T` (`a + 1` when `T` holds it, the smallest value of
`T` after the largest, and symmetrically for `a - 1`); post-increment and
post-decrement return the old value `a` and leave the wrapper holding the same
`a + 1` and `a - 1`. Under the overflow rule of ISO C++ the same holds
wherever the native operation is defined. -/
theorem se_t.increment_decrement (h : Endian) (I : IntType) (Swap : Bool) (Align : Nat)
    (hsz : 0 < I.size) (a : Int) (ha : I.inRange a = true) :
    (((se_t.constructInt (I.params h Swap Align) I a).bind
          (se_t.operator_pre_inc_on .wraps (I.params h Swap Align) I)).bind
        (se_t.valueInt (I.params h Swap Align) I) = some (I.wrap (a + 1)))
      ∧ (((se_t.constructInt (I.params h Swap Align) I a).bind
          (se_t.operator_pre_dec_on .wraps (I.params h Swap Align) I)).bind
        (se_t.valueInt (I.params h Swap Align) I) = some (I.wrap (a - 1)))
      ∧ (((se_t.constructInt (I.params h Swap Align) I a).bind
          (se_t.operator_post_inc_on .wraps (I.params h Swap Align) I)).map Prod.fst = some a)
      ∧ (((se_t.constructInt (I.params h Swap Align) I a).bind
          (se_t.operator_post_inc_on .wraps (I.params h Swap Align) I)).bind
        (fun r => se_t.valueInt (I.params h Swap Align) I r.2) = some (I.wrap (a + 1)))
      ∧ (((se_t.constructInt (I.params h Swap Align) I a).bind
          (se_t.operator_post_dec_on .wraps (I.params h Swap Align) I)).map Prod.fst = some a)
      ∧ (((se_t.constructInt (I.params h Swap Align) I a).bind
          (se_t.operator_post_dec_on .wraps (I.params h Swap Align) I)).bind
        (fun r => se_t.valueInt (I.params h Swap Align) I r.2) = some (I.wrap (a - 1)))
      ∧ ((I.inRange (a + 1) = true → I.wrap (a + 1) = a + 1)
        ∧ (I.inRange (a + 1) = false → I.wrap (a + 1) = a + 1 - (I.modulus : Int)))
      ∧ ((I.inRange (a - 1) = true → I.wrap (a - 1) = a - 1)
        ∧ (I.inRange (a - 1) = false → I.wrap (a - 1) = a - 1 + (I.modulus : Int)))
      ∧ ((((se_t.constructInt (I.params h Swap Align) I a).bind
          (se_t.operator_pre_inc (I.params h Swap Align) I)).bind
        (se_t.valueInt (I.params h Swap Align) I) = I.inc a)
      ∧ (((se_t.constructInt (I.params h Swap Align) I a).bind
          (se_t.operator_pre_dec (I.params h Swap Align) I)).bind
        (se_t.valueInt (I.params h Swap Align) I) = I.dec a)
      ∧ (((se_t.constructInt (I.params h Swap Align) I a).bind
          (se_t.operator_post_inc (I.params h Swap Align) I)).map Prod.fst
        = (I.inc a).map (fun _ => a))
      ∧ (((se_t.constructInt (I.params h Swap Align) I a).bind
          (se_t.operator_post_inc (I.params h Swap Align) I)).bind
        (fun r => se_t.valueInt (I.params h Swap Align) I r.2) = I.inc a)
      ∧ (((se_t.constructInt (I.params h Swap Align) I a).bind
          (se_t.operator_post_dec (I.params h Swap Align) I)).map Prod.fst
        = (I.dec a).map (fun _ => a))
      ∧ (((se_t.constructInt (I.params h Swap Align) I a).bind
          (se_t.operator_post_dec (I.params h Swap Align) I)).bind
        (fun r => se_t.valueInt (I.params h Swap Align) I r.2) = I.dec a)
      ∧ (I.inc a = if I.promoted.signed = true ∧ I.promoted.inRange (a + 1) = false then none
          else some (I.wrap (a + 1)))
      ∧ (I.dec a = if I.promoted.signed = true ∧ I.promoted.inRange (a - 1) = false then none
          else some (I.wrap (a - 1)))) := by
  obtain ⟨w, hw, _, _, hval⟩ := se_t.assignInt_spec h I Swap Align hsz ⟨.type8 []⟩ a
  have hin : ∀ x r : Int, some (I.wrap x) = some r → I.inRange r = true := by
    intro x r hr
    cases hr
    exact I.wrap_inRange hsz x
  refine ⟨?_, ?_, ?_, ?_, ?_, ?_, I.wrap_succ hsz a ha, I.wrap_pred hsz a ha,
    se_t.increment_decrement_iso h I Swap Align hsz a ha⟩
  · rw [se_t.constructInt_eq_assignInt _ _ ⟨.type8 []⟩, hw, Option.some_bind,
      se_t.operator_pre_inc_on_eq .wraps _ I w a (hval ha), I.incOn_wraps a]
    exact se_t.assign_then_value h I Swap Align hsz w _ (hin (a + 1))
  · rw [se_t.constructInt_eq_assignInt _ _ ⟨.type8 []⟩, hw, Option.some_bind,
      se_t.operator_pre_dec_on_eq .wraps _ I w a (hval ha), I.decOn_wraps a]
    exact se_t.assign_then_value h I Swap Align hsz w _ (hin (a - 1))
  · rw [se_t.constructInt_eq_assignInt _ _ ⟨.type8 []⟩, hw, Option.some_bind,
      se_t.operator_post_inc_on_eq .wraps _ I w a (hval ha), I.incOn_wraps a]
    exact se_t.assign_map_fst h I Swap Align hsz w _ a
  · rw [se_t.constructInt_eq_assignInt _ _ ⟨.type8 []⟩, hw, Option.some_bind,
      se_t.operator_post_inc_on_eq .wraps _ I w a (hval ha), I.incOn_wraps a]
    exact se_t.assign_map_snd_value h I Swap Align hsz w _ a (hin (a + 1))
  · rw [se_t.constructInt_eq_assignInt _ _ ⟨.type8 []⟩, hw, Option.some_bind,
      se_t.operator_post_dec_on_eq .wraps _ I w a (hval ha), I.decOn_wraps a]
    exact se_t.assign_map_fst h I Swap Align hsz w _ a
  · rw [se_t.constructInt_eq_assignInt _ _ ⟨.type8 []⟩, hw, Option.some_bind,
      se_t.operator_post_dec_on_eq .wraps _ I w a (hval ha), I.decOn_wraps a]
    exact se_t.assign_map_snd_value h I Swap Align hsz w _ a (hin (a - 1))

theorem se_t.increment_decrement_witness :
    (0 < (⟨4, true⟩ : IntType).size ∧ (⟨4, true⟩ : IntType).inRange (2147483647 : Int) = true)
      ∧ ((((se_t.constructInt ((⟨4, true⟩ : IntType).params .little true 4) (⟨4, true⟩ : IntType) (2147483647 : Int)).bind
          (se_t.operator_pre_inc_on .wraps ((⟨4, true⟩ : IntType).params .little true 4) (⟨4, true⟩ : IntType))).bind
        (se_t.valueInt ((⟨4, true⟩ : IntType).params .little true 4) (⟨4, true⟩ : IntType)) = some ((⟨4, true⟩ : IntType).wrap ((2147483647 : Int) + 1)))
      ∧ (((se_t.constructInt ((⟨4, true⟩ : IntType).params .little true 4) (⟨4, true⟩ : IntType) (2147483647 : Int)).bind
          (se_t.operator_pre_dec_on .wraps ((⟨4, true⟩ : IntType).params .little true 4) (⟨4, true⟩ : IntType))).bind
        (se_t.valueInt ((⟨4, true⟩ : IntType).params .little true 4) (⟨4, true⟩ : IntType)) = some ((⟨4, true⟩ : IntType).wrap ((2147483647 : Int) - 1)))
      ∧ (((se_t.constructInt ((⟨4, true⟩ : IntType).params .little true 4) (⟨4, true⟩ : IntType) (2147483647 : Int)).bind
          (se_t.operator_post_inc_on .wraps ((⟨4, true⟩ : IntType).params .little true 4) (⟨4, true⟩ : IntType))).map Prod.fst = some (2147483647 : Int))
      ∧ (((se_t.constructInt ((⟨4, true⟩ : IntType).params .little true 4) (⟨4, true⟩ : IntType) (2147483647 : Int)).bind
          (se_t.operator_post_inc_on .wraps ((⟨4, true⟩ : IntType).params .little true 4) (⟨4, true⟩ : IntType))).bind
        (fun r => se_t.valueInt ((⟨4, true⟩ : IntType).params .little true 4) (⟨4, true⟩ : IntType) r.2) = some ((⟨4, true⟩ : IntType).wrap ((2147483647 : Int) + 1)))
      ∧ (((se_t.constructInt ((⟨4, true⟩ : IntType).params .little true 4) (⟨4, true⟩ : IntType) (2147483647 : Int)).bind
          (se_t.operator_post_dec_on .wraps ((⟨4, true⟩ : IntType).params .little true 4) (⟨4, true⟩ : IntType))).map Prod.fst = some (2147483647 : Int))
      ∧ (((se_t.constructInt ((⟨4, true⟩ : IntType).params .little true 4) (⟨4, true⟩ : IntType) (2147483647 : Int)).bind
          (se_t.operator_post_dec_on .wraps ((⟨4, true⟩ : IntType).params .little true 4) (⟨4, true⟩ : IntType))).bind
        (fun r => se_t.valueInt ((⟨4, true⟩ : IntType).params .little true 4) (⟨4, true⟩ : IntType) r.2) = some ((⟨4, true⟩ : IntType).wrap ((2147483647 : Int) - 1)))
      ∧ (((⟨4, true⟩ : IntType).inRange ((2147483647 : Int) + 1) = true → (⟨4, true⟩ : IntType).wrap ((2147483647 : Int) + 1) = (2147483647 : Int) + 1)
        ∧ ((⟨4, true⟩ : IntType).inRange ((2147483647 : Int) + 1) = false → (⟨4, true⟩ : IntType).wrap ((2147483647 : Int) + 1) = (2147483647 : Int) + 1 - ((⟨4, true⟩ : IntType).modulus : Int)))
      ∧ (((⟨4, true⟩ : IntType).inRange ((2147483647 : Int) - 1) = true → (⟨4, true⟩ : IntType).wrap ((2147483647 : Int) - 1) = (2147483647 : Int) - 1)
        ∧ ((⟨4, true⟩ : IntType).inRange ((2147483647 : Int) - 1) = false → (⟨4, true⟩ : IntType).wrap ((2147483647 : Int) - 1) = (2147483647 : Int) - 1 + ((⟨4, true⟩ : IntType).modulus : Int)))
      ∧ ((((se_t.constructInt ((⟨4, true⟩ : IntType).params .little true 4) (⟨4, true⟩ : IntType) (2147483647 : Int)).bind
          (se_t.operator_pre_inc ((⟨4, true⟩ : IntType).params .little true 4) (⟨4, true⟩ : IntType))).bind
        (se_t.valueInt ((⟨4, true⟩ : IntType).params .little true 4) (⟨4, true⟩ : IntType)) = (⟨4, true⟩ : IntType).inc (2147483647 : Int))
      ∧ (((se_t.constructInt ((⟨4, true⟩ : IntType).params .little true 4) (⟨4, true⟩ : IntType) (2147483647 : Int)).bind
          (se_t.operator_pre_dec ((⟨4, true⟩ : IntType).params .little true 4) (⟨4, true⟩ : IntType))).bind
        (se_t.valueInt ((⟨4, true⟩ : IntType).params .little true 4) (⟨4, true⟩ : IntType)) = (⟨4, true⟩ : IntType).dec (2147483647 : Int))
      ∧ (((se_t.constructInt ((⟨4, true⟩ : IntType).params .little true 4) (⟨4, true⟩ : IntType) (2147483647 : Int)).bind
          (se_t.operator_post_inc ((⟨4, true⟩ : IntType).params .little true 4) (⟨4, true⟩ : IntType))).map Prod.fst
        = ((⟨4, true⟩ : IntType).inc (2147483647 : Int)).map (fun _ => (2147483647 : Int)))
      ∧ (((se_t.constructInt ((⟨4, true⟩ : IntType).params .little true 4) (⟨4, true⟩ : IntType) (2147483647 : Int)).bind
          (se_t.operator_post_inc ((⟨4, true⟩ : IntType).params .little true 4) (⟨4, true⟩ : IntType))).bind
        (fun r => se_t.valueInt ((⟨4, true⟩ : IntType).params .little true 4) (⟨4, true⟩ : IntType) r.2) = (⟨4, true⟩ : IntType).inc (2147483647 : Int))
      ∧ (((se_t.constructInt ((⟨4, true⟩ : IntType).params .little true 4) (⟨4, true⟩ : IntType) (2147483647 : Int)).bind
          (se_t.operator_post_dec ((⟨4, true⟩ : IntType).params .little true 4) (⟨4, true⟩ : IntType))).map Prod.fst
        = ((⟨4, true⟩ : IntType).dec (2147483647 : Int)).map (fun _ => (2147483647 : Int)))
      ∧ (((se_t.constructInt ((⟨4, true⟩ : IntType).params .little true 4) (⟨4, true⟩ : IntType) (2147483647 : Int)).bind
          (se_t.operator_post_dec ((⟨4, true⟩ : IntType).params .little true 4) (⟨4, true⟩ : IntType))).bind
        (fun r => se_t.valueInt ((⟨4, true⟩ : IntType).params .little true 4) (⟨4, true⟩ : IntType) r.2) = (⟨4, true⟩ : IntType).dec (2147483647 : Int))
      ∧ ((⟨4, true⟩ : IntType).inc (2147483647 : Int) = if (⟨4, true⟩ : IntType).promoted.signed = true ∧ (⟨4, true⟩ : IntType).promoted.inRange ((2147483647 : Int) + 1) = false then none
          else some ((⟨4, true⟩ : IntType).wrap ((2147483647 : Int) + 1)))
      ∧ ((⟨4, true⟩ : IntType).dec (2147483647 : Int) = if (⟨4, true⟩ : IntType).promoted.signed = true ∧ (⟨4, true⟩ : IntType).promoted.inRange ((2147483647 : Int) - 1) = false then none
          else some ((⟨4, true⟩ : IntType).wrap ((2147483647 : Int) - 1))))) :=
  ⟨⟨by decide, by decide⟩,
    se_t.increment_decrement .little ⟨4, true⟩ true 4 (by decide) 2147483647 (by decide)⟩

/-- The largest 32-bit signed value: the postfix increment returns it and
leaves the smallest value, the postfix decrement of the smallest value leaves
the largest. -/
theorem se_t.post_inc_at_int_max :
    (se_t.constructInt ((⟨4, true⟩ : IntType).params .little true 4) (⟨4, true⟩ : IntType) (2147483647 : Int)).bind
        (fun w => (se_t.operator_post_inc_on .wraps ((⟨4, true⟩ : IntType).params .little true 4) (⟨4, true⟩ : IntType) w).bind
          (fun r => (se_t.valueInt ((⟨4, true⟩ : IntType).params .little true 4) (⟨4, true⟩ : IntType) r.2).map
            (fun v => (r.1, v))))
      = some (2147483647, -2147483648)
    ∧ (se_t.constructInt ((⟨4, true⟩ : IntType).params .little true 4) (⟨4, true⟩ : IntType) (-2147483648 : Int)).bind
        (fun w => (se_t.operator_post_dec_on .wraps ((⟨4, true⟩ : IntType).params .little true 4) (⟨4, true⟩ : IntType) w).bind
          (fun r => (se_t.valueInt ((⟨4, true⟩ : IntType).params .little true 4) (⟨4, true⟩ : IntType) r.2).map
            (fun v => (r.1, v))))
      = some (-2147483648, 2147483647) := by
  decide

/-- Under the overflow rule of ISO C++, for an unsigned logical type of width
8, 16, 32 or 64 bits the wrapper's `+=` and `-=` give `(a + b) mod 2 ^ w` and
`(a - b) mod 2 ^ w`, and `*=` gives `(a * b) mod 2 ^ w` wherever the
multiplication of the promoted operands is defined. -/
theorem se_t.unsigned_wraparound_iso (h : Endian) (I : IntType) (Swap : Bool) (Align : Nat)
    (hu : I.signed = false) (hw : I.size = 1 ∨ I.size = 2 ∨ I.size = 4 ∨ I.size = 8)
    (a b : Int) (ha : I.inRange a = true) (hb : I.inRange b = true) :
    (((se_t.constructInt (I.params h Swap Align) I a).bind
          (fun w => se_t.operator_op_assign (I.params h Swap Align) I .add w b)).bind
        (se_t.valueInt (I.params h Swap Align) I) = some ((a + b) % ((2 ^ I.bits : Nat) : Int)))
      ∧ (((se_t.constructInt (I.params h Swap Align) I a).bind
          (fun w => se_t.operator_op_assign (I.params h Swap Align) I .sub w b)).bind
        (se_t.valueInt (I.params h Swap Align) I) = some ((a - b) % ((2 ^ I.bits : Nat) : Int)))
      ∧ ((I.size = 2 → a * b < 2 ^ 31) →
        ((se_t.constructInt (I.params h Swap Align) I a).bind
          (fun w => se_t.operator_op_assign (I.params h Swap Align) I .mul w b)).bind
        (se_t.valueInt (I.params h Swap Align) I)
          = some ((a * b) % ((2 ^ I.bits : Nat) : Int))) := by
  have hsz : 0 < I.size := by omega
  obtain ⟨ha0, ha1⟩ := I.unsigned_bounds hu a ha
  obtain ⟨hb0, hb1⟩ := I.unsigned_bounds hu b hb
  rw [se_t.op_assign_value h I Swap Align hsz .add a b ha,
    se_t.op_assign_value h I Swap Align hsz .sub a b ha,
    se_t.op_assign_value h I Swap Align hsz .mul a b ha]
  refine ⟨?_, ?_, fun hmul => ?_⟩
  · refine I.arith_unsigned hu (a + b) (fun hlt => ?_)
    have := I.modulus_le_of_narrow hlt
    constructor <;> omega
  · refine I.arith_unsigned hu (a - b) (fun hlt => ?_)
    have := I.modulus_le_of_narrow hlt
    constructor <;> omega
  · refine I.arith_unsigned hu (a * b) (fun hlt => ?_)
    have hnn : 0 ≤ a * b := Int.mul_nonneg ha0 hb0
    refine ⟨by omega, ?_⟩
    rcases hw with h1 | h2 | h4 | h8
    · have hm : (I.modulus : Int) = 256 := by
        norm_num [IntType.modulus, IntType.bits, h1]
      rw [hm] at ha1 hb1
      have : a * b ≤ 255 * 255 := Int.mul_le_mul (by omega) (by omega) hb0 (by omega)
      omega
    · exact hmul h2
    · omega
    · omega

/-- C6: for an unsigned logical type of width `w` bits (`w` in 8, 16, 32, 64),
all `a` and `b` and both settings of `Swap`, with the two's complement
arithmetic of the target the wrapper's `+=`, `-=` and `*=` wrap around exactly
like the native scalar: `(wrapper(a) += b).value() == (a + b) mod 2 ^ w`, and
likewise `(a - b) mod 2 ^ w` and `(a * b) mod 2 ^ w`, including for the narrow
types whose operands are first promoted to `int`. Under the overflow rule of
ISO C++ the same values result wherever the operation is defined. -/
theorem se_t.unsigned_wraparound (h : Endian) (I : IntType) (Swap : Bool) (Align : Nat)
    (hu : I.signed = false) (hw : I.size = 1 ∨ I.size = 2 ∨ I.size = 4 ∨ I.size = 8)
    (a b : Int) (ha : I.inRange a = true) (hb : I.inRange b = true) :
    (((se_t.constructInt (I.params h Swap Align) I a).bind
          (fun w => se_t.operator_op_assign_on .wraps (I.params h Swap Align) I .add w b)).bind
        (se_t.valueInt (I.params h Swap Align) I) = some ((a + b) % ((2 ^ I.bits : Nat) : Int)))
      ∧ (((se_t.constructInt (I.params h Swap Align) I a).bind
          (fun w => se_t.operator_op_assign_on .wraps (I.params h Swap Align) I .sub w b)).bind
        (se_t.valueInt (I.params h Swap Align) I) = some ((a - b) % ((2 ^ I.bits : Nat) : Int)))
      ∧ (((se_t.constructInt (I.params h Swap Align) I a).bind
          (fun w => se_t.operator_op_assign_on .wraps (I.params h Swap Align) I .mul w b)).bind
        (se_t.valueInt (I.params h Swap Align) I) = some ((a * b) % ((2 ^ I.bits : Nat) : Int)))
      ∧ ((((se_t.constructInt (I.params h Swap Align) I a).bind
          (fun w => se_t.operator_op_assign (I.params h Swap Align) I .add w b)).bind
        (se_t.valueInt (I.params h Swap Align) I) = some ((a + b) % ((2 ^ I.bits : Nat) : Int)))
      ∧ (((se_t.constructInt (I.params h Swap Align) I a).bind
          (fun w => se_t.operator_op_assign (I.params h Swap Align) I .sub w b)).bind
        (se_t.valueInt (I.params h Swap Align) I) = some ((a - b) % ((2 ^ I.bits : Nat) : Int)))
      ∧ ((I.size = 2 → a * b < 2 ^ 31) →
        ((se_t.constructInt (I.params h Swap Align) I a).bind
          (fun w => se_t.operator_op_assign (I.params h Swap Align) I .mul w b)).bind
        (se_t.valueInt (I.params h Swap Align) I)
          = some ((a * b) % ((2 ^ I.bits : Nat) : Int)))) := by
  have hsz : 0 < I.size := by omega
  rw [se_t.op_assign_on_value .wraps h I Swap Align hsz .add a b ha,
    se_t.op_assign_on_value .wraps h I Swap Align hsz .sub a b ha,
    se_t.op_assign_on_value .wraps h I Swap Align hsz .mul a b ha,
    I.compoundOn_wraps_add, I.compoundOn_wraps_sub, I.compoundOn_wraps_mul,
    I.wrap_unsigned hu, I.wrap_unsigned hu, I.wrap_unsigned hu]
  exact ⟨rfl, rfl, rfl, se_t.unsigned_wraparound_iso h I Swap Align hu hw a b ha hb⟩

theorem se_t.unsigned_wraparound_witness :
    ((⟨2, false⟩ : IntType).signed = false
        ∧ ((⟨2, false⟩ : IntType).size = 1 ∨ (⟨2, false⟩ : IntType).size = 2
          ∨ (⟨2, false⟩ : IntType).size = 4 ∨ (⟨2, false⟩ : IntType).size = 8)
        ∧ (⟨2, false⟩ : IntType).inRange (65535 : Int) = true
        ∧ (⟨2, false⟩ : IntType).inRange (65535 : Int) = true)
      ∧ ((((se_t.constructInt ((⟨2, false⟩ : IntType).params .little true 2) (⟨2, false⟩ : IntType) (65535 : Int)).bind
          (fun w => se_t.operator_op_assign_on .wraps ((⟨2, false⟩ : IntType).params .little true 2) (⟨2, false⟩ : IntType) .add w (65535 : Int))).bind
        (se_t.valueInt ((⟨2, false⟩ : IntType).params .little true 2) (⟨2, false⟩ : IntType)) = some (((65535 : Int) + (65535 : Int)) % ((2 ^ (⟨2, false⟩ : IntType).bits : Nat) : Int)))
      ∧ (((se_t.constructInt ((⟨2, false⟩ : IntType).params .little true 2) (⟨2, false⟩ : IntType) (65535 : Int)).bind
          (fun w => se_t.operator_op_assign_on .wraps ((⟨2, false⟩ : IntType).params .little true 2) (⟨2, false⟩ : IntType) .sub w (65535 : Int))).bind
        (se_t.valueInt ((⟨2, false⟩ : IntType).params .little true 2) (⟨2, false⟩ : IntType)) = some (((65535 : Int) - (65535 : Int)) % ((2 ^ (⟨2, false⟩ : IntType).bits : Nat) : Int)))
      ∧ (((se_t.constructInt ((⟨2, false⟩ : IntType).params .little true 2) (⟨2, false⟩ : IntType) (65535 : Int)).bind
          (fun w => se_t.operator_op_assign_on .wraps ((⟨2, false⟩ : IntType).params .little true 2) (⟨2, false⟩ : IntType) .mul w (65535 : Int))).bind
        (se_t.valueInt ((⟨2, false⟩ : IntType).params .little true 2) (⟨2, false⟩ : IntType)) = some (((65535 : Int) * (65535 : Int)) % ((2 ^ (⟨2, false⟩ : IntType).bits : Nat) : Int)))
      ∧ ((((se_t.constructInt ((⟨2, false⟩ : IntType).params .little true 2) (⟨2, false⟩ : IntType) (65535 : Int)).bind
          (fun w => se_t.operator_op_assign ((⟨2, false⟩ : IntType).params .little true 2) (⟨2, false⟩ : IntType) .add w (65535 : Int))).bind
        (se_t.valueInt ((⟨2, false⟩ : IntType).params .little true 2) (⟨2, false⟩ : IntType)) = some (((65535 : Int) + (65535 : Int)) % ((2 ^ (⟨2, false⟩ : IntType).bits : Nat) : Int)))
      ∧ (((se_t.constructInt ((⟨2, false⟩ : IntType).params .little true 2) (⟨2, false⟩ : IntType) (65535 : Int)).bind
          (fun w => se_t.operator_op_assign ((⟨2, false⟩ : IntType).params .little true 2) (⟨2, false⟩ : IntType) .sub w (65535 : Int))).bind
        (se_t.valueInt ((⟨2, false⟩ : IntType).params .little true 2) (⟨2, false⟩ : IntType)) = some (((65535 : Int) - (65535 : Int)) % ((2 ^ (⟨2, false⟩ : IntType).bits : Nat) : Int)))
      ∧ (((⟨2, false⟩ : IntType).size = 2 → (65535 : Int) * (65535 : Int) < 2 ^ 31) →
        ((se_t.constructInt ((⟨2, false⟩ : IntType).params .little true 2) (⟨2, false⟩ : IntType) (65535 : Int)).bind
          (fun w => se_t.operator_op_assign ((⟨2, false⟩ : IntType).params .little true 2) (⟨2, false⟩ : IntType) .mul w (65535 : Int))).bind
        (se_t.valueInt ((⟨2, false⟩ : IntType).params .little true 2) (⟨2, false⟩ : IntType))
          = some (((65535 : Int) * (65535 : Int)) % ((2 ^ (⟨2, false⟩ : IntType).bits : Nat) : Int))))) :=
  ⟨⟨rfl, Or.inr (Or.inl rfl), by decide, by decide⟩,
    se_t.unsigned_wraparound .little ⟨2, false⟩ true 2 rfl (Or.inr (Or.inl rfl)) 65535 65535
      (by decide) (by decide)⟩

/-- The 16-bit unsigned type at `65535 * 65535`, whose promoted operands
overflow `int`: with the arithmetic of the target the wrapper holds
`(65535 * 65535) mod 2 ^ 16 = 1`. -/
theorem se_t.mul_assign_uint16_max :
    ((se_t.constructInt ((⟨2, false⟩ : IntType).params .little true 2) (⟨2, false⟩ : IntType) (65535 : Int)).bind
        (fun w => se_t.operator_op_assign_on .wraps ((⟨2, false⟩ : IntType).params .little true 2) (⟨2, false⟩ : IntType)
          .mul w 65535)).bind
      (se_t.valueInt ((⟨2, false⟩ : IntType).params .little true 2) (⟨2, false⟩ : IntType)) = some 1 := by
  decide

/-- C7: when `Swap == false`, on every storage shape, the bytes stored by
construction from a logical value or by assignment of it are exactly the
object representation of the value (`to_data` is the bit-for-bit identity),
and `value()` returns the stored bit pattern unchanged. -/
theorem se_t.no_swap_passthrough (h : Endian) (T : CType) (Align : Nat) (v : List Nat)
    (hv : isBytes T.size v = true) :
    (∃ d, se_t.to_data ⟨h, T, false, Align⟩ v = some d ∧ d.bytes h = v
        ∧ se_t.construct ⟨h, T, false, Align⟩ v = some ⟨d⟩
        ∧ ∀ prev : se_t, se_t.assign ⟨h, T, false, Align⟩ prev v = some ⟨d⟩)
      ∧ ∀ self : se_t, self.m_data.hasShape (se_t.stype ⟨h, T, false, Align⟩) = true →
          se_t.value ⟨h, T, false, Align⟩ self = some (self.m_data.bytes h) := by
  constructor
  · obtain ⟨d, hd, _, hbytes⟩ := se_t.to_data_hasShape ⟨h, T, false, Align⟩ v hv
    refine ⟨d, hd, by simpa using hbytes, ?_, fun prev => ?_⟩
    · simp [se_t.construct, hd]
    · simp [se_t.assign, hd]
  · intro self hs
    simpa using se_t.value_eq ⟨h, T, false, Align⟩ self hs

theorem se_t.no_swap_passthrough_witness :
    isBytes (⟨4, 4⟩ : CType).size [0x04, 0x03, 0x02, 0x01] = true
      ∧ ((∃ d, se_t.to_data ⟨.little, ⟨4, 4⟩, false, 4⟩ [0x04, 0x03, 0x02, 0x01] = some d
          ∧ d.bytes .little = [0x04, 0x03, 0x02, 0x01]
          ∧ se_t.construct ⟨.little, ⟨4, 4⟩, false, 4⟩ [0x04, 0x03, 0x02, 0x01] = some ⟨d⟩
          ∧ ∀ prev : se_t,
              se_t.assign ⟨.little, ⟨4, 4⟩, false, 4⟩ prev [0x04, 0x03, 0x02, 0x01] = some ⟨d⟩)
        ∧ ∀ self : se_t,
            self.m_data.hasShape (se_t.stype ⟨.little, ⟨4, 4⟩, false, 4⟩) = true →
              se_t.value ⟨.little, ⟨4, 4⟩, false, 4⟩ self = some (self.m_data.bytes .little)) :=
  ⟨by decide, se_t.no_swap_passthrough .little ⟨4, 4⟩ 4 [0x04, 0x03, 0x02, 0x01] (by decide)⟩

/-- C8, counterexample: on a little-endian host the native bit pattern of the
32-bit value `0x01020304` is `04 03 02 01`, and the wrapper with `Swap = true`
does not store the bytes `04 03 02 01`. -/
theorem se_t.concrete_example_counterexample :
    (⟨4, false⟩ : IntType).toBytes .little 0x01020304 = [0x04, 0x03, 0x02, 0x01]
      ∧ (se_t.constructInt ((⟨4, false⟩ : IntType).params .little true 4) ⟨4, false⟩
          0x01020304).map (fun w => w.m_data.bytes .little) ≠ some [0x04, 0x03, 0x02, 0x01] := by
  decide

/-- C8, amended: for the 4-byte unsigned logical value `0x01020304` wrapped
with `Swap = true` on a little-endian host, whose native bit pattern is
`04 03 02 01`, the stored physical bytes in increasing address order are
`0x01, 0x02, 0x03, 0x04`, and `value()` returns `0x01020304`. -/
theorem se_t.concrete_example :
    (⟨4, false⟩ : IntType).toBytes .little 0x01020304 = [0x04, 0x03, 0x02, 0x01]
      ∧ (se_t.constructInt ((⟨4, false⟩ : IntType).params .little true 4) ⟨4, false⟩
          0x01020304).map (fun w => w.m_data.bytes .little) = some [0x01, 0x02, 0x03, 0x04]
      ∧ (se_t.constructInt ((⟨4, false⟩ : IntType).params .little true 4) ⟨4, false⟩
          0x01020304).bind (se_t.valueInt ((⟨4, false⟩ : IntType).params .little true 4)
            ⟨4, false⟩) = some 0x01020304 := by
  decide

/-- C9: for every 16-byte composite value with raw bytes `b0 .. b15`, wrapped
with `Swap = true` on the word-array path (two 64-bit words), the stored
physical bytes are `b15, b14, ..., b1, b0`, and `value()` reconstructs exactly
the bytes `b0 .. b15`. -/
theorem se_t.multi_word_example (h : Endian) (Align : Nat) (hA : 8 ≤ Align)
    (b0 b1 b2 b3 b4 b5 b6 b7 b8 b9 b10 b11 b12 b13 b14 b15 : Nat)
    (hb : isBytes 16 [b0, b1, b2, b3, b4, b5, b6, b7, b8, b9, b10, b11, b12, b13, b14, b15]
      = true) :
    se_t.stype ⟨h, ⟨16, 16⟩, true, Align⟩ = .type64 2
      ∧ ∃ w, se_t.construct ⟨h, ⟨16, 16⟩, true, Align⟩
            [b0, b1, b2, b3, b4, b5, b6, b7, b8, b9, b10, b11, b12, b13, b14, b15] = some w
          ∧ w.m_data.bytes h
            = [b15, b14, b13, b12, b11, b10, b9, b8, b7, b6, b5, b4, b3, b2, b1, b0]
          ∧ se_t.value ⟨h, ⟨16, 16⟩, true, Align⟩ w
            = some [b0, b1, b2, b3, b4, b5, b6, b7, b8, b9, b10, b11, b12, b13, b14, b15] := by
  have hty : se_t.stype ⟨h, ⟨16, 16⟩, true, Align⟩ = .type64 2 := by
    have h2 : ¬ (Align = 2) := by omega
    have h4 : ¬ (Align = 4) := by omega
    simp [se_t.stype, se_storage.type, se_storage.primary_type, h2, h4, hA]
  refine ⟨hty, ?_⟩
  obtain ⟨d, hd, _, hbytes⟩ := se_t.to_data_hasShape ⟨h, ⟨16, 16⟩, true, Align⟩ _ hb
  have hval := se_t.value_to_data ⟨h, ⟨16, 16⟩, true, Align⟩ _ hb
  rw [hd, Option.some_bind] at hval
  refine ⟨⟨d⟩, ?_, ?_, hval⟩
  · simp [se_t.construct, hd]
  · simpa using hbytes

theorem se_t.multi_word_example_witness :
    (8 ≤ 16 ∧ isBytes 16 [0, 1, 2, 3, 4, 5, 6, 7, 8, 9, 10, 11, 12, 13, 14, 15] = true)
      ∧ (se_t.stype ⟨.little, ⟨16, 16⟩, true, 16⟩ = .type64 2
        ∧ ∃ w, se_t.construct ⟨.little, ⟨16, 16⟩, true, 16⟩
              [0, 1, 2, 3, 4, 5, 6, 7, 8, 9, 10, 11, 12, 13, 14, 15] = some w
            ∧ w.m_data.bytes .little = [15, 14, 13, 12, 11, 10, 9, 8, 7, 6, 5, 4, 3, 2, 1, 0]
            ∧ se_t.value ⟨.little, ⟨16, 16⟩, true, 16⟩ w
              = some [0, 1, 2, 3, 4, 5, 6, 7, 8, 9, 10, 11, 12, 13, 14, 15]) :=
  ⟨⟨by decide, by decide⟩,
    se_t.multi_word_example .little 16 (by decide) 0 1 2 3 4 5 6 7 8 9 10 11 12 13 14 15
      (by decide)⟩

theorem se_t.assignInt_invariant (h : Endian) (I : IntType) (Swap : Bool) (Align : Nat)
    (hsz : 0 < I.size) (self : se_t) (x : Int) (w : se_t)
    (hw : se_t.assignInt (I.params h Swap Align) I self x = some w) :
    se_t.invariant (I.params h Swap Align) w := by
  obtain ⟨w1, hw1, hsh, _⟩ := se_t.assignInt_spec h I Swap Align hsz self x
  rw [hw1] at hw
  cases hw
  exact se_t.invariant_of_hasShape _ _ hsh

theorem se_t.bind_assignInt_invariant (h : Endian) (I : IntType) (Swap : Bool) (Align : Nat)
    (hsz : 0 < I.size) (self : se_t) (x : Option Int) (w : se_t)
    (hw : x.bind (se_t.assignInt (I.params h Swap Align) I self) = some w) :
    se_t.invariant (I.params h Swap Align) w := by
  cases x with
  | none => cases hw
  | some r => exact se_t.assignInt_invariant h I Swap Align hsz self r w hw

theorem se_t.bind_assignInt_isSome (h : Endian) (I : IntType) (Swap : Bool) (Align : Nat)
    (hsz : 0 < I.size) (self : se_t) (x : Option Int) :
    (x.bind (se_t.assignInt (I.params h Swap Align) I self)).isSome = x.isSome := by
  cases x with
  | none => rfl
  | some r =>
    obtain ⟨w1, hw1, _⟩ := se_t.assignInt_spec h I Swap Align hsz self r
    rw [Option.some_bind, hw1]
    rfl

theorem se_t.valueInt_of_hasShape (p : se_t.Params) (I : IntType) (self : se_t)
    (hs : self.m_data.hasShape (se_t.stype p) = true) :
    ∃ v, se_t.valueInt p I self = some v := by
  unfold se_t.valueInt
  rw [se_t.value_eq p self hs]
  exact ⟨_, rfl⟩

/-- C10: at every observable boundary of the wrapper (after construction from
a logical value, after assignment from a value, after every compound
assignment, and after pre/post increment and decrement) the stored physical
representation is the encoding of the logical value that `value()` reports,
`stored == to_data(value())`; construction and assignment always reach that
boundary, and each mutating operator reaches it exactly when its native
operation on the logical value is defined. -/
theorem se_t.invariant_at_every_boundary (h : Endian) (I : IntType) (Swap : Bool) (Align : Nat)
    (hsz : 0 < I.size) (self : se_t)
    (hself : self.m_data.hasShape (se_t.stype (I.params h Swap Align)) = true)
    (a b : Int) (op : BinOp) :
    (∃ w, se_t.constructInt (I.params h Swap Align) I a = some w
        ∧ se_t.invariant (I.params h Swap Align) w)
      ∧ (∃ w, se_t.assignInt (I.params h Swap Align) I self a = some w
        ∧ se_t.invariant (I.params h Swap Align) w)
      ∧ (∀ w, se_t.operator_op_assign (I.params h Swap Align) I op self b = some w →
          se_t.invariant (I.params h Swap Align) w)
      ∧ (∀ w, se_t.operator_pre_inc (I.params h Swap Align) I self = some w →
          se_t.invariant (I.params h Swap Align) w)
      ∧ (∀ w, se_t.operator_pre_dec (I.params h Swap Align) I self = some w →
          se_t.invariant (I.params h Swap Align) w)
      ∧ (∀ r, se_t.operator_post_inc (I.params h Swap Align) I self = some r →
          se_t.invariant (I.params h Swap Align) r.2)
      ∧ (∀ r, se_t.operator_post_dec (I.params h Swap Align) I self = some r →
          se_t.invariant (I.params h Swap Align) r.2)
      ∧ ∃ v, se_t.valueInt (I.params h Swap Align) I self = some v
        ∧ (se_t.operator_op_assign (I.params h Swap Align) I op self b).isSome
            = (I.compound op v b).isSome
        ∧ (se_t.operator_pre_inc (I.params h Swap Align) I self).isSome = (I.inc v).isSome
        ∧ (se_t.operator_pre_dec (I.params h Swap Align) I self).isSome = (I.dec v).isSome
        ∧ (se_t.operator_post_inc (I.params h Swap Align) I self).isSome = (I.inc v).isSome
        ∧ (se_t.operator_post_dec (I.params h Swap Align) I self).isSome = (I.dec v).isSome := by
  obtain ⟨v, hv⟩ := se_t.valueInt_of_hasShape (I.params h Swap Align) I self hself
  have hctor : ∀ s : se_t, ∃ w, se_t.assignInt (I.params h Swap Align) I s a = some w
      ∧ se_t.invariant (I.params h Swap Align) w := by
    intro s
    obtain ⟨w, hw, hsh, _⟩ := se_t.assignInt_spec h I Swap Align hsz s a
    exact ⟨w, hw, se_t.invariant_of_hasShape _ w hsh⟩
  rw [se_t.operator_op_assign_eq _ I op self b v hv, se_t.operator_pre_inc_eq _ I self v hv,
    se_t.operator_pre_dec_eq _ I self v hv, se_t.operator_post_inc_eq _ I self v hv,
    se_t.operator_post_dec_eq _ I self v hv]
  refine ⟨hctor ⟨.type8 []⟩, hctor self,
    fun w hw => se_t.bind_assignInt_invariant h I Swap Align hsz self _ w hw,
    fun w hw => se_t.bind_assignInt_invariant h I Swap Align hsz self _ w hw,
    fun w hw => se_t.bind_assignInt_invariant h I Swap Align hsz self _ w hw,
    fun r hr => ?_, fun r hr => ?_, v, hv,
    se_t.bind_assignInt_isSome h I Swap Align hsz self _,
    se_t.bind_assignInt_isSome h I Swap Align hsz self _,
    se_t.bind_assignInt_isSome h I Swap Align hsz self _, ?_, ?_⟩
  · cases hx : (I.inc v).bind (se_t.assignInt (I.params h Swap Align) I self) with
    | none => rw [hx] at hr; cases hr
    | some w =>
      rw [hx] at hr
      cases hr
      exact se_t.bind_assignInt_invariant h I Swap Align hsz self _ w hx
  · cases hx : (I.dec v).bind (se_t.assignInt (I.params h Swap Align) I self) with
    | none => rw [hx] at hr; cases hr
    | some w =>
      rw [hx] at hr
      cases hr
      exact se_t.bind_assignInt_invariant h I Swap Align hsz self _ w hx
  · rw [Option.isSome_map', se_t.bind_assignInt_isSome h I Swap Align hsz self _]
  · rw [Option.isSome_map', se_t.bind_assignInt_isSome h I Swap Align hsz self _]

theorem se_t.invariant_at_every_boundary_witness :
    (0 < (⟨4, false⟩ : IntType).size
        ∧ (⟨.u32 7⟩ : se_t).m_data.hasShape (se_t.stype ((⟨4, false⟩ : IntType).params .little true 4)) = true)
      ∧ ((∃ w, se_t.constructInt ((⟨4, false⟩ : IntType).params .little true 4) (⟨4, false⟩ : IntType) (5 : Int) = some w
        ∧ se_t.invariant ((⟨4, false⟩ : IntType).params .little true 4) w)
      ∧ (∃ w, se_t.assignInt ((⟨4, false⟩ : IntType).params .little true 4) (⟨4, false⟩ : IntType) (⟨.u32 7⟩ : se_t) (5 : Int) = some w
        ∧ se_t.invariant ((⟨4, false⟩ : IntType).params .little true 4) w)
      ∧ (∀ w, se_t.operator_op_assign ((⟨4, false⟩ : IntType).params .little true 4) (⟨4, false⟩ : IntType) BinOp.add (⟨.u32 7⟩ : se_t) (1 : Int) = some w →
          se_t.invariant ((⟨4, false⟩ : IntType).params .little true 4) w)
      ∧ (∀ w, se_t.operator_pre_inc ((⟨4, false⟩ : IntType).params .little true 4) (⟨4, false⟩ : IntType) (⟨.u32 7⟩ : se_t) = some w →
          se_t.invariant ((⟨4, false⟩ : IntType).params .little true 4) w)
      ∧ (∀ w, se_t.operator_pre_dec ((⟨4, false⟩ : IntType).params .little true 4) (⟨4, false⟩ : IntType) (⟨.u32 7⟩ : se_t) = some w →
          se_t.invariant ((⟨4, false⟩ : IntType).params .little true 4) w)
      ∧ (∀ r, se_t.operator_post_inc ((⟨4, false⟩ : IntType).params .little true 4) (⟨4, false⟩ : IntType) (⟨.u32 7⟩ : se_t) = some r →
          se_t.invariant ((⟨4, false⟩ : IntType).params .little true 4) r.2)
      ∧ (∀ r, se_t.operator_post_dec ((⟨4, false⟩ : IntType).params .little true 4) (⟨4, false⟩ : IntType) (⟨.u32 7⟩ : se_t) = some r →
          se_t.invariant ((⟨4, false⟩ : IntType).params .little true 4) r.2)
      ∧ ∃ v, se_t.valueInt ((⟨4, false⟩ : IntType).params .little true 4) (⟨4, false⟩ : IntType) (⟨.u32 7⟩ : se_t) = some v
        ∧ (se_t.operator_op_assign ((⟨4, false⟩ : IntType).params .little true 4) (⟨4, false⟩ : IntType) BinOp.add (⟨.u32 7⟩ : se_t) (1 : Int)).isSome
            = ((⟨4, false⟩ : IntType).compound BinOp.add v (1 : Int)).isSome
        ∧ (se_t.operator_pre_inc ((⟨4, false⟩ : IntType).params .little true 4) (⟨4, false⟩ : IntType) (⟨.u32 7⟩ : se_t)).isSome = ((⟨4, false⟩ : IntType).inc v).isSome
        ∧ (se_t.operator_pre_dec ((⟨4, false⟩ : IntType).params .little true 4) (⟨4, false⟩ : IntType) (⟨.u32 7⟩ : se_t)).isSome = ((⟨4, false⟩ : IntType).dec v).isSome
        ∧ (se_t.operator_post_inc ((⟨4, false⟩ : IntType).params .little true 4) (⟨4, false⟩ : IntType) (⟨.u32 7⟩ : se_t)).isSome = ((⟨4, false⟩ : IntType).inc v).isSome
        ∧ (se_t.operator_post_dec ((⟨4, false⟩ : IntType).params .little true 4) (⟨4, false⟩ : IntType) (⟨.u32 7⟩ : se_t)).isSome = ((⟨4, false⟩ : IntType).dec v).isSome) :=
  ⟨⟨by decide, by decide⟩,
    se_t.invariant_at_every_boundary .little ⟨4, false⟩ true 4 (by decide) ⟨.u32 7⟩ (by decide)
      5 1 .add⟩

/-! ## Size, alignment and selection -/

theorem roundUp_of_dvd (n a : Nat) (ha : 0 < a) (hd : a ∣ n) : roundUp n a = n := by
  obtain ⟨q, rfl⟩ := hd
  unfold roundUp
  have h1 : a * q + a - 1 = a - 1 + q * a := by
    rw [Nat.mul_comm a q]
    omega
  rw [h1, Nat.add_mul_div_right _ _ ha, Nat.div_eq_of_lt (by omega), Nat.zero_add,
    Nat.mul_comm]

theorem roundUp_of_le (n a : Nat) (hn : 0 < n) (hle : n ≤ a) : roundUp n a = a := by
  unfold roundUp
  have h1 : n + a - 1 = n - 1 + 1 * a := by omega
  rw [h1, Nat.add_mul_div_right _ _ (by omega), Nat.div_eq_of_lt (by omega)]
  omega

theorem pow_two_dvd_of_le (a s : Nat) (hle : 2 ^ a ≤ 2 ^ s) : 2 ^ a ∣ 2 ^ s := by
  apply Nat.pow_dvd_pow
  by_contra hc
  have : 2 ^ s < 2 ^ a := Nat.pow_lt_pow_right (by decide) (by omega)
  omega

/-- For a type with `sizeof(T) == alignof(T)` and a power of two `Align`, the
representation type has `sizeof` equal to `sizeof(T)` and an alignment that is
at most `Align`, namely `min(Align, alignof(T))` except for `type64`. -/
theorem se_storage.type_layout (T : CType) (Align : Nat) (hT : T.size = T.align)
    (hS : ∃ s, T.size = 2 ^ s) (hA : ∃ a, Align = 2 ^ a) :
    (se_storage.type T Align T.size).sizeof = T.size
      ∧ ((∀ n, se_storage.type T Align T.size ≠ .type64 n) →
          (se_storage.type T Align T.size).alignof = min Align T.align)
      ∧ ((∃ n, se_storage.type T Align T.size = .type64 n) →
          (se_storage.type T Align T.size).alignof = 8)
      ∧ (se_storage.type T Align T.size).alignof = min (min Align T.align) 8 := by
  obtain ⟨s, hs⟩ := hS
  obtain ⟨a, ha⟩ := hA
  have hSpos : 0 < T.size := by rw [hs]; exact Nat.pow_pos (by decide)
  have hApos : 0 < Align := by rw [ha]; exact Nat.pow_pos (by decide)
  unfold se_storage.type
  by_cases c2 : Align = 2 ∧ T.size = 2
  · rw [if_pos c2]
    have : T.align = 2 := by omega
    simp [Shape.sizeof, Shape.size, Shape.alignof, roundUp, c2.1, c2.2, this]
  rw [if_neg c2]
  by_cases c4 : Align = 4 ∧ T.size = 4
  · rw [if_pos c4]
    have : T.align = 4 := by omega
    simp [Shape.sizeof, Shape.size, Shape.alignof, roundUp, c4.1, c4.2, this]
  rw [if_neg c4]
  by_cases c8 : Align = 8 ∧ T.size = 8
  · rw [if_pos c8]
    have : T.align = 8 := by omega
    simp [Shape.sizeof, Shape.size, Shape.alignof, roundUp, c8.1, c8.2, this]
  rw [if_neg c8]
  unfold se_storage.primary_type
  by_cases cw : Align ≥ 8 ∧ T.size % 8 = 0
  · rw [if_pos cw]
    have h8 : 8 ∣ T.size := Nat.dvd_of_mod_eq_zero cw.2
    have hge : 8 ≤ T.size := Nat.le_of_dvd hSpos h8
    have e8 : 8 * (T.size / 8) = T.size := Nat.mul_div_cancel' h8
    refine ⟨?_, fun hn => absurd rfl (hn _), fun _ => rfl, ?_⟩
    · simp only [Shape.sizeof, Shape.size, Shape.alignof]
      rw [e8]
      exact roundUp_of_dvd _ 8 (by decide) h8
    · simp only [Shape.alignof]
      omega
  · rw [if_neg cw]
    have hmin : (if Align > T.align then T.align else Align) = min Align T.align := by
      split <;> omega
    have hmpos : 0 < min Align T.align := by omega
    have hdvd : min Align T.align ∣ T.size := by
      by_cases hle : Align ≤ T.size
      · have : min Align T.align = Align := by omega
        rw [this, ha, hs]
        exact pow_two_dvd_of_le a s (by rw [← ha, ← hs]; exact hle)
      · have : min Align T.align = T.size := by omega
        rw [this]
    have hlt8 : min Align T.align ≤ 8 := by
      by_contra hc
      have h1 : 8 < Align := by omega
      have h2 : 8 < T.size := by omega
      have h3 : 2 ^ 3 ∣ 2 ^ s := pow_two_dvd_of_le 3 s (by rw [← hs]; omega)
      rw [← hs] at h3
      exact cw ⟨by omega, Nat.mod_eq_zero_of_dvd h3⟩
    rw [hmin]
    have hal : (Shape.type8 (min Align T.align) T.size).alignof = min Align T.align := by
      simp only [Shape.alignof]
      omega
    refine ⟨?_, fun _ => hal, fun hn => ?_, ?_⟩
    · simp only [Shape.sizeof, hal, Shape.size]
      exact roundUp_of_dvd _ _ hmpos hdvd
    · obtain ⟨n, hn⟩ := hn
      cases hn
    · rw [hal]
      omega

/-- C11, counterexample: for an 8-byte type with `alignof(T) == 8` and the
requested alignment 16, the class `alignas(16) se_t` has size 16, not 8. -/
theorem se_t.size_preservation_counterexample :
    (⟨8, 8⟩ : CType).size = (⟨8, 8⟩ : CType).align ∧ (16 : Nat) = 2 ^ 4
      ∧ se_t.alignof ⟨.little, ⟨8, 8⟩, true, 16⟩ = 16
      ∧ se_t.sizeof ⟨.little, ⟨8, 8⟩, true, 16⟩ = 16
      ∧ se_t.sizeof ⟨.little, ⟨8, 8⟩, true, 16⟩ ≠ (⟨8, 8⟩ : CType).size := by
  decide

/-- C11, amended: for every logical type with `sizeof(T) == alignof(T)` and
every requested alignment `A` (a power of two), under the layout rule that the
size of a class is its member's size rounded up to the class alignment,
`alignof(se_t<T, Swap, A>) == A` and `sizeof(se_t<T, Swap, A>)` is
`max(sizeof(T), A)`, which is `sizeof(T)` whenever `A <= sizeof(T)`. -/
theorem se_t.size_preservation (p : se_t.Params) (hT : p.T.size = p.T.align)
    (hS : ∃ s, p.T.size = 2 ^ s) (hA : ∃ a, p.Align = 2 ^ a) :
    se_t.alignof p = p.Align
      ∧ se_t.sizeof p = max p.T.size p.Align
      ∧ (p.Align ≤ p.T.size → se_t.sizeof p = p.T.size) := by
  obtain ⟨hsz, _, _, hal⟩ := se_storage.type_layout p.T p.Align hT hS hA
  obtain ⟨s, hs⟩ := hS
  obtain ⟨a, ha⟩ := hA
  have hSpos : 0 < p.T.size := by rw [hs]; exact Nat.pow_pos (by decide)
  have hApos : 0 < p.Align := by rw [ha]; exact Nat.pow_pos (by decide)
  have h1 : se_t.alignof p = p.Align := by
    unfold se_t.alignof se_t.stype
    rw [hal]
    omega
  have h2 : p.Align ≤ p.T.size → se_t.sizeof p = p.T.size := by
    intro hle
    unfold se_t.sizeof
    rw [h1]
    unfold se_t.stype
    rw [hsz]
    apply roundUp_of_dvd _ _ hApos
    rw [ha, hs]
    exact pow_two_dvd_of_le a s (by rw [← ha, ← hs]; exact hle)
  refine ⟨h1, ?_, h2⟩
  by_cases hle : p.Align ≤ p.T.size
  · rw [h2 hle]
    omega
  · unfold se_t.sizeof
    rw [h1]
    unfold se_t.stype
    rw [hsz, roundUp_of_le _ _ hSpos (by omega)]
    omega

theorem se_t.size_preservation_witness :
    ((⟨.little, ⟨4, 4⟩, true, 4⟩ : se_t.Params).T.size
          = (⟨.little, ⟨4, 4⟩, true, 4⟩ : se_t.Params).T.align
        ∧ (∃ s, (⟨.little, ⟨4, 4⟩, true, 4⟩ : se_t.Params).T.size = 2 ^ s)
        ∧ (∃ a, (⟨.little, ⟨4, 4⟩, true, 4⟩ : se_t.Params).Align = 2 ^ a))
      ∧ (se_t.alignof ⟨.little, ⟨4, 4⟩, true, 4⟩
            = (⟨.little, ⟨4, 4⟩, true, 4⟩ : se_t.Params).Align
        ∧ se_t.sizeof ⟨.little, ⟨4, 4⟩, true, 4⟩
            = max (⟨.little, ⟨4, 4⟩, true, 4⟩ : se_t.Params).T.size
                (⟨.little, ⟨4, 4⟩, true, 4⟩ : se_t.Params).Align
        ∧ ((⟨.little, ⟨4, 4⟩, true, 4⟩ : se_t.Params).Align
              ≤ (⟨.little, ⟨4, 4⟩, true, 4⟩ : se_t.Params).T.size →
            se_t.sizeof ⟨.little, ⟨4, 4⟩, true, 4⟩
              = (⟨.little, ⟨4, 4⟩, true, 4⟩ : se_t.Params).T.size)) :=
  ⟨⟨rfl, ⟨2, rfl⟩, ⟨2, rfl⟩⟩,
    se_t.size_preservation ⟨.little, ⟨4, 4⟩, true, 4⟩ rfl ⟨2, rfl⟩ ⟨2, rfl⟩⟩

/-- C12, counterexample: for a 16-byte type with `alignof(T) == 16` and the
requested alignment 16, the representation is `type64` with two words, whose
alignment is 8 and not `min(16, 16)`. -/
theorem se_storage.representation_layout_counterexample :
    (⟨16, 16⟩ : CType).size = (⟨16, 16⟩ : CType).align ∧ (16 : Nat) = 2 ^ 4
      ∧ se_storage.type ⟨16, 16⟩ 16 16 = .type64 2
      ∧ (se_storage.type ⟨16, 16⟩ 16 16).alignof = 8
      ∧ (se_storage.type ⟨16, 16⟩ 16 16).alignof ≠ min 16 (⟨16, 16⟩ : CType).align := by
  decide

/-- C12, amended: for every logical type of size `S` with `S == alignof(T)`
and every requested alignment `A` (a power of two), the representation type
chosen by `se_storage<T, A>` has size exactly `S` on every selection branch;
its alignment is exactly `min(A, alignof(T))` on the 16/32/64-bit integer and
byte-array branches and exactly 8 on the word-array branch, that is
`min(A, alignof(T), 8)` on every branch. -/
theorem se_storage.representation_layout (T : CType) (Align : Nat) (hT : T.size = T.align)
    (hS : ∃ s, T.size = 2 ^ s) (hA : ∃ a, Align = 2 ^ a) :
    (se_storage.type T Align T.size).sizeof = T.size
      ∧ ((∀ n, se_storage.type T Align T.size ≠ .type64 n) →
          (se_storage.type T Align T.size).alignof = min Align T.align)
      ∧ ((∃ n, se_storage.type T Align T.size = .type64 n) →
          (se_storage.type T Align T.size).alignof = 8)
      ∧ (se_storage.type T Align T.size).alignof = min (min Align T.align) 8 :=
  se_storage.type_layout T Align hT hS hA

theorem se_storage.representation_layout_witness :
    ((⟨4, 4⟩ : CType).size = (⟨4, 4⟩ : CType).align ∧ (∃ s, (⟨4, 4⟩ : CType).size = 2 ^ s)
        ∧ (∃ a, 1 = 2 ^ a))
      ∧ ((se_storage.type ⟨4, 4⟩ 1 (⟨4, 4⟩ : CType).size).sizeof = (⟨4, 4⟩ : CType).size
        ∧ ((∀ n, se_storage.type ⟨4, 4⟩ 1 (⟨4, 4⟩ : CType).size ≠ .type64 n) →
            (se_storage.type ⟨4, 4⟩ 1 (⟨4, 4⟩ : CType).size).alignof
              = min 1 (⟨4, 4⟩ : CType).align)
        ∧ ((∃ n, se_storage.type ⟨4, 4⟩ 1 (⟨4, 4⟩ : CType).size = .type64 n) →
            (se_storage.type ⟨4, 4⟩ 1 (⟨4, 4⟩ : CType).size).alignof = 8)
        ∧ (se_storage.type ⟨4, 4⟩ 1 (⟨4, 4⟩ : CType).size).alignof
            = min (min 1 (⟨4, 4⟩ : CType).align) 8) :=
  ⟨⟨rfl, ⟨2, rfl⟩, ⟨0, rfl⟩⟩, se_storage.representation_layout ⟨4, 4⟩ 1 rfl ⟨2, rfl⟩ ⟨0, rfl⟩⟩

/-- C13: the representation chosen by `se_storage` for a requested alignment
`A` and a size `S` is the one the priority list gives, first match wins:
`(A == 2, S == 2)` the 16-bit unsigned integer, `(A == 4, S == 4)` the 32-bit
one, `(A == 8, S == 8)` the 64-bit one, otherwise `(A >= 8, S % 8 == 0)` the
array of `S / 8` 64-bit words, otherwise the byte array of `S` bytes; the
choice is a function of `(A, S)` alone. -/
theorem se_storage.type_follows_selection_policy (T : CType) (Align : Nat) :
    (se_storage.type T Align T.size).representation = selection_policy Align T.size
      ∧ (∀ T2 : CType, T2.size = T.size →
          (se_storage.type T2 Align T2.size).representation
            = (se_storage.type T Align T.size).representation)
      ∧ (∀ T2 : CType, T2.size = T.size → T.align = T.size → T2.align = T2.size →
          se_storage.type T2 Align T2.size = se_storage.type T Align T.size) := by
  have key : ∀ U : CType,
      (se_storage.type U Align U.size).representation = selection_policy Align U.size := by
    intro U
    unfold se_storage.type selection_policy se_storage.primary_type
    split
    · rfl
    split
    · rfl
    split
    · rfl
    split
    · rfl
    · rfl
  refine ⟨key T, fun T2 h2 => ?_, fun T2 h2 hT hT2 => ?_⟩
  · rw [key T2, key T, h2]
  · have : T2 = T := by
      cases T2
      cases T
      simp only [CType.mk.injEq] at *
      omega
    rw [this]

/-! ## Totality and the shape of the generic swap -/

theorem forLoopGuarded_eq (n : Nat) (body : Nat → List Nat → Option (List Nat)) :
    ∀ k fuel i dst, i + k = n → k < fuel →
      forLoopGuarded n body fuel i dst = (forLoop body k i dst).map (fun d => (d, k)) := by
  intro k
  induction k with
  | zero =>
    intro fuel i dst hik hf
    obtain ⟨f, rfl⟩ : ∃ f, fuel = f + 1 := ⟨fuel - 1, by omega⟩
    have : ¬ i < n := by omega
    simp [forLoopGuarded, forLoop, this]
  | succ k ih =>
    intro fuel i dst hik hf
    obtain ⟨f, rfl⟩ : ∃ f, fuel = f + 1 := ⟨fuel - 1, by omega⟩
    have hi : i < n := by omega
    simp only [forLoopGuarded, forLoop, if_pos hi]
    cases hb : body i dst with
    | none => rfl
    | some d =>
      simp only [Option.some_bind]
      rw [ih f (i + 1) d (by omega) (by omega)]
      cases forLoop body k (i + 1) d <;> rfl

theorem indexSub_in_bounds (n i : Nat) (hi : i < n) :
    ∃ j, (indexSub n 1).bind (fun m => indexSub m i) = some j ∧ j < n ∧ j + i + 1 = n := by
  refine ⟨n - 1 - i, ?_, by omega, by omega⟩
  have h1 : 1 ≤ n := by omega
  have h2 : i ≤ n - 1 := by omega
  simp [indexSub, h1, h2]

theorem naive_byte_reversal_eq (bs : List Nat) :
    naive_byte_reversal bs.length bs = bs.reverse := by
  have := map_range_reverse id bs
  simp only [List.map_id_fun, id_eq] at this
  unfold naive_byte_reversal
  rw [← this]
  apply List.map_congr_left
  intro i _
  exact List.getD_eq_getElem?_getD bs _ 0

theorem se_storage.swap_type64 (h : Endian) (T : CType) (Align n : Nat) (ws : List Nat)
    (hsel : se_storage.type T Align T.size = .type64 n)
    (hs : (Storage.type64 ws).hasShape (.type64 n) = true) :
    se_storage.swap h T Align T.size (.type64 ws) = some (.type64 (ws.reverse.map bswap64)) := by
  have hs2 : (Storage.type64 ws).hasShape (se_storage.type T Align T.size) = true := by
    rw [hsel]; exact hs
  rw [se_storage.swap_eq h T Align _ hs2, hsel, Storage.bytes_type64, Storage.ofBytes_type64,
    ← flatMap_intBytes_bswap64_reverse]
  simp only [Storage.hasShape, Bool.and_eq_true, decide_eq_true_eq] at hs
  have hl : (ws.reverse.map bswap64).length = n := by simp [hs.1]
  have := wordsOfBytes_flatMap h (ws.reverse.map bswap64) (by
    intro w hw
    obtain ⟨x, _, rfl⟩ := List.mem_map.mp hw
    exact bswap64_lt x)
  rw [hl] at this
  rw [this]

theorem se_storage.swap_type8 (h : Endian) (T : CType) (Align al : Nat) (bs : List Nat)
    (hsel : se_storage.type T Align T.size = .type8 al T.size)
    (hs : (Storage.type8 bs).hasShape (.type8 al T.size) = true) :
    se_storage.swap h T Align T.size (.type8 bs) = some (.type8 bs.reverse) := by
  have hs2 : (Storage.type8 bs).hasShape (se_storage.type T Align T.size) = true := by
    rw [hsel]; exact hs
  rw [se_storage.swap_eq h T Align _ hs2, hsel]
  rfl

/-- C14: the byte-reversal routines are total. For every size `S` and
every input of that size, every array index the generic swap uses is in
bounds: in the word loop, for `i < S / 8` the index `S / 8 - 1 - i` is
computed without unsigned underflow and lies in `[0, S / 8)`; in the byte
loop, for `i < S` the index `S - 1 - i` lies in `[0, S)`. Run with their
guards, the loops end after exactly `S / 8` and `S` iterations, and the swap
always produces a result of the representation type. -/
theorem se_storage.swap_total (h : Endian) (T : CType) (Align : Nat)
    (src : Storage) (hs : src.hasShape (se_storage.primary_type T Align) = true) :
    (∀ i, i < T.size / 8 →
        ∃ j, (indexSub (T.size / 8) 1).bind (fun m => indexSub m i) = some j
          ∧ j < T.size / 8 ∧ j + i + 1 = T.size / 8)
      ∧ (∀ i, i < T.size →
        ∃ j, (indexSub T.size 1).bind (fun m => indexSub m i) = some j
          ∧ j < T.size ∧ j + i + 1 = T.size)
      ∧ (∀ tmp : List Nat, tmp.length = T.size / 8 →
        ∃ dst, forLoopGuarded (T.size / 8) (se_storage.blockBody (T.size / 8) tmp)
              (T.size / 8 + 1) 0 (List.replicate (T.size / 8) 0) = some (dst, T.size / 8)
          ∧ forLoop (se_storage.blockBody (T.size / 8) tmp) (T.size / 8) 0
              (List.replicate (T.size / 8) 0) = some dst
          ∧ dst.length = T.size / 8)
      ∧ (∀ data : List Nat, data.length = T.size →
        ∃ dst, forLoopGuarded T.size (se_storage.byteBody T.size data)
              (T.size + 1) 0 (List.replicate T.size 0) = some (dst, T.size)
          ∧ forLoop (se_storage.byteBody T.size data) T.size 0
              (List.replicate T.size 0) = some dst
          ∧ dst.length = T.size)
      ∧ ∃ dst, se_storage.swapGeneric h T Align src = some dst
          ∧ dst.hasShape (se_storage.primary_type T Align) = true := by
  refine ⟨fun i hi => indexSub_in_bounds _ i hi, fun i hi => indexSub_in_bounds _ i hi,
    fun tmp hl => ?_, fun data hl => ?_, ?_⟩
  · have hloop := se_storage.blockLoop_eq tmp
    rw [hl] at hloop
    refine ⟨tmp.reverse.map bswap64, ?_, hloop, by simp [hl]⟩
    rw [forLoopGuarded_eq _ _ (T.size / 8) _ 0 _ (by omega) (by omega), hloop]
    rfl
  · have hloop := se_storage.byteLoop_eq data
    rw [hl] at hloop
    refine ⟨data.reverse, ?_, hloop, by simp [hl]⟩
    rw [forLoopGuarded_eq _ _ T.size _ 0 _ (by omega) (by omega), hloop]
    rfl
  · have hb : isBytes (se_storage.primary_type T Align).size (src.bytes h).reverse = true :=
      isBytes_reverse (Storage.bytes_isBytes h hs)
    exact ⟨_, se_storage.swapGeneric_eq h T Align src hs, Storage.hasShape_ofBytes h hb⟩

theorem se_storage.swap_total_witness :
    (Storage.type64 [1, 2, 3]).hasShape (se_storage.primary_type ⟨24, 8⟩ 8) = true
      ∧ ((∀ i, i < (⟨24, 8⟩ : CType).size / 8 →
          ∃ j, (indexSub ((⟨24, 8⟩ : CType).size / 8) 1).bind (fun m => indexSub m i) = some j
            ∧ j < (⟨24, 8⟩ : CType).size / 8 ∧ j + i + 1 = (⟨24, 8⟩ : CType).size / 8)
        ∧ (∀ i, i < (⟨24, 8⟩ : CType).size →
          ∃ j, (indexSub (⟨24, 8⟩ : CType).size 1).bind (fun m => indexSub m i) = some j
            ∧ j < (⟨24, 8⟩ : CType).size ∧ j + i + 1 = (⟨24, 8⟩ : CType).size)
        ∧ (∀ tmp : List Nat, tmp.length = (⟨24, 8⟩ : CType).size / 8 →
          ∃ dst, forLoopGuarded ((⟨24, 8⟩ : CType).size / 8)
                (se_storage.blockBody ((⟨24, 8⟩ : CType).size / 8) tmp)
                ((⟨24, 8⟩ : CType).size / 8 + 1) 0
                (List.replicate ((⟨24, 8⟩ : CType).size / 8) 0)
                = some (dst, (⟨24, 8⟩ : CType).size / 8)
            ∧ forLoop (se_storage.blockBody ((⟨24, 8⟩ : CType).size / 8) tmp)
                ((⟨24, 8⟩ : CType).size / 8) 0
                (List.replicate ((⟨24, 8⟩ : CType).size / 8) 0) = some dst
            ∧ dst.length = (⟨24, 8⟩ : CType).size / 8)
        ∧ (∀ data : List Nat, data.length = (⟨24, 8⟩ : CType).size →
          ∃ dst, forLoopGuarded (⟨24, 8⟩ : CType).size
                (se_storage.byteBody (⟨24, 8⟩ : CType).size data)
                ((⟨24, 8⟩ : CType).size + 1) 0 (List.replicate (⟨24, 8⟩ : CType).size 0)
                = some (dst, (⟨24, 8⟩ : CType).size)
            ∧ forLoop (se_storage.byteBody (⟨24, 8⟩ : CType).size data)
                (⟨24, 8⟩ : CType).size 0 (List.replicate (⟨24, 8⟩ : CType).size 0) = some dst
            ∧ dst.length = (⟨24, 8⟩ : CType).size)
        ∧ ∃ dst, se_storage.swapGeneric .little ⟨24, 8⟩ 8 (Storage.type64 [1, 2, 3]) = some dst
            ∧ dst.hasShape (se_storage.primary_type ⟨24, 8⟩ 8) = true) :=
  ⟨by decide,
    se_storage.swap_total .little ⟨24, 8⟩ 8 (Storage.type64 [1, 2, 3]) (by decide)⟩

/-- C15: on the word-array shape with `n = S / 8` words, `swap` writes
`dst[i] = byteswap64(src[n - 1 - i])` for every `i` in `[0, n)`: the order of
the words is reversed and the bytes of each word are reversed. -/
theorem se_storage.swap_word_array (h : Endian) (T : CType) (Align n : Nat) (ws : List Nat)
    (hsel : se_storage.type T Align T.size = .type64 n)
    (hs : (Storage.type64 ws).hasShape (.type64 n) = true) :
    n = T.size / 8
      ∧ ∃ dst, se_storage.swap h T Align T.size (.type64 ws) = some (.type64 dst)
        ∧ dst.length = n
        ∧ dst = ws.reverse.map bswap64
        ∧ ∀ i, i < n → ∃ w, ws[n - 1 - i]? = some w ∧ dst[i]? = some (bswap64 w) := by
  have hn : n = T.size / 8 := by
    unfold se_storage.type se_storage.primary_type at hsel
    split at hsel
    · cases hsel
    split at hsel
    · cases hsel
    split at hsel
    · cases hsel
    split at hsel
    · cases hsel; rfl
    · cases hsel
  have hl : ws.length = n := by
    simp only [Storage.hasShape, Bool.and_eq_true, decide_eq_true_eq] at hs
    exact hs.1
  refine ⟨hn, ws.reverse.map bswap64, se_storage.swap_type64 h T Align n ws hsel hs,
    by simp [hl], rfl, fun i hi => ?_⟩
  have h1 : n - 1 - i < ws.length := by omega
  refine ⟨ws[n - 1 - i], List.getElem?_eq_getElem h1, ?_⟩
  rw [List.getElem?_map, List.getElem?_reverse (by omega), hl, List.getElem?_eq_getElem h1]
  rfl

theorem se_storage.swap_word_array_witness :
    (se_storage.type ⟨16, 16⟩ 16 (⟨16, 16⟩ : CType).size = .type64 2
        ∧ (Storage.type64 [0x0102030405060708, 0x090a0b0c0d0e0f10]).hasShape (.type64 2) = true)
      ∧ (2 = (⟨16, 16⟩ : CType).size / 8
        ∧ ∃ dst, se_storage.swap .little ⟨16, 16⟩ 16 (⟨16, 16⟩ : CType).size
              (.type64 [0x0102030405060708, 0x090a0b0c0d0e0f10]) = some (.type64 dst)
          ∧ dst.length = 2
          ∧ dst = [0x0102030405060708, 0x090a0b0c0d0e0f10].reverse.map bswap64
          ∧ ∀ i, i < 2 →
              ∃ w, [0x0102030405060708, 0x090a0b0c0d0e0f10][2 - 1 - i]? = some w
                ∧ dst[i]? = some (bswap64 w)) :=
  ⟨⟨by decide, by decide⟩,
    se_storage.swap_word_array .little ⟨16, 16⟩ 16 2 [0x0102030405060708, 0x090a0b0c0d0e0f10]
      (by decide) (by decide)⟩

/-- C16: on the byte-array shape, for every size `S` and every input, the
generic swap returns the same bytes as the naive loop
`dst[i] = src[S - 1 - i]`: its shortcuts (the identity for `S == 1`, the
reinterpretation as a 16/32/64-bit integer with the primitive byte reversal
for `S` in 2, 4, 8, and the loop over the 64-bit blocks for the other
multiples of 8) are equivalent to the byte-by-byte reversal. -/
theorem se_storage.swap_refines_naive (h : Endian) (T : CType) (Align al : Nat) (bs : List Nat)
    (hsel : se_storage.type T Align T.size = .type8 al T.size)
    (hs : (Storage.type8 bs).hasShape (.type8 al T.size) = true) :
    se_storage.swap h T Align T.size (.type8 bs)
      = some (.type8 (naive_byte_reversal T.size bs)) := by
  have hl : bs.length = T.size := by
    simp only [Storage.hasShape, Bool.and_eq_true, decide_eq_true_eq] at hs
    exact hs.1
  rw [se_storage.swap_type8 h T Align al bs hsel hs, ← hl, naive_byte_reversal_eq]

theorem se_storage.swap_refines_naive_witness :
    (se_storage.type ⟨16, 16⟩ 4 (⟨16, 16⟩ : CType).size = .type8 4 (⟨16, 16⟩ : CType).size
        ∧ (Storage.type8 [0, 1, 2, 3, 4, 5, 6, 7, 8, 9, 10, 11, 12, 13, 14, 15]).hasShape
            (.type8 4 (⟨16, 16⟩ : CType).size) = true)
      ∧ se_storage.swap .big ⟨16, 16⟩ 4 (⟨16, 16⟩ : CType).size
            (.type8 [0, 1, 2, 3, 4, 5, 6, 7, 8, 9, 10, 11, 12, 13, 14, 15])
          = some (.type8 (naive_byte_reversal (⟨16, 16⟩ : CType).size
              [0, 1, 2, 3, 4, 5, 6, 7, 8, 9, 10, 11, 12, 13, 14, 15])) :=
  ⟨⟨by decide, by decide⟩,
    se_storage.swap_refines_naive .big ⟨16, 16⟩ 4 4
      [0, 1, 2, 3, 4, 5, 6, 7, 8, 9, 10, 11, 12, 13, 14, 15] (by decide) (by decide)⟩

/-- C17, counterexample: for an 8-byte type with `alignof(T) == 8` and the
requested alignment 16 no specialisation matches, the primary template selects
`type64` with a single word, and the size is 8. -/
theorem se_storage.word_array_size_counterexample :
    (⟨8, 8⟩ : CType).size = (⟨8, 8⟩ : CType).align
      ∧ se_storage.type ⟨8, 8⟩ 16 (⟨8, 8⟩ : CType).size = .type64 1
      ∧ ¬ (8 < (⟨8, 8⟩ : CType).size) := by
  decide

/-- C17, amended: whenever `se_storage` selects the word-array shape for a
type with `sizeof(T) == alignof(T)` and a requested alignment `A`, the size
satisfies `S >= 8`, the array has `S / 8 >= 1` words, and `S > 8` (at least
two words) whenever `A == 8`; a single word occurs only with `A > 8`. -/
theorem se_storage.word_array_size (T : CType) (Align n : Nat) (hpos : 0 < T.size)
    (hsel : se_storage.type T Align T.size = .type64 n) :
    8 ≤ T.size ∧ T.size % 8 = 0 ∧ n = T.size / 8 ∧ 1 ≤ n
      ∧ (Align = 8 → 8 < T.size) ∧ (T.size = 8 → 8 < Align) := by
  unfold se_storage.type se_storage.primary_type at hsel
  split at hsel
  · cases hsel
  split at hsel
  · cases hsel
  split at hsel
  · cases hsel
  split at hsel
  · rename_i c2 c4 c8 cw
    cases hsel
    have h8 : 8 ≤ T.size := by omega
    refine ⟨h8, cw.2, rfl, ?_, ?_, ?_⟩ <;> omega
  · cases hsel

theorem se_storage.word_array_size_witness :
    (0 < (⟨16, 16⟩ : CType).size
        ∧ se_storage.type ⟨16, 16⟩ 16 (⟨16, 16⟩ : CType).size = .type64 2)
      ∧ (8 ≤ (⟨16, 16⟩ : CType).size ∧ (⟨16, 16⟩ : CType).size % 8 = 0
        ∧ 2 = (⟨16, 16⟩ : CType).size / 8 ∧ 1 ≤ 2
        ∧ (16 = 8 → 8 < (⟨16, 16⟩ : CType).size)
        ∧ ((⟨16, 16⟩ : CType).size = 8 → 8 < 16)) :=
  ⟨⟨by decide, by decide⟩, se_storage.word_array_size ⟨16, 16⟩ 16 2 (by decide) (by decide)⟩

/-! ## Sequences of operations and the `Swap` flag -/

theorem se_t.step_eq (p : se_t.Params) (I : IntType) (self : se_t) (v : Int)
    (hv : se_t.valueInt p I self = some v) (o : se_t.Op) :
    se_t.step p I self o
      = (I.step v o).bind (fun r => (se_t.assignInt p I self r.1).map (fun s => (s, r.2))) := by
  cases o with
  | assign x => rfl
  | op_assign op rhs =>
    simp only [se_t.step, IntType.step, se_t.operator_op_assign_eq p I op self rhs v hv]
    cases I.compound op v rhs <;> rfl
  | pre_inc =>
    simp only [se_t.step, IntType.step, se_t.operator_pre_inc_eq p I self v hv]
    cases I.inc v <;> rfl
  | pre_dec =>
    simp only [se_t.step, IntType.step, se_t.operator_pre_dec_eq p I self v hv]
    cases I.dec v <;> rfl
  | post_inc =>
    simp only [se_t.step, IntType.step, se_t.operator_post_inc_eq p I self v hv]
    cases I.inc v with
    | none => rfl
    | some r =>
      simp only [Option.some_bind, Option.map_some']
      cases se_t.assignInt p I self r <;> rfl
  | post_dec =>
    simp only [se_t.step, IntType.step, se_t.operator_post_dec_eq p I self v hv]
    cases I.dec v with
    | none => rfl
    | some r =>
      simp only [Option.some_bind, Option.map_some']
      cases se_t.assignInt p I self r <;> rfl

theorem IntType.step_inRange (I : IntType) (hsz : 0 < I.size) (a : Int) (o : se_t.Op)
    (ho : o.wellTyped I = true) (r : Int × Option Int) (hr : I.step a o = some r) :
    I.inRange r.1 = true := by
  cases o with
  | assign x =>
    simp only [IntType.step, Option.some.injEq] at hr
    rw [← hr]
    exact ho
  | op_assign op rhs =>
    simp only [IntType.step, Option.map_eq_some'] at hr
    obtain ⟨x, hx, rfl⟩ := hr
    exact I.compound_inRange hsz op a rhs x hx
  | pre_inc =>
    simp only [IntType.step, Option.map_eq_some'] at hr
    obtain ⟨x, hx, rfl⟩ := hr
    exact I.compound_inRange hsz .add a 1 x hx
  | pre_dec =>
    simp only [IntType.step, Option.map_eq_some'] at hr
    obtain ⟨x, hx, rfl⟩ := hr
    exact I.compound_inRange hsz .sub a 1 x hx
  | post_inc =>
    simp only [IntType.step, Option.map_eq_some'] at hr
    obtain ⟨x, hx, rfl⟩ := hr
    exact I.compound_inRange hsz .add a 1 x hx
  | post_dec =>
    simp only [IntType.step, Option.map_eq_some'] at hr
    obtain ⟨x, hx, rfl⟩ := hr
    exact I.compound_inRange hsz .sub a 1 x hx

/-- A sequence of operations on a wrapper holding `v` gives the observations
of the same sequence on a native variable holding `v`. -/
theorem se_t.run_eq_native (h : Endian) (I : IntType) (Swap : Bool) (Align : Nat)
    (hsz : 0 < I.size) (ops : List se_t.Op) :
    (∀ o ∈ ops, o.wellTyped I = true) → ∀ (self : se_t) (v : Int),
      se_t.valueInt (I.params h Swap Align) I self = some v →
      se_t.run (I.params h Swap Align) I ops self = I.run ops v := by
  induction ops with
  | nil => intro _ _ _ _; rfl
  | cons o os ih =>
    intro hops self v hv
    have ho := hops o (List.mem_cons_self _ _)
    have hos : ∀ x ∈ os, x.wellTyped I = true := fun x hx => hops x (List.mem_cons_of_mem _ hx)
    simp only [se_t.run, IntType.run]
    rw [se_t.step_eq _ I self v hv o]
    cases hst : I.step v o with
    | none => rfl
    | some r =>
      obtain ⟨w, hw, _, _, hval⟩ := se_t.assignInt_spec h I Swap Align hsz self r.1
      have hr := hval (I.step_inRange hsz v o ho r hst)
      simp only [Option.some_bind, hw, Option.map_some', hr]
      rw [ih hos w r.1 hr]

/-- The observations of a wrapper constructed from `a` and then operated on. -/
theorem se_t.construct_run_eq_native (h : Endian) (I : IntType) (Swap : Bool) (Align : Nat)
    (hsz : 0 < I.size) (a : Int) (ha : I.inRange a = true) (ops : List se_t.Op)
    (hops : ∀ o ∈ ops, o.wellTyped I = true) :
    (se_t.constructInt (I.params h Swap Align) I a).bind (fun w =>
        (se_t.valueInt (I.params h Swap Align) I w).bind (fun v =>
          (se_t.run (I.params h Swap Align) I ops w).map (fun t => (v, t))))
      = (I.run ops a).map (fun t => (a, t)) := by
  obtain ⟨w, hw, _, _, hval⟩ := se_t.assignInt_spec h I Swap Align hsz ⟨.type8 []⟩ a
  rw [se_t.constructInt_eq_assignInt _ _ ⟨.type8 []⟩, hw, Option.some_bind, hval ha,
    Option.some_bind, se_t.run_eq_native h I Swap Align hsz ops hops w a (hval ha)]

/-- C18: for every integer logical type and every finite sequence of wrapper
operations (construction from a value, then assignments, compound
assignments, increments and decrements) applied with the same operands, the
logical values observed through `value()` and the values returned by the
postfix increment and decrement are identical for `Swap = true` and
`Swap = false`, and are those of the native scalar: the `Swap` flag changes
only the stored bytes, never a logical result. -/
theorem se_t.swap_flag_unobservable (h : Endian) (I : IntType) (Align : Nat)
    (hsz : 0 < I.size) (a : Int) (ha : I.inRange a = true) (ops : List se_t.Op)
    (hops : ∀ o ∈ ops, o.wellTyped I = true) :
    ((se_t.constructInt (I.params h true Align) I a).bind (fun w =>
        (se_t.valueInt (I.params h true Align) I w).bind (fun v =>
          (se_t.run (I.params h true Align) I ops w).map (fun t => (v, t))))
      = (se_t.constructInt (I.params h false Align) I a).bind (fun w =>
        (se_t.valueInt (I.params h false Align) I w).bind (fun v =>
          (se_t.run (I.params h false Align) I ops w).map (fun t => (v, t)))))
      ∧ ((se_t.constructInt (I.params h true Align) I a).bind (fun w =>
        (se_t.valueInt (I.params h true Align) I w).bind (fun v =>
          (se_t.run (I.params h true Align) I ops w).map (fun t => (v, t))))
        = (I.run ops a).map (fun t => (a, t))) := by
  rw [se_t.construct_run_eq_native h I true Align hsz a ha ops hops,
    se_t.construct_run_eq_native h I false Align hsz a ha ops hops]
  exact ⟨rfl, rfl⟩

set_option maxRecDepth 8000 in
theorem se_t.swap_flag_unobservable_witness :
    (0 < (⟨2, false⟩ : IntType).size ∧ (⟨2, false⟩ : IntType).inRange (65535 : Int) = true
        ∧ ∀ o ∈ [se_t.Op.post_inc, se_t.Op.op_assign .sub 3, se_t.Op.assign 7,
            se_t.Op.pre_dec], o.wellTyped (⟨2, false⟩ : IntType) = true)
      ∧ (((se_t.constructInt ((⟨2, false⟩ : IntType).params .little true 2) ⟨2, false⟩
            (65535 : Int)).bind (fun w =>
          (se_t.valueInt ((⟨2, false⟩ : IntType).params .little true 2) ⟨2, false⟩ w).bind
            (fun v =>
              (se_t.run ((⟨2, false⟩ : IntType).params .little true 2) ⟨2, false⟩
                [se_t.Op.post_inc, se_t.Op.op_assign .sub 3, se_t.Op.assign 7,
                  se_t.Op.pre_dec] w).map (fun t => (v, t))))
        = (se_t.constructInt ((⟨2, false⟩ : IntType).params .little false 2) ⟨2, false⟩
            (65535 : Int)).bind (fun w =>
          (se_t.valueInt ((⟨2, false⟩ : IntType).params .little false 2) ⟨2, false⟩ w).bind
            (fun v =>
              (se_t.run ((⟨2, false⟩ : IntType).params .little false 2) ⟨2, false⟩
                [se_t.Op.post_inc, se_t.Op.op_assign .sub 3, se_t.Op.assign 7,
                  se_t.Op.pre_dec] w).map (fun t => (v, t)))))
        ∧ ((se_t.constructInt ((⟨2, false⟩ : IntType).params .little true 2) ⟨2, false⟩
            (65535 : Int)).bind (fun w =>
          (se_t.valueInt ((⟨2, false⟩ : IntType).params .little true 2) ⟨2, false⟩ w).bind
            (fun v =>
              (se_t.run ((⟨2, false⟩ : IntType).params .little true 2) ⟨2, false⟩
                [se_t.Op.post_inc, se_t.Op.op_assign .sub 3, se_t.Op.assign 7,
                  se_t.Op.pre_dec] w).map (fun t => (v, t))))
          = ((⟨2, false⟩ : IntType).run
              [se_t.Op.post_inc, se_t.Op.op_assign .sub 3, se_t.Op.assign 7,
                se_t.Op.pre_dec] (65535 : Int)).map (fun t => ((65535 : Int), t)))) :=
  ⟨⟨by decide, by decide, by decide⟩,
    se_t.swap_flag_unobservable .little ⟨2, false⟩ 2 (by decide) 65535 (by decide)
      [se_t.Op.post_inc, se_t.Op.op_assign .sub 3, se_t.Op.assign 7, se_t.Op.pre_dec]
      (by decide)⟩

/-! ## Zero test and injectivity of the encoding -/

theorem ofLeBytes_eq_zero (bs : List Nat) : ofLeBytes bs = 0 ↔ ∀ b ∈ bs, b = 0 := by
  induction bs with
  | nil => simp [ofLeBytes]
  | cons b bs ih =>
    simp only [ofLeBytes, List.mem_cons, forall_eq_or_imp]
    rw [← ih]
    omega

theorem intOfBytes_eq_zero (h : Endian) (bs : List Nat) :
    intOfBytes h bs = 0 ↔ ∀ b ∈ bs, b = 0 := by
  cases h
  · exact ofLeBytes_eq_zero bs
  · simp only [intOfBytes]
    rw [ofLeBytes_eq_zero]
    simp

theorem IntType.ofBytes_eq_zero (h : Endian) (I : IntType) (hsz : 0 < I.size) (bs : List Nat)
    (hb : isBytes I.size bs = true) : I.ofBytes h bs = 0 ↔ ∀ b ∈ bs, b = 0 := by
  rw [← intOfBytes_eq_zero h bs]
  have hlt := intOfBytes_lt h I.size bs hb
  rw [← I.modulus_eq] at hlt
  have hm := I.two_half hsz
  have hpos := I.modulus_pos
  unfold IntType.ofBytes
  split
  · rename_i hc
    constructor
    · intro h0; omega
    · intro h0; omega
  · constructor
    · intro h0; exact_mod_cast h0
    · intro h0; exact_mod_cast h0

theorem IntType.ofBytes_reverse_ne_zero (h : Endian) (I : IntType) (hsz : 0 < I.size)
    (bs : List Nat) (hb : isBytes I.size bs = true) :
    (I.ofBytes h bs.reverse != 0) = (I.ofBytes h bs != 0) := by
  have h1 := I.ofBytes_eq_zero h hsz bs hb
  have h2 := I.ofBytes_eq_zero h hsz bs.reverse (isBytes_reverse hb)
  have h3 : I.ofBytes h bs.reverse = 0 ↔ I.ofBytes h bs = 0 := by
    rw [h1, h2]
    exact ⟨fun hx b hm => hx b (List.mem_reverse.mpr hm),
      fun hx b hm => hx b (List.mem_reverse.mp hm)⟩
  by_cases hz : I.ofBytes h bs = 0
  · rw [hz, h3.mpr hz]
  · have hz2 : ¬ I.ofBytes h bs.reverse = 0 := fun hc => hz (h3.mp hc)
    have e1 : (I.ofBytes h bs != 0) = true := bne_iff_ne.mpr hz
    have e2 : (I.ofBytes h bs.reverse != 0) = true := bne_iff_ne.mpr hz2
    rw [e1, e2]

/-- C19: for every integer logical type and both settings of `Swap`, the
`bool` conversion, which tests the stored representation without un-swapping
it (`!!std::bit_cast<type>(m_data)`), returns true exactly when
`value() != 0`: a byte-swapped representation is zero if and only if the
logical value is zero. -/
theorem se_t.operator_bool_iff (h : Endian) (I : IntType) (Swap : Bool) (Align : Nat)
    (hsz : 0 < I.size) (self : se_t)
    (hself : self.m_data.hasShape (se_t.stype (I.params h Swap Align)) = true) :
    ∃ v, se_t.valueInt (I.params h Swap Align) I self = some v
      ∧ se_t.operator_bool (I.params h Swap Align) I self = some (v != 0)
      ∧ (se_t.operator_bool (I.params h Swap Align) I self = some true ↔ v ≠ 0) := by
  have hb : isBytes I.size (self.m_data.bytes h) = true := by
    have := Storage.bytes_isBytes h hself
    rw [se_t.stype_size] at this
    exact this
  have hl : (self.m_data.bytes h).length = I.size := ((isBytes_iff _ _).mp hb).1
  have hval : se_t.valueInt (I.params h Swap Align) I self
      = some (I.ofBytes h (if Swap then (self.m_data.bytes h).reverse else self.m_data.bytes h)) := by
    unfold se_t.valueInt
    rw [se_t.value_eq _ self hself]
    rfl
  have hbool : se_t.operator_bool (I.params h Swap Align) I self
      = some (I.ofBytes h (self.m_data.bytes h) != 0) := by
    unfold se_t.operator_bool bit_cast_type
    rw [show (I.params h Swap Align).host = h from rfl,
      show (I.params h Swap Align).T.size = I.size from rfl, if_pos hl]
    rfl
  have heq : (I.ofBytes h (if Swap then (self.m_data.bytes h).reverse else self.m_data.bytes h)
      != 0) = (I.ofBytes h (self.m_data.bytes h) != 0) := by
    cases Swap with
    | false => rfl
    | true => exact I.ofBytes_reverse_ne_zero h hsz _ hb
  refine ⟨_, hval, by rw [hbool, heq], ?_⟩
  rw [hbool, ← heq]
  simp

theorem se_t.operator_bool_iff_witness :
    (0 < (⟨4, true⟩ : IntType).size
        ∧ (⟨.u32 0x00000100⟩ : se_t).m_data.hasShape
            (se_t.stype ((⟨4, true⟩ : IntType).params .little true 4)) = true)
      ∧ ∃ v, se_t.valueInt ((⟨4, true⟩ : IntType).params .little true 4) ⟨4, true⟩
            ⟨.u32 0x00000100⟩ = some v
        ∧ se_t.operator_bool ((⟨4, true⟩ : IntType).params .little true 4) ⟨4, true⟩
            ⟨.u32 0x00000100⟩ = some (v != 0)
        ∧ (se_t.operator_bool ((⟨4, true⟩ : IntType).params .little true 4) ⟨4, true⟩
            ⟨.u32 0x00000100⟩ = some true ↔ v ≠ 0) :=
  ⟨⟨by decide, by decide⟩,
    se_t.operator_bool_iff .little ⟨4, true⟩ true 4 (by decide) ⟨.u32 0x00000100⟩ (by decide)⟩

theorem reverse_if_injective (c : Bool) (v1 v2 : List Nat)
    (e : (if c then v1.reverse else v1) = (if c then v2.reverse else v2)) : v1 = v2 := by
  cases c with
  | false => simpa using e
  | true => simpa using e

/-- C20: for every storage shape and both settings of `Swap`, the encoding
`to_data` is injective and lossless: it is defined on every logical value,
`value()` recovers the value from what it stored, two logical values have the
same stored representation if and only if they are equal, and two wrappers
hold equal stored representations if and only if `value()` reports equal
values. -/
theorem se_t.to_data_injective (p : se_t.Params) (v1 v2 : List Nat)
    (h1 : isBytes p.T.size v1 = true) (h2 : isBytes p.T.size v2 = true) (w1 w2 : se_t)
    (hw1 : w1.m_data.hasShape (se_t.stype p) = true)
    (hw2 : w2.m_data.hasShape (se_t.stype p) = true) :
    (∃ d, se_t.to_data p v1 = some d ∧ se_t.value p ⟨d⟩ = some v1)
      ∧ (se_t.to_data p v1 = se_t.to_data p v2 ↔ v1 = v2)
      ∧ (w1.m_data = w2.m_data ↔ se_t.value p w1 = se_t.value p w2) := by
  obtain ⟨d1, hd1, hs1, hb1⟩ := se_t.to_data_hasShape p v1 h1
  obtain ⟨d2, hd2, hs2, hb2⟩ := se_t.to_data_hasShape p v2 h2
  have hval := se_t.value_to_data p v1 h1
  rw [hd1, Option.some_bind] at hval
  refine ⟨⟨d1, hd1, hval⟩, ⟨fun e => ?_, fun e => by rw [e]⟩, ⟨fun e => ?_, fun e => ?_⟩⟩
  · rw [hd1, hd2, Option.some.injEq] at e
    rw [e, hb2] at hb1
    exact (reverse_if_injective p.Swap v1 v2 hb1.symm)
  · cases w1
    cases w2
    simp only at e
    rw [e]
  · rw [se_t.value_eq p w1 hw1, se_t.value_eq p w2 hw2, Option.some.injEq] at e
    exact Storage.eq_of_bytes_eq p.host hw1 hw2 (reverse_if_injective p.Swap _ _ e)

theorem se_t.to_data_injective_witness :
    (isBytes (⟨.big, ⟨3, 1⟩, true, 1⟩ : se_t.Params).T.size [1, 2, 3] = true
        ∧ isBytes (⟨.big, ⟨3, 1⟩, true, 1⟩ : se_t.Params).T.size [3, 2, 1] = true
        ∧ (⟨.type8 [7, 8, 9]⟩ : se_t).m_data.hasShape (se_t.stype ⟨.big, ⟨3, 1⟩, true, 1⟩) = true
        ∧ (⟨.type8 [9, 8, 7]⟩ : se_t).m_data.hasShape (se_t.stype ⟨.big, ⟨3, 1⟩, true, 1⟩) = true)
      ∧ ((∃ d, se_t.to_data ⟨.big, ⟨3, 1⟩, true, 1⟩ [1, 2, 3] = some d
            ∧ se_t.value ⟨.big, ⟨3, 1⟩, true, 1⟩ ⟨d⟩ = some [1, 2, 3])
        ∧ (se_t.to_data ⟨.big, ⟨3, 1⟩, true, 1⟩ [1, 2, 3]
              = se_t.to_data ⟨.big, ⟨3, 1⟩, true, 1⟩ [3, 2, 1] ↔ [1, 2, 3] = [3, 2, 1])
        ∧ ((⟨.type8 [7, 8, 9]⟩ : se_t).m_data = (⟨.type8 [9, 8, 7]⟩ : se_t).m_data ↔
            se_t.value ⟨.big, ⟨3, 1⟩, true, 1⟩ ⟨.type8 [7, 8, 9]⟩
              = se_t.value ⟨.big, ⟨3, 1⟩, true, 1⟩ ⟨.type8 [9, 8, 7]⟩)) :=
  ⟨⟨by decide, by decide, by decide, by decide⟩,
    se_t.to_data_injective ⟨.big, ⟨3, 1⟩, true, 1⟩ [1, 2, 3] [3, 2, 1] (by decide) (by decide)
      ⟨.type8 [7, 8, 9]⟩ ⟨.type8 [9, 8, 7]⟩ (by decide) (by decide)⟩

end stx
